import Mathlib

/-!
Grease-pencil geometry builders (`draw/engines/gpencil/gpencil_geom.c`).

A shallow embedding of the stroke geometry builders and of the fill
triangulation cache, followed by the properties proved about them.

Conventions of the embedding.

* `float` values are elements of an arbitrary linearly ordered field `K`
  (exact arithmetic); the definitions are computable and run on `ℚ`.
* C `int`/`short` values are unbounded integers; counts stay far below `2^31`.
* A call that would stop instead of returning (a failed `BLI_assert`, a read
  through a null pointer, a read past the end of an array) returns a `Fault`.
* A vertex buffer is its allocated length together with the chronological list
  of attribute writes made into it.
-/

namespace GPencil

/-! ## Faults and array reads -/

/-- Reasons for which a call stops without returning. -/
inductive Fault where
  | assert_failed
  | null_deref
  | out_of_bounds
  deriving DecidableEq

/-- Read `arr[i]` of a C array holding exactly the elements of the list. -/
def read {α : Type} (arr : List α) (i : Int) : Except Fault α :=
  if i < 0 then .error .out_of_bounds
  else
    match arr.get? i.toNat with
    | some a => .ok a
    | none => .error .out_of_bounds

/-- Dereference a pointer that may be null. -/
def deref {α : Type} (p : Option α) : Except Fault α :=
  match p with
  | some a => .ok a
  | none => .error .null_deref

/-- The loop `for (i = start; i < start + n; i++) body`, threading the state. -/
def for_loop {σ : Type} (body : Nat → σ → Except Fault σ) : Nat → Nat → σ → Except Fault σ
  | _, 0, st => .ok st
  | i, n + 1, st =>
    match body i st with
    | .ok st1 => for_loop body (i + 1) n st1
    | .error e => .error e

/-! ## Data model (`DNA_gpencil_types.h`, `DNA_brush_types.h`) -/

/-- Modelled from the spec: a stroke point (`bGPDspoint`, declared in a header
that is not part of the sources): position, pressure, strength, the two
drawing-surface UV scalars and the selection flags. -/
structure bGPDspoint (K : Type) where
  x : K
  y : K
  z : K
  pressure : K
  strength : K
  uv_fac : K
  uv_rot : K
  flag : Int
  deriving DecidableEq

/-- Modelled from the spec: a cached fill triangle (`bGPDtriangle`): three
indices into the point array and one UV pair per corner. -/
structure bGPDtriangle (K : Type) where
  verts : Nat × Nat × Nat
  uv : (K × K) × (K × K) × (K × K)
  deriving DecidableEq

/-- Modelled from the spec: a palette colour (`PaletteColor`): stroke colour,
fill colour, fill style and flags. -/
structure PaletteColor (K : Type) where
  rgb : K × K × K × K
  fill : K × K × K × K
  fill_style : Int
  flag : Int
  deriving DecidableEq

/-- Modelled from the spec: a stroke (`bGPDstroke`).  `points` and `triangles`
are pointers (possibly null) to arrays; `totpoints` and `tot_triangles` are
stored separately, as in C; `palette` records only whether the pointer is set. -/
structure bGPDstroke (K : Type) where
  points : Option (List (bGPDspoint K))
  triangles : Option (List (bGPDtriangle K))
  totpoints : Int
  tot_triangles : Int
  flag : Int
  palette : Option Unit
  palcolor : Option (PaletteColor K)
  deriving DecidableEq

/-- Modelled from the spec: a frame (`bGPDframe`); only its view matrix
`viewmatrix[4][4]` is used here. -/
structure bGPDframe (K : Type) where
  viewmatrix : Nat → Nat → K

/-- Modelled from the spec: stroke flag bit `GP_STROKE_RECALC_CACHES`, `(1 << 4)`
in the header (the recalculate-caches dirty flag). -/
def GP_STROKE_RECALC_CACHES : Int := 16

/-- Modelled from the spec: stroke flag bit `GP_STROKE_CYCLIC`, `(1 << 7)` in the
header (the cyclic-closed flag). -/
def GP_STROKE_CYCLIC : Int := 128

/-- The element `j` (0, 1 or 2) of a C array of three elements. -/
def at3 {α : Type} (t : α × α × α) (j : Nat) : α :=
  if j = 0 then t.1 else if j = 1 then t.2.1 else t.2.2

/-- The position `&pt->x` read as a `float[3]`. -/
def bGPDspoint.co {K : Type} (pt : bGPDspoint K) : K × K × K := (pt.x, pt.y, pt.z)

/-- Read `gps->points[i]`. -/
def point_at {K : Type} (gps : bGPDstroke K) (i : Int) : Except Fault (bGPDspoint K) :=
  match gps.points with
  | none => .error .null_deref
  | some pts => read pts i

/-! ## External collaborators -/

/-- The services consumed from outside this file: two engine constants
(`gpencil_engine.h`), the square root of the maths library, the polygon
triangulator (entry `i` of the triangle array it fills for the given 2D points,
point count and winding hint) and the per-point surface UV data computed by
`ED_gpencil_calc_stroke_uv`. -/
structure Externals (K : Type) where
  GPENCIL_STRENGTH_MIN : K
  GPENCIL_ALPHA_OPACITY_THRESH : K
  sqrtf : K → K
  BLI_polyfill_calc : List (K × K) → Int → Int → Nat → Nat × Nat × Nat
  stroke_uv : bGPDstroke K → Nat → K × K

/-! ## Vertex buffers and batches (Gawain) -/

/-- Names of the vertex attributes used by the formats of this file. -/
inductive Attr where
  | pos
  | color
  | thickness
  | uvdata
  | texCoord
  | size
  deriving DecidableEq

/-- Modelled from the spec: a vertex buffer: the number of vertices allocated and
the attribute writes `(attribute, vertex index, data)` in the order made. -/
structure Gwn_VertBuf (K : Type) where
  vertex_len : Nat
  writes : List (Attr × Nat × List K)

/-- Primitive topologies. -/
inductive Gwn_PrimType where
  | GWN_PRIM_POINTS
  | GWN_PRIM_LINE_STRIP
  | GWN_PRIM_LINE_STRIP_ADJ
  | GWN_PRIM_TRIS
  deriving DecidableEq

/-- Modelled from the spec: a batch bundles a vertex buffer with a topology. -/
structure Gwn_Batch (K : Type) where
  prim_type : Gwn_PrimType
  verts : Gwn_VertBuf K

/-- Modelled from the spec: `GWN_vertbuf_create_with_format`: a buffer with
nothing allocated. -/
def GWN_vertbuf_create_with_format {K : Type} : Gwn_VertBuf K := ⟨0, []⟩

/-- Modelled from the spec: `GWN_vertbuf_data_alloc(vbo, v_ct)`. -/
def GWN_vertbuf_data_alloc {K : Type} (vbo : Gwn_VertBuf K) (v_ct : Int) : Gwn_VertBuf K :=
  { vbo with vertex_len := v_ct.toNat }

/-- Modelled from the spec: `GWN_vertbuf_attr_set(vbo, a_idx, v_idx, data)`. -/
def GWN_vertbuf_attr_set {K : Type} (vbo : Gwn_VertBuf K) (a : Attr) (idx : Nat)
    (data : List K) : Gwn_VertBuf K :=
  { vbo with writes := vbo.writes ++ [(a, idx, data)] }

/-- Modelled from the spec: `GWN_batch_create_ex(prim, vbo, NULL, GWN_BATCH_OWNS_VBO)`. -/
def GWN_batch_create_ex {K : Type} (prim : Gwn_PrimType) (vbo : Gwn_VertBuf K) : Gwn_Batch K :=
  ⟨prim, vbo⟩

/-- The vertex indices at which attribute `a` was written, in order. -/
def Gwn_VertBuf.written {K : Type} (vbo : Gwn_VertBuf K) (a : Attr) : List Nat :=
  (vbo.writes.filter (fun w => decide (w.1 = a))).map (fun w => w.2.1)

/-- The data most recently written for attribute `a` of vertex `idx`. -/
def Gwn_VertBuf.attr_get {K : Type} (vbo : Gwn_VertBuf K) (a : Attr) (idx : Nat) :
    Option (List K) :=
  (vbo.writes.reverse.find? (fun w => decide (w.1 = a ∧ w.2.1 = idx))).map (fun w => w.2.2)

/-! ## Maths library (`BLI_math`) -/

section Field

variable {K : Type} [LinearOrderedField K]

/-- Modelled from the spec: `sub_v3_v3v3`, the difference `a - b`. -/
def sub_v3_v3v3 (a b : K × K × K) : K × K × K :=
  (a.1 - b.1, a.2.1 - b.2.1, a.2.2 - b.2.2)

/-- Modelled from the spec: `cross_v3_v3v3`, the cross product `a × b`. -/
def cross_v3_v3v3 (a b : K × K × K) : K × K × K :=
  (a.2.1 * b.2.2 - a.2.2 * b.2.1, a.2.2 * b.1 - a.1 * b.2.2, a.1 * b.2.1 - a.2.1 * b.1)

/-- Modelled from the spec: `dot_v3v3`, the dot product. -/
def dot_v3v3 (a b : K × K × K) : K :=
  a.1 * b.1 + a.2.1 * b.2.1 + a.2.2 * b.2.2

/-- Modelled from the spec: `normalize_v3`: the vector scaled to length 1, the
zero vector staying zero. -/
def normalize_v3 (sqrtf : K → K) (a : K × K × K) : K × K × K :=
  let d := dot_v3v3 a a
  if d > 0 then
    let l := sqrtf d
    (a.1 * (1 / l), a.2.1 * (1 / l), a.2.2 * (1 / l))
  else (0, 0, 0)

/-- Modelled from the spec: `mul_v3_m4v3`, the point `v` transformed by the 4x4
matrix `m`. -/
def mul_v3_m4v3 (m : Nat → Nat → K) (v : K × K × K) : K × K × K :=
  (v.1 * m 0 0 + v.2.1 * m 1 0 + v.2.2 * m 2 0 + m 3 0,
   v.1 * m 0 1 + v.2.1 * m 1 1 + v.2.2 * m 2 1 + m 3 1,
   v.1 * m 0 2 + v.2.1 * m 1 2 + v.2.2 * m 2 2 + m 3 2)

/-- The macro `CLAMP(a, b, c)`. -/
def CLAMP (a b c : K) : K :=
  if a < b then b else if a > c then c else a

/-- Modelled from the spec: `max_ff`. -/
def max_ff (a b : K) : K := if a > b then a else b

/-! ## Outline builder -/

/-- Source `gpencil_set_stroke_point`: set stroke point to vbo. -/
def gpencil_set_stroke_point (E : Externals K) (vbo : Gwn_VertBuf K) (matrix : Nat → Nat → K)
    (pt : bGPDspoint K) (idx : Nat) (thickness : Int) (ink : K × K × K × K) : Gwn_VertBuf K :=
  let alpha := CLAMP (ink.2.2.2 * pt.strength) E.GPENCIL_STRENGTH_MIN 1
  let col := [ink.1, ink.2.1, ink.2.2.1, alpha]
  let vbo := GWN_vertbuf_attr_set vbo .color idx col
  let uvdata := [pt.uv_fac, pt.uv_rot]
  let vbo := GWN_vertbuf_attr_set vbo .uvdata idx uvdata
  let _viewfpt := mul_v3_m4v3 matrix pt.co
  let thick := max_ff (pt.pressure * (thickness : K)) 1
  let vbo := GWN_vertbuf_attr_set vbo .thickness idx [thick]
  GWN_vertbuf_attr_set vbo .pos idx [pt.x, pt.y, pt.z]

/-- Whether `gps->flag & GP_STROKE_CYCLIC` is non-zero. -/
def is_cyclic (gps : bGPDstroke K) : Bool :=
  decide (Int.land gps.flag GP_STROKE_CYCLIC ≠ 0)

/-- Body of the point loop of `DRW_gpencil_get_stroke_geom`; the state is the
buffer and the running index `idx`. -/
def stroke_geom_body (E : Externals K) (gpf : bGPDframe K) (gps : bGPDstroke K)
    (thickness : Int) (ink : K × K × K × K) (i : Nat) (st : Gwn_VertBuf K × Nat) :
    Except Fault (Gwn_VertBuf K × Nat) := do
  let st1 ←
    if i = 0 then
      if is_cyclic gps ∧ gps.totpoints > 2 then do
        let p ← point_at gps (gps.totpoints - 1)
        pure (gpencil_set_stroke_point E st.1 gpf.viewmatrix p st.2 thickness ink, st.2 + 1)
      else do
        let p ← point_at gps 1
        pure (gpencil_set_stroke_point E st.1 gpf.viewmatrix p st.2 thickness ink, st.2 + 1)
    else pure st
  let pt ← point_at gps i
  pure (gpencil_set_stroke_point E st1.1 gpf.viewmatrix pt st1.2 thickness ink, st1.2 + 1)

/-- Source `DRW_gpencil_get_stroke_geom`: create batch geometry data for stroke
shader. -/
def DRW_gpencil_get_stroke_geom (E : Externals K) (gpf : bGPDframe K) (gps : bGPDstroke K)
    (thickness : Int) (ink : K × K × K × K) : Except Fault (Gwn_Batch K) := do
  let totpoints := gps.totpoints
  let cyclic_add : Int := if is_cyclic gps then 1 else 0
  let vbo : Gwn_VertBuf K := GWN_vertbuf_create_with_format
  let vbo := GWN_vertbuf_data_alloc vbo (totpoints + cyclic_add + 2)
  let st ← for_loop (stroke_geom_body E gpf gps thickness ink) 0 totpoints.toNat (vbo, 0)
  if is_cyclic gps ∧ totpoints > 2 then do
    let p0 ← point_at gps 0
    let vbo := gpencil_set_stroke_point E st.1 gpf.viewmatrix p0 st.2 thickness ink
    let p1 ← point_at gps 1
    let vbo := gpencil_set_stroke_point E vbo gpf.viewmatrix p1 (st.2 + 1) thickness ink
    pure (GWN_batch_create_ex .GWN_PRIM_LINE_STRIP_ADJ vbo)
  else do
    let p ← point_at gps (totpoints - 2)
    let vbo := gpencil_set_stroke_point E st.1 gpf.viewmatrix p st.2 thickness ink
    pure (GWN_batch_create_ex .GWN_PRIM_LINE_STRIP_ADJ vbo)

/-! ## Bounding box and fill UVs -/

/-- One iteration of the min/max loop of `gpencil_calc_2d_bounding_box`; the
state is `(minv, maxv)`. -/
def bounding_box_step (mm : (K × K) × (K × K)) (p : K × K) : (K × K) × (K × K) :=
  let minv0 := if p.1 < mm.1.1 then p.1 else mm.1.1
  let minv1 := if p.2 < mm.1.2 then p.2 else mm.1.2
  let maxv0 := if p.1 > mm.2.1 then p.1 else mm.2.1
  let maxv1 := if p.2 > mm.2.2 then p.2 else mm.2.2
  ((minv0, minv1), (maxv0, maxv1))

/-- Source `gpencil_calc_2d_bounding_box`: calc bounding box in 2d using flat
projection data.  The array `points2d` of `totpoints` elements is the list; the
result is `(minv, maxv)`.  Reading `points2d[0]` of an empty array is a fault. -/
def gpencil_calc_2d_bounding_box (points2d : List (K × K)) (expand : Bool) :
    Except Fault ((K × K) × (K × K)) :=
  match points2d with
  | [] => .error .out_of_bounds
  | p0 :: rest =>
    let mm := rest.foldl bounding_box_step ((p0.1, p0.2), (p0.1, p0.2))
    if expand = false then
      if mm.2.1 > mm.2.2 then .ok (mm.1, (mm.2.1, mm.2.1))
      else .ok (mm.1, (mm.2.2, mm.2.2))
    else .ok mm

/-- Source `gpencil_calc_stroke_fill_uv`: calc texture coordinates using flat
projected points.  (A zero extent is a division by zero: outside exact
arithmetic, where the value written is left unspecified by the properties
below.) -/
def gpencil_calc_stroke_fill_uv (points2d : List (K × K)) (minv maxv : K × K) : List (K × K) :=
  let d := (maxv.1 - minv.1, maxv.2 - minv.2)
  points2d.map (fun p => ((p.1 - minv.1) / d.1, (p.2 - minv.2) / d.2))

/-! ## Flattening -/

/-- The C conversion `(int)x` of a float: truncation toward zero. -/
def int_of_float [FloorRing K] (x : K) : Int :=
  if 0 ≤ x then Int.floor x else Int.ceil x

/-- Body of the projection loop of `gpencil_stroke_2d_flat`: get point `i` in
local space, using the first point as origin; the state is the part of
`points2d` written so far. -/
def stroke_2d_flat_body (points : List (bGPDspoint K)) (pt0 : bGPDspoint K)
    (locx locy : K × K × K) (i : Nat) (points2d : List (K × K)) :
    Except Fault (List (K × K)) := do
  let pt ← read points i
  let loc := sub_v3_v3v3 pt.co pt0.co
  pure (points2d ++ [(dot_v3v3 loc locx, dot_v3v3 loc locy)])

/-- Source `gpencil_stroke_2d_flat`: get points of stroke always flat to view, not
affected by camera view or view position.  Returns `(points2d, direction)`. -/
def gpencil_stroke_2d_flat [FloorRing K] (E : Externals K) (points : List (bGPDspoint K))
    (totpoints : Int) : Except Fault (List (K × K) × Int) := do
  let pt0 ← read points 0
  let pt1 ← read points 1
  let pt3 ← read points (int_of_float ((totpoints : K) * 0.75))
  let locx := sub_v3_v3v3 pt1.co pt0.co
  let loc3 := sub_v3_v3v3 pt3.co pt0.co
  let normal := cross_v3_v3v3 locx loc3
  let locy := cross_v3_v3v3 normal locx
  let locx := normalize_v3 E.sqrtf locx
  let locy := normalize_v3 E.sqrtf locy
  let points2d ← for_loop (stroke_2d_flat_body points pt0 locx locy) 0 totpoints.toNat []
  pure (points2d, int_of_float locy.2.2)

/-! ## Triangulation cache -/

/-- Write `arr[i] = v` into a C array holding exactly the elements of the list. -/
def write {α : Type} (arr : List α) (i : Int) (v : α) : Except Fault (List α) :=
  if i < 0 ∨ (arr.length : Int) ≤ i then .error .out_of_bounds
  else .ok (arr.set i.toNat v)

/-- A zero-initialised triangle. -/
def zero_triangle : bGPDtriangle K := ⟨(0, 0, 0), ((0, 0), (0, 0), (0, 0))⟩

/-- Modelled from the spec: `MEM_callocN` of an array of `n` triangles. -/
def MEM_callocN (n : Nat) : List (bGPDtriangle K) := List.replicate n zero_triangle

/-- Modelled from the spec: `MEM_recallocN` of a triangle array to `n` elements:
the old contents are kept and the extension is zero-initialised. -/
def MEM_recallocN (old : List (bGPDtriangle K)) (n : Nat) : List (bGPDtriangle K) :=
  old.take n ++ List.replicate (n - old.length) zero_triangle

/-- Whether `gps->flag & GP_STROKE_RECALC_CACHES` is non-zero. -/
def needs_recalc (gps : bGPDstroke K) : Bool :=
  decide (Int.land gps.flag GP_STROKE_RECALC_CACHES ≠ 0)

/-- The statement `gps->flag &= ~GP_STROKE_RECALC_CACHES`. -/
def clear_recalc (gps : bGPDstroke K) : bGPDstroke K :=
  { gps with flag := Int.land gps.flag (Int.lnot GP_STROKE_RECALC_CACHES) }

/-- Body of the loop of `gp_triangulate_stroke_fill` that saves triangle `i` in
the stroke cache. -/
def save_triangle (tmp_triangles : List (Nat × Nat × Nat)) (uv : List (K × K)) (i : Nat)
    (triangles : List (bGPDtriangle K)) : Except Fault (List (bGPDtriangle K)) := do
  let t ← read tmp_triangles i
  let uv0 ← read uv (t.1 : Int)
  let uv1 ← read uv (t.2.1 : Int)
  let uv2 ← read uv (t.2.2 : Int)
  write triangles i ⟨t, (uv0, uv1, uv2)⟩

/-- Source `gp_triangulate_stroke_fill`: triangulate stroke for high quality fill
(this is done only if cache is null or stroke was modified). -/
def gp_triangulate_stroke_fill [FloorRing K] (E : Externals K) (gps : bGPDstroke K) :
    Except Fault (bGPDstroke K) := do
  if ¬ (gps.totpoints ≥ 3) then throw .assert_failed
  let gps := { gps with tot_triangles := gps.totpoints - 2 }
  let points ← deref gps.points
  let flat ← gpencil_stroke_2d_flat E points gps.totpoints
  let points2d := flat.1
  let direction := flat.2
  let tmp_triangles := (List.range gps.tot_triangles.toNat).map
    (E.BLI_polyfill_calc points2d gps.totpoints direction)
  let mm ← gpencil_calc_2d_bounding_box points2d false
  let uv := gpencil_calc_stroke_fill_uv points2d mm.1 mm.2
  let gps := { gps with tot_triangles := gps.totpoints - 2 }
  let gps ←
    if gps.tot_triangles > 0 then do
      let arr :=
        match gps.triangles with
        | none => MEM_callocN gps.tot_triangles.toNat
        | some old => MEM_recallocN old gps.tot_triangles.toNat
      let arr ← for_loop (save_triangle tmp_triangles uv) 0 gps.tot_triangles.toNat arr
      pure { gps with triangles := some arr }
    else pure { gps with triangles := none }
  let gps := if needs_recalc gps then clear_recalc gps else gps
  pure gps

/-- Modelled from the spec: `ED_gpencil_calc_stroke_uv` (editors code, not part of
the sources), "a separate lightweight pass that recomputes only surface UVs
along the stroke": every point receives the UV data the external computation
gives for it and nothing else of the stroke changes. -/
def ED_gpencil_calc_stroke_uv (E : Externals K) (gps : bGPDstroke K) : bGPDstroke K :=
  { gps with
    points := gps.points.map (fun pts =>
      pts.enum.map (fun ip =>
        { ip.2 with uv_fac := (E.stroke_uv gps ip.1).1, uv_rot := (E.stroke_uv gps ip.1).2 })) }

/-- Source `DRW_gpencil_recalc_geometry_caches`: recalc the internal geometry
caches for fill and uvs. -/
def DRW_gpencil_recalc_geometry_caches [FloorRing K] (E : Externals K) (gps : bGPDstroke K) :
    Except Fault (bGPDstroke K) := do
  if needs_recalc gps then
    let gps ←
      (if gps.tot_triangles = 0 ∨ gps.triangles.isNone then
        if gps.totpoints > 2 then do
          let palcolor ← deref gps.palcolor
          if palcolor.fill.2.2.2 > E.GPENCIL_ALPHA_OPACITY_THRESH ∨ palcolor.fill_style > 0 then
            gp_triangulate_stroke_fill E gps
          else pure gps
        else pure gps
      else pure gps)
    let gps := ED_gpencil_calc_stroke_uv E gps
    pure (clear_recalc gps)
  else pure gps

/-! ## Fill builder -/

/-- Source `gpencil_set_fill_point`: add a new fill point and texture coordinates
to vertex buffer. -/
def gpencil_set_fill_point (vbo : Gwn_VertBuf K) (idx : Nat) (pt : bGPDspoint K)
    (fcolor : K × K × K × K) (uv : K × K) : Gwn_VertBuf K :=
  let vbo := GWN_vertbuf_attr_set vbo .pos idx [pt.x, pt.y, pt.z]
  let vbo := GWN_vertbuf_attr_set vbo .color idx [fcolor.1, fcolor.2.1, fcolor.2.2.1, fcolor.2.2.2]
  GWN_vertbuf_attr_set vbo .texCoord idx [uv.1, uv.2]

/-- Body of the inner loop (over the corner `j`) of `DRW_gpencil_get_fill_geom`. -/
def fill_geom_corner (gps : bGPDstroke K) (color : K × K × K × K)
    (stroke_triangle : bGPDtriangle K) (j : Nat) (st : Gwn_VertBuf K × Nat) :
    Except Fault (Gwn_VertBuf K × Nat) := do
  let pt ← point_at gps (at3 stroke_triangle.verts j : Nat)
  pure (gpencil_set_fill_point st.1 st.2 pt color (at3 stroke_triangle.uv j), st.2 + 1)

/-- Body of the outer loop (over the triangle `i`) of `DRW_gpencil_get_fill_geom`. -/
def fill_geom_body (gps : bGPDstroke K) (color : K × K × K × K) (i : Nat)
    (st : Gwn_VertBuf K × Nat) : Except Fault (Gwn_VertBuf K × Nat) := do
  let triangles ← deref gps.triangles
  let stroke_triangle ← read triangles i
  for_loop (fill_geom_corner gps color stroke_triangle) 0 3 st

/-- Source `DRW_gpencil_get_fill_geom`: create batch geometry data for stroke
shader.  Returns the batch and the stroke as left by the call. -/
def DRW_gpencil_get_fill_geom [FloorRing K] (E : Externals K) (gps : bGPDstroke K)
    (color : K × K × K × K) : Except Fault (Gwn_Batch K × bGPDstroke K) := do
  if ¬ (gps.totpoints ≥ 3) then throw .assert_failed
  let gps ←
    if needs_recalc gps ∨ gps.tot_triangles = 0 ∨ gps.triangles.isNone then do
      let gps ← gp_triangulate_stroke_fill E gps
      pure (ED_gpencil_calc_stroke_uv E gps)
    else pure gps
  if ¬ (gps.tot_triangles ≥ 1) then throw .assert_failed
  let vbo : Gwn_VertBuf K := GWN_vertbuf_create_with_format
  let vbo := GWN_vertbuf_data_alloc vbo (gps.tot_triangles * 3)
  let st ← for_loop (fill_geom_body gps color) 0 gps.tot_triangles.toNat (vbo, 0)
  pure (GWN_batch_create_ex .GWN_PRIM_TRIS st.1, gps)

/-- The contract of the external triangulator: called on `coords_tot` points, each
of the `coords_tot - 2` triangles it returns holds indices of points. -/
def valid_polyfill (E : Externals K) : Prop :=
  ∀ (points2d : List (K × K)) (coords_tot sign : Int) (i : Nat),
    (points2d.length : Int) = coords_tot → (i : Int) + 2 < coords_tot →
      ((E.BLI_polyfill_calc points2d coords_tot sign i).1 : Int) < coords_tot ∧
      ((E.BLI_polyfill_calc points2d coords_tot sign i).2.1 : Int) < coords_tot ∧
      ((E.BLI_polyfill_calc points2d coords_tot sign i).2.2 : Int) < coords_tot

/-- The cache entry described by the index triple `t` and the per-point UV array
`uv`: the three indices and, per corner, the UV of the indexed point. -/
def cached_triangle (uv : List (K × K)) (t : Nat × Nat × Nat) : bGPDtriangle K :=
  ⟨t, (uv.getD t.1 (0, 0), uv.getD t.2.1 (0, 0), uv.getD t.2.2 (0, 0))⟩

end Field

/-! ## Concrete inputs -/

/-- External services used to run the definitions on rationals: thresholds
`0.001`, a square root exact on `0` and `1`, a fan triangulation and zero
surface UV data. -/
def E0 : Externals ℚ where
  GPENCIL_STRENGTH_MIN := 1 / 1000
  GPENCIL_ALPHA_OPACITY_THRESH := 1 / 1000
  sqrtf := fun x => x
  BLI_polyfill_calc := fun _ _ _ i => (0, i + 1, i + 2)
  stroke_uv := fun _ _ => (0, 0)

/-- A point at `(x, y, z)` with pressure and strength 1. -/
def mk_point {K : Type} [LinearOrderedField K] (x y z : K) : bGPDspoint K :=
  ⟨x, y, z, 1, 1, 0, 0, 0⟩

/-- A palette colour with a fully visible fill. -/
def solid_fill : PaletteColor ℚ := ⟨(0, 0, 0, 1), (1, 1, 1, 1), 0, 0⟩

/-- A stroke of the two points `(0,0,0)`, `(1,0,0)`, open, with no cache and a clear
dirty flag. -/
def two_point_stroke : bGPDstroke ℚ :=
  ⟨some [mk_point 0 0 0, mk_point 1 0 0], none, 2, 0, 0, some (), some solid_fill⟩

/-- The two-point stroke still holding a one-triangle cache (as left after the
removal of a point from a three-point stroke) and marked dirty. -/
def short_stale_stroke : bGPDstroke ℚ :=
  { two_point_stroke with
    flag := GP_STROKE_RECALC_CACHES
    tot_triangles := 1
    triangles := some [⟨(0, 1, 2), ((0, 0), (1, 0), (1, 1))⟩] }

/-- The open unit square stroke `(0,0,0)`, `(1,0,0)`, `(1,1,0)`, `(0,1,0)`, with
no cache and a clear dirty flag. -/
def square_stroke : bGPDstroke ℚ :=
  ⟨some [mk_point 0 0 0, mk_point 1 0 0, mk_point 1 1 0, mk_point 0 1 0], none, 4, 0, 0,
    some (), some solid_fill⟩

/-- The unit square stroke marked dirty while its cache still holds the single
triangle computed when the stroke had three points. -/
def stale_stroke : bGPDstroke ℚ :=
  { square_stroke with
    flag := GP_STROKE_RECALC_CACHES
    tot_triangles := 1
    triangles := some [⟨(0, 1, 2), ((0, 0), (1, 0), (1, 1))⟩] }

section Builders

variable {K : Type} [LinearOrderedField K]

/-! ## Points builder -/

/-- Body of the point loop of `DRW_gpencil_get_point_geom`; the state is the buffer
and the running index `idx`. -/
def point_geom_body (E : Externals K) (gps : bGPDstroke K) (thickness : Int)
    (ink : K × K × K × K) (i : Nat) (st : Gwn_VertBuf K × Nat) :
    Except Fault (Gwn_VertBuf K × Nat) := do
  let pt ← point_at gps i
  let alpha := CLAMP (ink.2.2.2 * pt.strength) E.GPENCIL_STRENGTH_MIN 1
  let col := [ink.1, ink.2.1, ink.2.2.1, alpha]
  let thick := max_ff (pt.pressure * (thickness : K)) 1
  let vbo := GWN_vertbuf_attr_set st.1 .color st.2 col
  let vbo := GWN_vertbuf_attr_set vbo .thickness st.2 [thick]
  let uvdata := [pt.uv_fac, pt.uv_rot]
  let vbo := GWN_vertbuf_attr_set vbo .uvdata st.2 uvdata
  let vbo := GWN_vertbuf_attr_set vbo .pos st.2 [pt.x, pt.y, pt.z]
  pure (vbo, st.2 + 1)

/-- Source `DRW_gpencil_get_point_geom`: create batch geometry data for points
stroke shader. -/
def DRW_gpencil_get_point_geom (E : Externals K) (gps : bGPDstroke K) (thickness : Int)
    (ink : K × K × K × K) : Except Fault (Gwn_Batch K) := do
  let vbo : Gwn_VertBuf K := GWN_vertbuf_create_with_format
  let vbo := GWN_vertbuf_data_alloc vbo gps.totpoints
  let st ← for_loop (point_geom_body E gps thickness ink) 0 gps.totpoints.toNat (vbo, 0)
  pure (GWN_batch_create_ex .GWN_PRIM_POINTS st.1)

/-- The vertex `idx` of the buffer holds the point `pt` as the stroke shaders receive
it: colour with the clamped alpha, the two UV scalars in the `uvdata` slot, the
thickness and the position. -/
def holds_point (E : Externals K) (vbo : Gwn_VertBuf K) (idx : Nat) (pt : bGPDspoint K)
    (thickness : Int) (ink : K × K × K × K) : Prop :=
  vbo.attr_get .color idx = some [ink.1, ink.2.1, ink.2.2.1,
    CLAMP (ink.2.2.2 * pt.strength) E.GPENCIL_STRENGTH_MIN 1] ∧
  vbo.attr_get .uvdata idx = some [pt.uv_fac, pt.uv_rot] ∧
  vbo.attr_get .thickness idx = some [max_ff (pt.pressure * (thickness : K)) 1] ∧
  vbo.attr_get .pos idx = some [pt.x, pt.y, pt.z]

/-- The data written for attribute `a` of a vertex that holds the point `pt`. -/
def stroke_vertex (E : Externals K) (pt : bGPDspoint K) (thickness : Int)
    (ink : K × K × K × K) (a : Attr) : List K :=
  match a with
  | .color => [ink.1, ink.2.1, ink.2.2.1,
      CLAMP (ink.2.2.2 * pt.strength) E.GPENCIL_STRENGTH_MIN 1]
  | .uvdata => [pt.uv_fac, pt.uv_rot]
  | .thickness => [max_ff (pt.pressure * (thickness : K)) 1]
  | .pos => [pt.x, pt.y, pt.z]
  | _ => []

/-! ## Drawability -/

/-- Modelled from the spec: palette colour flag bit `PC_COLOR_HIDE`, `(1 << 1)` in the
header (the colour is hidden). -/
def PC_COLOR_HIDE : Int := 2

/-- Modelled from the spec: palette colour flag bit `PC_COLOR_ONIONSKIN`, `(1 << 3)`
in the header (the colour is left out of onion skinning). -/
def PC_COLOR_ONIONSKIN : Int := 8

/-- Source `gpencil_can_draw_stroke`: helper for doing all the checks on whether a
stroke can be drawn.  Returns the answer and the stroke as left by the call. -/
def gpencil_can_draw_stroke (gps : bGPDstroke K) (onion : Bool) : Bool × bGPDstroke K :=
  if gps.points.isNone ∨ gps.totpoints < 1 then (false, gps)
  else if gps.palette.isNone then (false, gps)
  else
    match gps.palcolor with
    | none => (false, gps)
    | some palcolor =>
      if Int.land palcolor.flag PC_COLOR_HIDE ≠ 0 ∨
          (onion = true ∧ Int.land palcolor.flag PC_COLOR_ONIONSKIN ≠ 0) then (false, gps)
      else (true, gps)

/-! ## In-progress buffer and edit overlay: data and services -/

/-- Modelled from the spec: a point of the transient input buffer (`tGPspoint`):
2D coordinates, pressure and strength. -/
structure tGPspoint (K : Type) where
  x : K
  y : K
  pressure : K
  strength : K
  deriving DecidableEq

/-- Modelled from the spec: the grease-pencil datablock (`bGPdata`), as far as the
builders read it: the transient buffer `sbuffer` with its size, the buffer
stroke and fill colours, the flags and the edit line colour. -/
structure bGPdata (K : Type) where
  sbuffer : Option (List (tGPspoint K))
  sbuffer_size : Int
  scolor : K × K × K × K
  sfill : K × K × K × K
  flag : Int
  line_color : K × K × K × K

/-- Modelled from the spec: the active object, as far as the edit builders read it:
its datablock `data`, the active vertex group `actdef` and the number of
links of the vertex group list `defbase`. -/
structure Object (K : Type) where
  data : Option (bGPdata K)
  actdef : Int
  defbase : Nat

/-- The services the buffer and edit builders consume from outside this file: the
active object of the draw context, the drawing reference origin and the
reprojection of a buffer point (`ED_gp_get_drawing_reference`,
`ED_gpencil_tpoint_to_point`), the theme vertex size and selection colour
(`UI_GetThemeValuef`, `UI_GetThemeColor3fv`), the vertex-group weight lookup
(`BKE_gpencil_vgroup_use_index`), `hsv_to_rgb`, and three flag bits of headers
that are not part of the sources. -/
structure Services (K : Type) where
  obact : Object K
  origin : K × K × K
  ED_gpencil_tpoint_to_point : K × K × K → tGPspoint K → bGPDspoint K
  TH_GP_VERTEX_SIZE : K
  TH_GP_VERTEX_SELECT : K × K × K
  BKE_gpencil_vgroup_use_index : bGPDspoint K → Int → K
  hsv_to_rgb : K → K → K → K × K × K
  GP_DATA_STROKE_WEIGHTMODE : Int
  GP_DATA_SHOW_DIRECTION : Int
  GP_SPOINT_SELECT : Int

/-- Modelled from the spec: `BLI_findlink(&ob->defbase, vgindex)` is non-null exactly
when `vgindex` is the index of a link of the list. -/
def BLI_findlink_defbase (ob : Object K) (vgindex : Int) : Bool :=
  decide (0 ≤ vgindex ∧ vgindex < (ob.defbase : Int))

/-- The test `(gpd) && (gpd->flag & GP_DATA_STROKE_WEIGHTMODE)` of the edit builders. -/
def is_weight_paint (S : Services K) : Bool :=
  match S.obact.data with
  | none => false
  | some gpd => decide (Int.land gpd.flag S.GP_DATA_STROKE_WEIGHTMODE ≠ 0)

/-- The vertex group index of the edit builders: `ob->actdef - 1`, or `-1` when the
list has no such link. -/
def edit_vgindex (S : Services K) : Int :=
  if BLI_findlink_defbase S.obact (S.obact.actdef - 1) then S.obact.actdef - 1 else -1

/-- The colour written in weight-paint mode for the looked-up `weight`: the hue ramp
at full saturation and value, with alpha 1. -/
def weight_color (S : Services K) (weight : K) : K × K × K × K :=
  let weight := CLAMP weight 0 1
  let hue := 2 * (1 - weight) / 3
  let rgb := S.hsv_to_rgb hue 1 1
  (rgb.1, rgb.2.1, rgb.2.2, 1)

/-! ## Edit overlay builders -/

/-- The size adjustment at the head of `DRW_gpencil_get_edit_geom`, from the theme
vertex size: returns `(vsize, bsize)`. -/
def edit_sizes [FloorRing K] (S : Services K) : K × K :=
  let bsize := S.TH_GP_VERTEX_SIZE
  if int_of_float bsize > 8 then (10, 8) else (bsize + 2, bsize)

/-- The flag `show_direction_hint` of `DRW_gpencil_get_edit_geom`. -/
def show_direction_hint (S : Services K) (gps : bGPDstroke K) (dflag : Int) : Bool :=
  decide (Int.land dflag S.GP_DATA_SHOW_DIRECTION ≠ 0 ∧ gps.totpoints > 1)

/-- The branches of the point loop of `DRW_gpencil_get_edit_geom` for the point `pt` of
index `i`: returns `selectColor` as left by the iteration, `fcolor` and `fsize`. -/
def edit_geom_point (S : Services K) (gps : bGPDstroke K) (vsize bsize : K)
    (hint : Bool) (i : Nat) (pt : bGPDspoint K) (selectColor : K × K × K × K) :
    Except Fault ((K × K × K × K) × (K × K × K × K) × K) :=
  if is_weight_paint S then
    let weight := S.BKE_gpencil_vgroup_use_index pt (edit_vgindex S)
    let selectColor := weight_color S weight
    pure (selectColor, selectColor, vsize)
  else if hint ∧ i = 0 then
    pure (selectColor, ((0 : K), (1 : K), (0 : K), (1 : K)), vsize + 4)
  else if hint ∧ (i : Int) = gps.totpoints - 1 then
    pure (selectColor, ((1 : K), (0 : K), (0 : K), (1 : K)), vsize + 1)
  else if Int.land pt.flag S.GP_SPOINT_SELECT ≠ 0 then
    pure (selectColor, selectColor, vsize)
  else do
    let palcolor ← deref gps.palcolor
    pure (selectColor, palcolor.rgb, bsize)

/-- Body of the point loop of `DRW_gpencil_get_edit_geom`; the state is the buffer,
the running index `idx` and `selectColor`. -/
def edit_geom_body (S : Services K) (gps : bGPDstroke K) (vsize bsize : K)
    (hint : Bool) (i : Nat) (st : Gwn_VertBuf K × Nat × (K × K × K × K)) :
    Except Fault (Gwn_VertBuf K × Nat × (K × K × K × K)) := do
  let pt ← point_at gps i
  let r ← edit_geom_point S gps vsize bsize hint i pt st.2.2
  let fcolor := r.2.1
  let fsize := r.2.2
  let vbo := GWN_vertbuf_attr_set st.1 .color st.2.1 [fcolor.1, fcolor.2.1, fcolor.2.2.1, fcolor.2.2.2]
  let vbo := GWN_vertbuf_attr_set vbo .size st.2.1 [fsize]
  let vbo := GWN_vertbuf_attr_set vbo .pos st.2.1 [pt.x, pt.y, pt.z]
  pure (vbo, st.2.1 + 1, r.1)

/-- Source `DRW_gpencil_get_edit_geom`: draw selected verts for strokes being edited. -/
def DRW_gpencil_get_edit_geom [FloorRing K] (S : Services K) (gps : bGPDstroke K) (alpha : K)
    (dflag : Int) : Except Fault (Gwn_Batch K) := do
  let vsize := (edit_sizes S).1
  let bsize := (edit_sizes S).2
  let selectColor : K × K × K × K :=
    (S.TH_GP_VERTEX_SELECT.1, S.TH_GP_VERTEX_SELECT.2.1, S.TH_GP_VERTEX_SELECT.2.2, alpha)
  let vbo : Gwn_VertBuf K := GWN_vertbuf_create_with_format
  let vbo := GWN_vertbuf_data_alloc vbo gps.totpoints
  let st ← for_loop (edit_geom_body S gps vsize bsize (show_direction_hint S gps dflag)) 0
    gps.totpoints.toNat (vbo, 0, selectColor)
  pure (GWN_batch_create_ex .GWN_PRIM_POINTS st.1)

/-- Body of the point loop of `DRW_gpencil_get_edlin_geom`; the state is the buffer,
the running index `idx` and `selectColor`. -/
def edlin_geom_body (S : Services K) (gps : bGPDstroke K) (linecolor : K × K × K × K)
    (i : Nat) (st : Gwn_VertBuf K × Nat × (K × K × K × K)) :
    Except Fault (Gwn_VertBuf K × Nat × (K × K × K × K)) := do
  let pt ← point_at gps i
  let r : (K × K × K × K) × (K × K × K × K) :=
    if is_weight_paint S then
      let weight := S.BKE_gpencil_vgroup_use_index pt (edit_vgindex S)
      let selectColor := weight_color S weight
      (selectColor, selectColor)
    else if Int.land pt.flag S.GP_SPOINT_SELECT ≠ 0 then (st.2.2, st.2.2)
    else (st.2.2, linecolor)
  let fcolor := r.2
  let vbo := GWN_vertbuf_attr_set st.1 .color st.2.1 [fcolor.1, fcolor.2.1, fcolor.2.2.1, fcolor.2.2.2]
  let vbo := GWN_vertbuf_attr_set vbo .pos st.2.1 [pt.x, pt.y, pt.z]
  pure (vbo, st.2.1 + 1, r.1)

/-- Source `DRW_gpencil_get_edlin_geom`: draw lines for strokes being edited. -/
def DRW_gpencil_get_edlin_geom (S : Services K) (gps : bGPDstroke K) (alpha : K)
    (_dflag : Int) : Except Fault (Gwn_Batch K) := do
  let selectColor : K × K × K × K :=
    (S.TH_GP_VERTEX_SELECT.1, S.TH_GP_VERTEX_SELECT.2.1, S.TH_GP_VERTEX_SELECT.2.2, alpha)
  let gpd ← deref S.obact.data
  let linecolor := gpd.line_color
  let vbo : Gwn_VertBuf K := GWN_vertbuf_create_with_format
  let vbo := GWN_vertbuf_data_alloc vbo gps.totpoints
  let st ← for_loop (edlin_geom_body S gps linecolor) 0 gps.totpoints.toNat (vbo, 0, selectColor)
  pure (GWN_batch_create_ex .GWN_PRIM_LINE_STRIP st.1)

/-! ## In-progress fill builder -/

/-- Body of the loop of `DRW_gpencil_get_buffer_fill_geom` that converts the buffer
points to the 2D array; the state is the part of `points2d` written so far. -/
def buffer_fill_points2d_body (points : List (tGPspoint K)) (i : Nat)
    (points2d : List (K × K)) : Except Fault (List (K × K)) := do
  let pt ← read points i
  pure (points2d ++ [(pt.x, pt.y)])

/-- Body of the inner loop (over the corner `j`) of `DRW_gpencil_get_buffer_fill_geom`. -/
def buffer_fill_corner (S : Services K) (gpd : bGPdata K) (points : List (tGPspoint K))
    (tri : Nat × Nat × Nat) (j : Nat) (st : Gwn_VertBuf K × Nat) :
    Except Fault (Gwn_VertBuf K × Nat) := do
  let tpt ← read points (at3 tri j : Nat)
  let pt := S.ED_gpencil_tpoint_to_point S.origin tpt
  let vbo := GWN_vertbuf_attr_set st.1 .pos st.2 [pt.x, pt.y, pt.z]
  let vbo := GWN_vertbuf_attr_set vbo .color st.2
    [gpd.sfill.1, gpd.sfill.2.1, gpd.sfill.2.2.1, gpd.sfill.2.2.2]
  pure (vbo, st.2 + 1)

/-- Body of the outer loop (over the triangle `i`) of `DRW_gpencil_get_buffer_fill_geom`. -/
def buffer_fill_body (S : Services K) (gpd : bGPdata K) (points : List (tGPspoint K))
    (tmp_triangles : List (Nat × Nat × Nat)) (i : Nat) (st : Gwn_VertBuf K × Nat) :
    Except Fault (Gwn_VertBuf K × Nat) := do
  let tri ← read tmp_triangles i
  for_loop (buffer_fill_corner S gpd points tri) 0 3 st

/-- Source `DRW_gpencil_get_buffer_fill_geom`: create batch geometry data for current
buffer fill shader.  The result `none` is the null batch. -/
def DRW_gpencil_get_buffer_fill_geom (E : Externals K) (S : Services K)
    (gpd : Option (bGPdata K)) : Except Fault (Option (Gwn_Batch K)) :=
  match gpd with
  | none => pure none
  | some gpd => do
    let totpoints := gpd.sbuffer_size
    if totpoints < 3 then pure none
    else do
      let points ← deref gpd.sbuffer
      let tot_triangles := totpoints - 2
      let points2d ← for_loop (buffer_fill_points2d_body points) 0 totpoints.toNat []
      let tmp_triangles := (List.range tot_triangles.toNat).map
        (E.BLI_polyfill_calc points2d totpoints 0)
      let vbo : Gwn_VertBuf K := GWN_vertbuf_create_with_format
      let vbo ←
        (if tot_triangles > 0 then do
          let vbo := GWN_vertbuf_data_alloc vbo (tot_triangles * 3)
          let st ← for_loop (buffer_fill_body S gpd points tmp_triangles) 0
            tot_triangles.toNat (vbo, 0)
          pure st.1
        else pure vbo : Except Fault (Gwn_VertBuf K))
      pure (some (GWN_batch_create_ex .GWN_PRIM_TRIS vbo))

/-! ## Rigid motions -/

/-- The product `R v` of the 3x3 matrix with rows `R.1`, `R.2.1`, `R.2.2` and the
vector `v`. -/
def mat3_mul_v3 (R : (K × K × K) × (K × K × K) × (K × K × K)) (v : K × K × K) : K × K × K :=
  (dot_v3v3 R.1 v, dot_v3v3 R.2.1 v, dot_v3v3 R.2.2 v)

/-- The determinant of the 3x3 matrix with rows `R.1`, `R.2.1`, `R.2.2`. -/
def det3 (R : (K × K × K) × (K × K × K) × (K × K × K)) : K :=
  dot_v3v3 R.1 (cross_v3_v3v3 R.2.1 R.2.2)

/-- The matrix `R` is a rotation of 3-space: its columns are orthonormal (the
transpose of `R` times `R` is the identity) and its determinant is 1. -/
def is_rotation (R : (K × K × K) × (K × K × K) × (K × K × K)) : Prop :=
  (R.1.1 * R.1.1 + R.2.1.1 * R.2.1.1 + R.2.2.1 * R.2.2.1 = 1 ∧
    R.1.2.1 * R.1.2.1 + R.2.1.2.1 * R.2.1.2.1 + R.2.2.2.1 * R.2.2.2.1 = 1 ∧
    R.1.2.2 * R.1.2.2 + R.2.1.2.2 * R.2.1.2.2 + R.2.2.2.2 * R.2.2.2.2 = 1 ∧
    R.1.1 * R.1.2.1 + R.2.1.1 * R.2.1.2.1 + R.2.2.1 * R.2.2.2.1 = 0 ∧
    R.1.1 * R.1.2.2 + R.2.1.1 * R.2.1.2.2 + R.2.2.1 * R.2.2.2.2 = 0 ∧
    R.1.2.1 * R.1.2.2 + R.2.1.2.1 * R.2.1.2.2 + R.2.2.2.1 * R.2.2.2.2 = 0) ∧
  det3 R = 1

/-- The point `pt` moved by the rigid motion `p ↦ R p + t`; its other data are kept. -/
def rigid_motion (R : (K × K × K) × (K × K × K) × (K × K × K)) (t : K × K × K)
    (pt : bGPDspoint K) : bGPDspoint K :=
  { pt with
    x := (mat3_mul_v3 R pt.co).1 + t.1
    y := (mat3_mul_v3 R pt.co).2.1 + t.2.1
    z := (mat3_mul_v3 R pt.co).2.2 + t.2.2 }

end Builders

/-- A transient buffer of three points, with a red fill colour and no flag set. -/
def buffer_data : bGPdata ℚ :=
  ⟨some [⟨0, 0, 1, 1⟩, ⟨1, 0, 1, 1⟩, ⟨0, 1, 1, 1⟩], 3, (0, 0, 0, 1), (1, 0, 0, 1), 0, (1, 1, 1, 1)⟩

/-- Sample services on rationals: the active object holds `buffer_data`; buffer
points are placed in the plane `z = 0` at the origin; the theme vertex size is 3;
every weight is 0; `hsv_to_rgb` is replaced by the triple of its arguments; the
three flag bits are given sample values. -/
def S0 : Services ℚ where
  obact := ⟨some buffer_data, 1, 1⟩
  origin := (0, 0, 0)
  ED_gpencil_tpoint_to_point := fun o t => ⟨o.1 + t.x, o.2.1 + t.y, o.2.2, t.pressure, t.strength, 0, 0, 0⟩
  TH_GP_VERTEX_SIZE := 3
  TH_GP_VERTEX_SELECT := (1, 1 / 2, 0)
  BKE_gpencil_vgroup_use_index := fun _ _ => 0
  hsv_to_rgb := fun h s v => (h, s, v)
  GP_DATA_STROKE_WEIGHTMODE := 4
  GP_DATA_SHOW_DIRECTION := 2
  GP_SPOINT_SELECT := 1

/-- The sample services with the weight-paint flag of the datablock set. -/
def S0_weight : Services ℚ :=
  { S0 with obact := ⟨some { buffer_data with flag := 4 }, 1, 1⟩ }

/-- A stroke of the single point `(0,0,0)`, with a palette and a visible colour. -/
def one_point_stroke : bGPDstroke ℚ :=
  ⟨some [mk_point 0 0 0], none, 1, 0, 0, some (), some solid_fill⟩

/-! ## The builders as compiled without debug checks

`BLI_assert` expands to nothing outside debug builds and C does not check array
reads.  The definitions of this section follow the same source lines as the
definitions above, with the assertions dropped and with reads of `gps->points`
outside the array yielding the contents `stray i` of the memory found there, instead
of stopping the call. -/

section Release

variable {K : Type} [LinearOrderedField K]

/-- Read `gps->points[i]` without a bounds check: the point `i` inside the array,
the stray contents `stray i` outside it. -/
def point_at_ndebug (stray : Int → bGPDspoint K) (gps : bGPDstroke K) (i : Int) :
    Except Fault (bGPDspoint K) :=
  match gps.points with
  | none => .error .null_deref
  | some pts =>
    match read pts i with
    | .ok p => .ok p
    | .error _ => .ok (stray i)

/-- Body of the point loop of `DRW_gpencil_get_stroke_geom`, reads unchecked. -/
def stroke_geom_body_ndebug (stray : Int → bGPDspoint K) (E : Externals K) (gpf : bGPDframe K)
    (gps : bGPDstroke K) (thickness : Int) (ink : K × K × K × K) (i : Nat)
    (st : Gwn_VertBuf K × Nat) : Except Fault (Gwn_VertBuf K × Nat) := do
  let st1 ←
    if i = 0 then
      if is_cyclic gps ∧ gps.totpoints > 2 then do
        let p ← point_at_ndebug stray gps (gps.totpoints - 1)
        pure (gpencil_set_stroke_point E st.1 gpf.viewmatrix p st.2 thickness ink, st.2 + 1)
      else do
        let p ← point_at_ndebug stray gps 1
        pure (gpencil_set_stroke_point E st.1 gpf.viewmatrix p st.2 thickness ink, st.2 + 1)
    else pure st
  let pt ← point_at_ndebug stray gps i
  pure (gpencil_set_stroke_point E st1.1 gpf.viewmatrix pt st1.2 thickness ink, st1.2 + 1)

/-- Source `DRW_gpencil_get_stroke_geom`, reads unchecked. -/
def DRW_gpencil_get_stroke_geom_ndebug (stray : Int → bGPDspoint K) (E : Externals K)
    (gpf : bGPDframe K) (gps : bGPDstroke K) (thickness : Int) (ink : K × K × K × K) :
    Except Fault (Gwn_Batch K) := do
  let totpoints := gps.totpoints
  let cyclic_add : Int := if is_cyclic gps then 1 else 0
  let vbo : Gwn_VertBuf K := GWN_vertbuf_create_with_format
  let vbo := GWN_vertbuf_data_alloc vbo (totpoints + cyclic_add + 2)
  let st ← for_loop (stroke_geom_body_ndebug stray E gpf gps thickness ink) 0 totpoints.toNat
    (vbo, 0)
  if is_cyclic gps ∧ totpoints > 2 then do
    let p0 ← point_at_ndebug stray gps 0
    let vbo := gpencil_set_stroke_point E st.1 gpf.viewmatrix p0 st.2 thickness ink
    let p1 ← point_at_ndebug stray gps 1
    let vbo := gpencil_set_stroke_point E vbo gpf.viewmatrix p1 (st.2 + 1) thickness ink
    pure (GWN_batch_create_ex .GWN_PRIM_LINE_STRIP_ADJ vbo)
  else do
    let p ← point_at_ndebug stray gps (totpoints - 2)
    let vbo := gpencil_set_stroke_point E st.1 gpf.viewmatrix p st.2 thickness ink
    pure (GWN_batch_create_ex .GWN_PRIM_LINE_STRIP_ADJ vbo)

/-- Source `gp_triangulate_stroke_fill` with `BLI_assert(gps->totpoints >= 3)` compiled
out; the reads of the flattening and of the cache stay checked. -/
def gp_triangulate_stroke_fill_ndebug [FloorRing K] (E : Externals K) (gps : bGPDstroke K) :
    Except Fault (bGPDstroke K) := do
  let gps := { gps with tot_triangles := gps.totpoints - 2 }
  let points ← deref gps.points
  let flat ← gpencil_stroke_2d_flat E points gps.totpoints
  let points2d := flat.1
  let direction := flat.2
  let tmp_triangles := (List.range gps.tot_triangles.toNat).map
    (E.BLI_polyfill_calc points2d gps.totpoints direction)
  let mm ← gpencil_calc_2d_bounding_box points2d false
  let uv := gpencil_calc_stroke_fill_uv points2d mm.1 mm.2
  let gps := { gps with tot_triangles := gps.totpoints - 2 }
  let gps ←
    if gps.tot_triangles > 0 then do
      let arr :=
        match gps.triangles with
        | none => MEM_callocN gps.tot_triangles.toNat
        | some old => MEM_recallocN old gps.tot_triangles.toNat
      let arr ← for_loop (save_triangle tmp_triangles uv) 0 gps.tot_triangles.toNat arr
      pure { gps with triangles := some arr }
    else pure { gps with triangles := none }
  let gps := if needs_recalc gps then clear_recalc gps else gps
  pure gps

/-- Body of the inner loop (over the corner `j`) of `DRW_gpencil_get_fill_geom`, the
read of the point unchecked. -/
def fill_geom_corner_ndebug (stray : Int → bGPDspoint K) (gps : bGPDstroke K)
    (color : K × K × K × K) (stroke_triangle : bGPDtriangle K) (j : Nat)
    (st : Gwn_VertBuf K × Nat) : Except Fault (Gwn_VertBuf K × Nat) := do
  let pt ← point_at_ndebug stray gps (at3 stroke_triangle.verts j : Nat)
  pure (gpencil_set_fill_point st.1 st.2 pt color (at3 stroke_triangle.uv j), st.2 + 1)

/-- Body of the outer loop (over the triangle `i`) of `DRW_gpencil_get_fill_geom`, the
reads of the points unchecked. -/
def fill_geom_body_ndebug (stray : Int → bGPDspoint K) (gps : bGPDstroke K)
    (color : K × K × K × K) (i : Nat) (st : Gwn_VertBuf K × Nat) :
    Except Fault (Gwn_VertBuf K × Nat) := do
  let triangles ← deref gps.triangles
  let stroke_triangle ← read triangles i
  for_loop (fill_geom_corner_ndebug stray gps color stroke_triangle) 0 3 st

/-- Source `DRW_gpencil_get_fill_geom` with its two `BLI_assert` lines compiled out and
the reads of the points unchecked.  Returns the batch and the stroke as left by the
call. -/
def DRW_gpencil_get_fill_geom_ndebug [FloorRing K] (stray : Int → bGPDspoint K)
    (E : Externals K) (gps : bGPDstroke K) (color : K × K × K × K) :
    Except Fault (Gwn_Batch K × bGPDstroke K) := do
  let gps ←
    if needs_recalc gps ∨ gps.tot_triangles = 0 ∨ gps.triangles.isNone then do
      let gps ← gp_triangulate_stroke_fill_ndebug E gps
      pure (ED_gpencil_calc_stroke_uv E gps)
    else pure gps
  let vbo : Gwn_VertBuf K := GWN_vertbuf_create_with_format
  let vbo := GWN_vertbuf_data_alloc vbo (gps.tot_triangles * 3)
  let st ← for_loop (fill_geom_body_ndebug stray gps color) 0 gps.tot_triangles.toNat (vbo, 0)
  pure (GWN_batch_create_ex .GWN_PRIM_TRIS st.1, gps)

end Release

/-- The stroke `short_stale_stroke` with its dirty flag cleared, as the cache refresh
leaves it: two points, a clean flag and the one-triangle cache. -/
def short_cached_stroke : bGPDstroke ℚ :=
  clear_recalc short_stale_stroke

section Proofs

variable {K : Type} [LinearOrderedField K]

/-! ## Basic lemmas -/

@[simp] theorem except_bind_ok {ε α β : Type} (a : α) (f : α → Except ε β) :
    (Except.ok a >>= f) = f a := rfl

@[simp] theorem except_bind_error {ε α β : Type} (e : ε) (f : α → Except ε β) :
    ((Except.error e : Except ε α) >>= f) = Except.error e := rfl

@[simp] theorem except_pure {ε α : Type} (a : α) : (pure a : Except ε α) = Except.ok a := rfl

theorem read_ok {α : Type} (arr : List α) (i : Int) (h0 : 0 ≤ i) (h1 : i < arr.length) :
    ∃ h : i.toNat < arr.length, read arr i = .ok (arr.get ⟨i.toNat, h⟩) := by
  have h : i.toNat < arr.length := by omega
  refine ⟨h, ?_⟩
  unfold read
  rw [if_neg (by omega)]
  simp [List.getElem?_eq_getElem h]

theorem read_nat {α : Type} (arr : List α) (i : Nat) (h : i < arr.length) :
    read arr (i : Int) = .ok (arr.get ⟨i, h⟩) := by
  obtain ⟨h2, e⟩ := read_ok arr (i : Int) (by omega) (by omega)
  rw [e]
  simp

theorem for_loop_succ {σ : Type} (body : Nat → σ → Except Fault σ) (i n : Nat) (st st1 : σ)
    (h : body i st = .ok st1) :
    for_loop body i (n + 1) st = for_loop body (i + 1) n st1 := by
  simp [for_loop, h]

theorem point_at_ok {K : Type} (gps : bGPDstroke K) (pts : List (bGPDspoint K))
    (hpts : gps.points = some pts) (i : Int) (h0 : 0 ≤ i) (h1 : i < pts.length) :
    ∃ p, point_at gps i = .ok p := by
  obtain ⟨h, e⟩ := read_ok pts i h0 h1
  exact ⟨pts.get ⟨i.toNat, h⟩, by simp [point_at, hpts, e]⟩

/-! ## Outline builder: vertex count -/

theorem vertex_len_set_stroke_point (E : Externals K) (vbo : Gwn_VertBuf K) (m : Nat → Nat → K)
    (p : bGPDspoint K) (idx : Nat) (t : Int) (ink : K × K × K × K) :
    (gpencil_set_stroke_point E vbo m p idx t ink).vertex_len = vbo.vertex_len := rfl

theorem written_set_stroke_point (E : Externals K) (vbo : Gwn_VertBuf K) (m : Nat → Nat → K)
    (p : bGPDspoint K) (idx : Nat) (t : Int) (ink : K × K × K × K) (a : Attr)
    (ha : a ∈ [Attr.pos, Attr.color, Attr.thickness, Attr.uvdata]) :
    (gpencil_set_stroke_point E vbo m p idx t ink).written a = vbo.written a ++ [idx] := by
  simp only [List.mem_cons, List.mem_singleton, List.not_mem_nil, or_false] at ha
  rcases ha with h | h | h | h <;> subst h <;>
    simp [gpencil_set_stroke_point, Gwn_VertBuf.written, GWN_vertbuf_attr_set, List.filter_append,
      List.filter_cons]

/-- Iterations `i ≥ 1` of the point loop write one vertex each, at consecutive indices. -/
theorem stroke_loop_tail (E : Externals K) (gpf : bGPDframe K) (gps : bGPDstroke K)
    (thickness : Int) (ink : K × K × K × K) (pts : List (bGPDspoint K))
    (hpts : gps.points = some pts) (n : Nat) :
    ∀ (i : Nat) (vbo : Gwn_VertBuf K) (idx : Nat), 1 ≤ i → i + n ≤ pts.length →
      ∃ vbo1, for_loop (stroke_geom_body E gpf gps thickness ink) i n (vbo, idx)
          = .ok (vbo1, idx + n) ∧ vbo1.vertex_len = vbo.vertex_len ∧
        ∀ a ∈ [Attr.pos, Attr.color, Attr.thickness, Attr.uvdata],
          vbo1.written a = vbo.written a ++ List.range' idx n := by
  induction n with
  | zero =>
    intro i vbo idx _ _
    exact ⟨vbo, rfl, rfl, by simp⟩
  | succ n ih =>
    intro i vbo idx hi hle
    obtain ⟨p, hp⟩ := point_at_ok gps pts hpts (i : Int) (by omega) (by omega)
    have hbody : stroke_geom_body E gpf gps thickness ink i (vbo, idx)
        = .ok (gpencil_set_stroke_point E vbo gpf.viewmatrix p idx thickness ink, idx + 1) := by
      have : i ≠ 0 := by omega
      simp [stroke_geom_body, this, hp]
    obtain ⟨vbo1, h1, h2, h3⟩ := ih (i + 1)
      (gpencil_set_stroke_point E vbo gpf.viewmatrix p idx thickness ink) (idx + 1)
      (by omega) (by omega)
    refine ⟨vbo1, ?_, ?_, ?_⟩
    · rw [for_loop_succ _ _ _ _ _ hbody, h1]
      congr 2
      omega
    · rw [h2, vertex_len_set_stroke_point]
    · intro a ha
      rw [h3 a ha, written_set_stroke_point E vbo _ p idx thickness ink a ha]
      simp [List.range'_succ]

/-- The whole point loop of the outline builder, started on the freshly allocated buffer. -/
theorem stroke_loop_all (E : Externals K) (gpf : bGPDframe K) (gps : bGPDstroke K)
    (thickness : Int) (ink : K × K × K × K) (pts : List (bGPDspoint K))
    (hpts : gps.points = some pts) (hlen : gps.totpoints = (pts.length : Int))
    (h2 : 2 ≤ pts.length) (vbo : Gwn_VertBuf K) (hw : vbo.writes = []) :
    ∃ vbo1, for_loop (stroke_geom_body E gpf gps thickness ink) 0 pts.length (vbo, 0)
        = .ok (vbo1, pts.length + 1) ∧ vbo1.vertex_len = vbo.vertex_len ∧
      ∀ a ∈ [Attr.pos, Attr.color, Attr.thickness, Attr.uvdata],
        vbo1.written a = List.range (pts.length + 1) := by
  obtain ⟨n, hn⟩ : ∃ n, pts.length = n + 1 := ⟨pts.length - 1, by omega⟩
  obtain ⟨p0, hp0⟩ := point_at_ok gps pts hpts 0 (by omega) (by omega)
  obtain ⟨p1, hp1⟩ := point_at_ok gps pts hpts 1 (by omega) (by omega)
  obtain ⟨pl, hpl⟩ := point_at_ok gps pts hpts (gps.totpoints - 1) (by omega) (by omega)
  have hbody : ∃ q, stroke_geom_body E gpf gps thickness ink 0 (vbo, 0)
      = .ok (gpencil_set_stroke_point E
          (gpencil_set_stroke_point E vbo gpf.viewmatrix q 0 thickness ink)
          gpf.viewmatrix p0 1 thickness ink, 2) := by
    by_cases hc : is_cyclic gps = true ∧ gps.totpoints > 2
    · exact ⟨pl, by simp [stroke_geom_body, hc, hpl, hp0]⟩
    · refine ⟨p1, ?_⟩
      simp [stroke_geom_body, hc, hp1, hp0]
  obtain ⟨q, hq⟩ := hbody
  obtain ⟨vbo1, e1, e2, e3⟩ := stroke_loop_tail E gpf gps thickness ink pts hpts n 1
    (gpencil_set_stroke_point E
      (gpencil_set_stroke_point E vbo gpf.viewmatrix q 0 thickness ink)
      gpf.viewmatrix p0 1 thickness ink) 2 (by omega) (by omega)
  refine ⟨vbo1, ?_, ?_, ?_⟩
  · rw [hn, for_loop_succ _ _ _ _ _ hq, e1]
    congr 2
    omega
  · rw [e2]
    rfl
  · intro a ha
    rw [e3 a ha, written_set_stroke_point E _ _ p0 1 thickness ink a ha,
      written_set_stroke_point E _ _ q 0 thickness ink a ha]
    have : vbo.written a = [] := by simp [Gwn_VertBuf.written, hw]
    rw [this, hn]
    simp [List.range_eq_range', List.range'_succ]

/-- C1: the outline builder allocates exactly `N + 2` vertices for a non-cyclic
stroke of `N ≥ 2` points and exactly `N + 3` for a cyclic stroke of `N > 2`
points, and in both cases every attribute of the format is written exactly once
at each of the indices `0 .. count - 1`, in increasing order. -/
theorem stroke_geom_vertex_count (E : Externals K) (gpf : bGPDframe K) (gps : bGPDstroke K)
    (thickness : Int) (ink : K × K × K × K) (pts : List (bGPDspoint K))
    (hpts : gps.points = some pts) (hlen : gps.totpoints = (pts.length : Int)) :
    (is_cyclic gps = false → 2 ≤ pts.length →
      ∃ b, DRW_gpencil_get_stroke_geom E gpf gps thickness ink = .ok b ∧
        b.verts.vertex_len = pts.length + 2 ∧
        ∀ a ∈ [Attr.pos, Attr.color, Attr.thickness, Attr.uvdata],
          b.verts.written a = List.range (pts.length + 2)) ∧
    (is_cyclic gps = true → 2 < pts.length →
      ∃ b, DRW_gpencil_get_stroke_geom E gpf gps thickness ink = .ok b ∧
        b.verts.vertex_len = pts.length + 3 ∧
        ∀ a ∈ [Attr.pos, Attr.color, Attr.thickness, Attr.uvdata],
          b.verts.written a = List.range (pts.length + 3)) := by
  have htn : gps.totpoints.toNat = pts.length := by omega
  constructor
  · intro hc h2
    obtain ⟨vbo1, e1, e2, e3⟩ := stroke_loop_all E gpf gps thickness ink pts hpts hlen h2
      (GWN_vertbuf_data_alloc GWN_vertbuf_create_with_format (gps.totpoints + 2)) rfl
    obtain ⟨p, hp⟩ := point_at_ok gps pts hpts (gps.totpoints - 2) (by omega) (by omega)
    refine ⟨GWN_batch_create_ex .GWN_PRIM_LINE_STRIP_ADJ
      (gpencil_set_stroke_point E vbo1 gpf.viewmatrix p (pts.length + 1) thickness ink), ?_, ?_, ?_⟩
    · simp [DRW_gpencil_get_stroke_geom, hc, htn, e1, hp]
    · show (gpencil_set_stroke_point E vbo1 gpf.viewmatrix p (pts.length + 1) thickness ink).vertex_len
        = pts.length + 2
      rw [vertex_len_set_stroke_point, e2]
      simp [GWN_vertbuf_data_alloc, hlen]
      omega
    · intro a ha
      show (gpencil_set_stroke_point E vbo1 gpf.viewmatrix p (pts.length + 1) thickness ink).written a
        = List.range (pts.length + 2)
      rw [written_set_stroke_point E _ _ _ _ _ _ a ha, e3 a ha, List.range_succ (n := pts.length + 1)]
  · intro hc h2
    obtain ⟨vbo1, e1, e2, e3⟩ := stroke_loop_all E gpf gps thickness ink pts hpts hlen (by omega)
      (GWN_vertbuf_data_alloc GWN_vertbuf_create_with_format (gps.totpoints + 1 + 2)) rfl
    obtain ⟨p0, hp0⟩ := point_at_ok gps pts hpts 0 (by omega) (by omega)
    obtain ⟨p1, hp1⟩ := point_at_ok gps pts hpts 1 (by omega) (by omega)
    have hgt : gps.totpoints > 2 := by omega
    refine ⟨GWN_batch_create_ex .GWN_PRIM_LINE_STRIP_ADJ
      (gpencil_set_stroke_point E
        (gpencil_set_stroke_point E vbo1 gpf.viewmatrix p0 (pts.length + 1) thickness ink)
        gpf.viewmatrix p1 (pts.length + 1 + 1) thickness ink), ?_, ?_, ?_⟩
    · simp [DRW_gpencil_get_stroke_geom, hc, htn, e1, hp0, hp1, hgt]
    · show (gpencil_set_stroke_point E
        (gpencil_set_stroke_point E vbo1 gpf.viewmatrix p0 (pts.length + 1) thickness ink)
        gpf.viewmatrix p1 (pts.length + 1 + 1) thickness ink).vertex_len = pts.length + 3
      rw [vertex_len_set_stroke_point, vertex_len_set_stroke_point, e2]
      simp [GWN_vertbuf_data_alloc, hlen]
      omega
    · intro a ha
      show (gpencil_set_stroke_point E
        (gpencil_set_stroke_point E vbo1 gpf.viewmatrix p0 (pts.length + 1) thickness ink)
        gpf.viewmatrix p1 (pts.length + 1 + 1) thickness ink).written a = List.range (pts.length + 3)
      rw [written_set_stroke_point E _ _ _ _ _ _ a ha, written_set_stroke_point E _ _ _ _ _ _ a ha,
        e3 a ha, List.range_succ (n := pts.length + 2), List.range_succ (n := pts.length + 1)]

/-- C1 witness: the open unit square stroke (four points, six vertices) and the
same stroke made cyclic (seven vertices). -/
theorem stroke_geom_vertex_count_witness :
    (∃ b, DRW_gpencil_get_stroke_geom E0 ⟨fun _ _ => 0⟩ square_stroke 3 (1, 1, 1, 1) = .ok b ∧
        b.verts.vertex_len = 4 + 2 ∧
        ∀ a ∈ [Attr.pos, Attr.color, Attr.thickness, Attr.uvdata],
          b.verts.written a = List.range (4 + 2)) ∧
    (∃ b, DRW_gpencil_get_stroke_geom E0 ⟨fun _ _ => 0⟩
          { square_stroke with flag := GP_STROKE_CYCLIC } 3 (1, 1, 1, 1) = .ok b ∧
        b.verts.vertex_len = 4 + 3 ∧
        ∀ a ∈ [Attr.pos, Attr.color, Attr.thickness, Attr.uvdata],
          b.verts.written a = List.range (4 + 3)) :=
  ⟨(stroke_geom_vertex_count E0 ⟨fun _ _ => 0⟩ square_stroke 3 (1, 1, 1, 1)
      [mk_point 0 0 0, mk_point 1 0 0, mk_point 1 1 0, mk_point 0 1 0] rfl rfl).1
      (by decide) (by decide),
    (stroke_geom_vertex_count E0 ⟨fun _ _ => 0⟩
      { square_stroke with flag := GP_STROKE_CYCLIC } 3 (1, 1, 1, 1)
      [mk_point 0 0 0, mk_point 1 0 0, mk_point 1 1 0, mk_point 0 1 0] rfl rfl).2
      (by decide) (by decide)⟩

/-! ## Flag bits -/

theorem testBit_two_pow_int (k i : Nat) :
    Int.testBit ((2 ^ k : Nat) : Int) i = decide (i = k) := by
  show Nat.testBit (2 ^ k) i = decide (i = k)
  rw [Nat.testBit_two_pow]
  by_cases h : i = k
  · subst h
    simp
  · have h1 : ¬ k = i := fun e => h e.symm
    simp [h, h1]

theorem land_natCast (x : Int) (n : Nat) : ∃ r : Nat, Int.land x (n : Int) = (r : Int) := by
  cases x with
  | ofNat m => exact ⟨m &&& n, rfl⟩
  | negSucc m => exact ⟨Nat.ldiff n m, rfl⟩

theorem land_two_pow_eq_zero_iff (x : Int) (k : Nat) :
    Int.land x ((2 ^ k : Nat) : Int) = 0 ↔ Int.testBit x k = false := by
  constructor
  · intro h
    have := Int.testBit_land x ((2 ^ k : Nat) : Int) k
    have hz : Int.testBit 0 k = false := by
      show Nat.testBit 0 k = false
      simp
    rw [h, testBit_two_pow_int, hz] at this
    simpa using this.symm
  · intro h
    obtain ⟨r, hr⟩ := land_natCast x (2 ^ k)
    have hz : r = 0 := by
      apply Nat.eq_of_testBit_eq
      intro i
      have h1 : Int.testBit (r : Int) i = Nat.testBit r i := rfl
      rw [← h1, ← hr, Int.testBit_land, testBit_two_pow_int]
      by_cases hi : i = k
      · subst hi
        simp [h]
      · simp [hi]
    rw [hr, hz]
    rfl

theorem testBit_recalc (i : Nat) : Int.testBit GP_STROKE_RECALC_CACHES i = decide (i = 4) :=
  testBit_two_pow_int 4 i

theorem needs_recalc_eq_testBit {K : Type} (gps : bGPDstroke K) :
    needs_recalc gps = Int.testBit gps.flag 4 := by
  unfold needs_recalc
  have key := land_two_pow_eq_zero_iff gps.flag 4
  by_cases h : Int.testBit gps.flag 4 = false
  · rw [h]
    have h0 : Int.land gps.flag GP_STROKE_RECALC_CACHES = 0 := key.2 h
    simp [h0]
  · have h1 : Int.testBit gps.flag 4 = true := by simpa using h
    rw [h1]
    simp only [decide_eq_true_eq]
    intro h0
    exact h (key.1 h0)

theorem is_cyclic_eq_testBit {K : Type} (gps : bGPDstroke K) :
    is_cyclic gps = Int.testBit gps.flag 7 := by
  unfold is_cyclic
  have key := land_two_pow_eq_zero_iff gps.flag 7
  by_cases h : Int.testBit gps.flag 7 = false
  · rw [h]
    have h0 : Int.land gps.flag GP_STROKE_CYCLIC = 0 := key.2 h
    simp [h0]
  · have h1 : Int.testBit gps.flag 7 = true := by simpa using h
    rw [h1]
    simp only [decide_eq_true_eq]
    intro h0
    exact h (key.1 h0)

theorem testBit_clear_recalc {K : Type} (gps : bGPDstroke K) (i : Nat) :
    Int.testBit (clear_recalc gps).flag i = (Int.testBit gps.flag i && decide (i ≠ 4)) := by
  simp [clear_recalc, Int.testBit_land, Int.testBit_lnot, testBit_recalc]

theorem needs_recalc_clear_recalc {K : Type} (gps : bGPDstroke K) :
    needs_recalc (clear_recalc gps) = false := by
  rw [needs_recalc_eq_testBit, testBit_clear_recalc]
  simp

/-! ## Flattening, bounding box and UVs return -/

theorem int_of_float_sample [FloorRing K] (n : Int) (h : 1 ≤ n) :
    0 ≤ int_of_float ((n : K) * 0.75) ∧ int_of_float ((n : K) * 0.75) < n := by
  have hn : (0 : K) < (n : K) := by exact_mod_cast (by omega : (0 : Int) < n)
  have h0 : (0 : K) ≤ (n : K) * 0.75 := by norm_num; linarith
  unfold int_of_float
  rw [if_pos h0]
  refine ⟨Int.floor_nonneg.2 h0, Int.floor_lt.2 ?_⟩
  norm_num
  linarith

/-- The projection loop writes the projection of every point, in order. -/
theorem stroke_2d_flat_loop (pts : List (bGPDspoint K)) (pt0 : bGPDspoint K)
    (locx locy : K × K × K) (m : Nat) :
    ∀ (i : Nat) (acc : List (K × K)), i + m ≤ pts.length →
      for_loop (stroke_2d_flat_body pts pt0 locx locy) i m acc
        = .ok (acc ++ ((pts.drop i).take m).map (fun pt =>
            (dot_v3v3 (sub_v3_v3v3 pt.co pt0.co) locx,
              dot_v3v3 (sub_v3_v3v3 pt.co pt0.co) locy))) := by
  induction m with
  | zero => intro i acc _; simp [for_loop]
  | succ m ih =>
    intro i acc hle
    have hi : i < pts.length := by omega
    rw [for_loop_succ _ _ _ _ _ (by simp [stroke_2d_flat_body, read_nat pts i hi]; rfl),
      ih (i + 1) _ (by omega), List.drop_eq_getElem_cons hi]
    simp only [List.take_succ_cons, List.map_cons, List.append_assoc, List.singleton_append,
      List.get_eq_getElem]

theorem stroke_2d_flat_ok [FloorRing K] (E : Externals K) (pts : List (bGPDspoint K))
    (h2 : 2 ≤ pts.length) :
    ∃ p2d dir, gpencil_stroke_2d_flat E pts (pts.length : Int) = .ok (p2d, dir) ∧
      p2d.length = pts.length := by
  obtain ⟨_, e0⟩ := read_ok pts 0 (by omega) (by omega)
  obtain ⟨_, e1⟩ := read_ok pts 1 (by omega) (by omega)
  obtain ⟨hs0, hs1⟩ := int_of_float_sample (K := K) (pts.length : Int) (by omega)
  obtain ⟨_, e3⟩ := read_ok pts _ hs0 hs1
  unfold gpencil_stroke_2d_flat
  simp only [e0, e1, e3, except_bind_ok, Int.toNat_ofNat]
  rw [stroke_2d_flat_loop pts _ _ _ pts.length 0 [] (by omega)]
  exact ⟨_, _, rfl, by simp⟩

theorem bounding_box_ok (p2d : List (K × K)) (expand : Bool) (h : p2d ≠ []) :
    ∃ mm, gpencil_calc_2d_bounding_box p2d expand = .ok mm := by
  cases p2d with
  | nil => exact absurd rfl h
  | cons p0 rest =>
    unfold gpencil_calc_2d_bounding_box
    simp only
    split_ifs <;> exact ⟨_, rfl⟩

theorem length_stroke_fill_uv (p2d : List (K × K)) (minv maxv : K × K) :
    (gpencil_calc_stroke_fill_uv p2d minv maxv).length = p2d.length := by
  simp [gpencil_calc_stroke_fill_uv]

/-! ## Saving the triangles in the cache -/

theorem read_getD {α : Type} (arr : List α) (i : Nat) (d : α) (h : i < arr.length) :
    read arr (i : Int) = .ok (arr.getD i d) := by
  rw [read_nat arr i h]
  simp [List.getD_eq_getElem?_getD, List.getElem?_eq_getElem h]

/-- The saving loop fills the cache with the triangles of the triangulator, each
with the UVs of the points it indexes. -/
theorem save_triangle_loop (poly : Nat → Nat × Nat × Nat) (n : Nat) (uv : List (K × K))
    (hin : ∀ i, i < n → (poly i).1 < uv.length ∧ (poly i).2.1 < uv.length ∧
      (poly i).2.2 < uv.length) (m : Nat) :
    ∀ (i : Nat) (done rest : List (bGPDtriangle K)), done.length = i → rest.length = m →
      i + m = n →
      for_loop (save_triangle ((List.range n).map poly) uv) i m (done ++ rest)
        = .ok (done ++ (List.range' i m).map (fun j => cached_triangle uv (poly j))) := by
  induction m with
  | zero =>
    intro i done rest _ hr _
    have : rest = [] := List.length_eq_zero.1 hr
    simp [for_loop, this]
  | succ m ih =>
    intro i done rest hd hr hn
    obtain ⟨r, rest1, rfl⟩ : ∃ r rest1, rest = r :: rest1 := by
      cases rest with
      | nil => simp at hr
      | cons r rest1 => exact ⟨r, rest1, rfl⟩
    have hi : i < n := by omega
    obtain ⟨h1, h2, h3⟩ := hin i hi
    have hbody : save_triangle ((List.range n).map poly) uv i (done ++ r :: rest1)
        = .ok ((done ++ [cached_triangle uv (poly i)]) ++ rest1) := by
      unfold save_triangle
      rw [read_nat _ i (by simpa using hi)]
      simp only [except_bind_ok, List.get_eq_getElem, List.getElem_map, List.getElem_range]
      rw [read_getD uv _ (0, 0) h1, read_getD uv _ (0, 0) h2, read_getD uv _ (0, 0) h3]
      simp only [except_bind_ok]
      unfold write
      rw [if_neg (by simp; omega)]
      simp [← hd, cached_triangle]
    rw [for_loop_succ _ _ _ _ _ hbody, ih (i + 1) _ rest1 (by simp [hd]) (by simpa using hr)
      (by omega)]
    simp [List.range'_succ]

theorem length_MEM_callocN (n : Nat) : (MEM_callocN n : List (bGPDtriangle K)).length = n := by
  simp [MEM_callocN]

theorem length_MEM_recallocN (old : List (bGPDtriangle K)) (n : Nat) :
    (MEM_recallocN old n).length = n := by
  simp [MEM_recallocN]
  omega

/-- Retriangulation of a stroke of at least three points returns, and leaves the
stroke with the cache built from the triangulator's triangles and the fill UVs,
the dirty flag cleared and everything else untouched. -/
theorem triangulate_stroke_fill_eq [FloorRing K] (E : Externals K) (gps : bGPDstroke K)
    (pts : List (bGPDspoint K)) (hpts : gps.points = some pts)
    (hlen : gps.totpoints = (pts.length : Int)) (h3 : 3 ≤ pts.length)
    (hpoly : valid_polyfill E) :
    ∃ p2d dir mm, gpencil_stroke_2d_flat E pts gps.totpoints = .ok (p2d, dir) ∧
      p2d.length = pts.length ∧ gpencil_calc_2d_bounding_box p2d false = .ok mm ∧
      gp_triangulate_stroke_fill E gps = .ok
        { gps with
          tot_triangles := gps.totpoints - 2
          triangles := some ((List.range (pts.length - 2)).map (fun j =>
            cached_triangle (gpencil_calc_stroke_fill_uv p2d mm.1 mm.2)
              (E.BLI_polyfill_calc p2d gps.totpoints dir j)))
          flag := if needs_recalc gps then Int.land gps.flag (Int.lnot GP_STROKE_RECALC_CACHES)
            else gps.flag } := by
  obtain ⟨p2d, dir, hflat, hl⟩ := stroke_2d_flat_ok E pts (by omega)
  obtain ⟨mm, hmm⟩ := bounding_box_ok p2d false (by
    intro h
    rw [h] at hl
    simp at hl
    omega)
  rw [← hlen] at hflat
  refine ⟨p2d, dir, mm, hflat, hl, hmm, ?_⟩
  have hge : gps.totpoints ≥ 3 := by omega
  have hpos : gps.totpoints - 2 > 0 := by omega
  have htn : (gps.totpoints - 2).toNat = pts.length - 2 := by omega
  have hin : ∀ i, i < pts.length - 2 →
      (E.BLI_polyfill_calc p2d gps.totpoints dir i).1
          < (gpencil_calc_stroke_fill_uv p2d mm.1 mm.2).length ∧
      (E.BLI_polyfill_calc p2d gps.totpoints dir i).2.1
          < (gpencil_calc_stroke_fill_uv p2d mm.1 mm.2).length ∧
      (E.BLI_polyfill_calc p2d gps.totpoints dir i).2.2
          < (gpencil_calc_stroke_fill_uv p2d mm.1 mm.2).length := by
    intro i hi
    rw [length_stroke_fill_uv, hl]
    have := hpoly p2d gps.totpoints dir i (by rw [hl, hlen]) (by omega)
    omega
  have hloop : ∀ arr : List (bGPDtriangle K), arr.length = pts.length - 2 →
      for_loop (save_triangle ((List.range (pts.length - 2)).map
          (E.BLI_polyfill_calc p2d gps.totpoints dir))
          (gpencil_calc_stroke_fill_uv p2d mm.1 mm.2)) 0 (pts.length - 2) arr
        = .ok ((List.range (pts.length - 2)).map (fun j =>
            cached_triangle (gpencil_calc_stroke_fill_uv p2d mm.1 mm.2)
              (E.BLI_polyfill_calc p2d gps.totpoints dir j))) := by
    intro arr harr
    have := save_triangle_loop (E.BLI_polyfill_calc p2d gps.totpoints dir) (pts.length - 2)
      (gpencil_calc_stroke_fill_uv p2d mm.1 mm.2) hin (pts.length - 2) 0 [] arr rfl harr
      (by omega)
    simpa [List.range_eq_range'] using this
  unfold gp_triangulate_stroke_fill
  simp only [hge, not_true_eq_false, if_false, hpts, deref, except_bind_ok, hflat, hmm, hpos,
    if_true, htn]
  cases htri : gps.triangles with
  | none =>
    simp only [hloop _ (length_MEM_callocN _), except_bind_ok, except_pure]
    by_cases hr : Int.land gps.flag GP_STROKE_RECALC_CACHES = 0 <;>
      simp [needs_recalc, clear_recalc, hr]
  | some old =>
    simp only [hloop _ (length_MEM_recallocN _ _), except_bind_ok, except_pure]
    by_cases hr : Int.land gps.flag GP_STROKE_RECALC_CACHES = 0 <;>
      simp [needs_recalc, clear_recalc, hr]

theorem valid_polyfill_E0 : valid_polyfill E0 := by
  intro p2d n sign i _ hi
  simp only [E0]
  push_cast
  omega

/-- C3: for a stroke of at least three points, `gp_triangulate_stroke_fill` returns
and leaves `tot_triangles = totpoints - 2`, a triangle array of that length, the
recalculate-caches bit clear, every other flag bit (cyclic among them), the
points, `totpoints`, the palette and the colour unchanged. -/
theorem triangulate_stroke_fill_frame [FloorRing K] (E : Externals K) (gps : bGPDstroke K)
    (pts : List (bGPDspoint K)) (hpts : gps.points = some pts)
    (hlen : gps.totpoints = (pts.length : Int)) (h3 : 3 ≤ gps.totpoints)
    (hpoly : valid_polyfill E) :
    ∃ s tris, gp_triangulate_stroke_fill E gps = .ok s ∧
      s.tot_triangles = gps.totpoints - 2 ∧
      s.triangles = some tris ∧ (tris.length : Int) = gps.totpoints - 2 ∧
      needs_recalc s = false ∧ Int.testBit s.flag 4 = false ∧
      (∀ i, i ≠ 4 → Int.testBit s.flag i = Int.testBit gps.flag i) ∧
      is_cyclic s = is_cyclic gps ∧
      s.points = gps.points ∧ s.totpoints = gps.totpoints ∧
      s.palette = gps.palette ∧ s.palcolor = gps.palcolor := by
  obtain ⟨p2d, dir, mm, _, _, _, hs⟩ :=
    triangulate_stroke_fill_eq E gps pts hpts hlen (by omega) hpoly
  have hbit : ∀ i, Int.testBit
      (if needs_recalc gps then Int.land gps.flag (Int.lnot GP_STROKE_RECALC_CACHES)
        else gps.flag) i = (Int.testBit gps.flag i && decide (i ≠ 4)) := by
    intro i
    by_cases hr : needs_recalc gps = true
    · rw [if_pos hr]
      exact testBit_clear_recalc gps i
    · rw [if_neg hr]
      by_cases hi : i = 4
      · subst hi
        rw [← needs_recalc_eq_testBit]
        simpa using hr
      · simp [hi]
  refine ⟨_, _, hs, rfl, rfl, ?_, ?_, ?_, ?_, ?_, rfl, rfl, rfl, rfl⟩
  · simp
    omega
  · rw [needs_recalc_eq_testBit]
    simpa using hbit 4
  · simpa using hbit 4
  · intro i hi
    simpa [hi] using hbit i
  · rw [is_cyclic_eq_testBit, is_cyclic_eq_testBit]
    simpa using hbit 7

/-- C3 witness: the unit square stroke with the dirty and cyclic bits set. -/
theorem triangulate_stroke_fill_frame_witness :
    ∃ s tris, gp_triangulate_stroke_fill E0 { square_stroke with flag := 144 } = .ok s ∧
      s.tot_triangles = 4 - 2 ∧
      s.triangles = some tris ∧ (tris.length : Int) = 4 - 2 ∧
      needs_recalc s = false ∧ Int.testBit s.flag 4 = false ∧
      (∀ i, i ≠ 4 → Int.testBit s.flag i = Int.testBit 144 i) ∧
      is_cyclic s = is_cyclic { square_stroke with flag := 144 } ∧
      s.points = square_stroke.points ∧ s.totpoints = 4 ∧
      s.palette = square_stroke.palette ∧ s.palcolor = square_stroke.palcolor :=
  triangulate_stroke_fill_frame E0 { square_stroke with flag := 144 }
    [mk_point 0 0 0, mk_point 1 0 0, mk_point 1 1 0, mk_point 0 1 0] rfl rfl (by decide)
    valid_polyfill_E0

/-! ## Cache refresh -/

theorem bind_pure_eq_ok {α β : Type} {X : Except Fault α} {f : α → β} {b : β}
    (h : (X >>= fun a => pure (f a)) = Except.ok b) : ∃ a, X = .ok a ∧ b = f a := by
  cases X with
  | error e => exact absurd h (by simp)
  | ok a =>
    simp only [except_bind_ok, except_pure, Except.ok.injEq] at h
    exact ⟨a, rfl, h.symm⟩

theorem recalc_of_clean [FloorRing K] (E : Externals K) (gps : bGPDstroke K)
    (hr : needs_recalc gps = false) :
    DRW_gpencil_recalc_geometry_caches E gps = .ok gps := by
  simp [DRW_gpencil_recalc_geometry_caches, hr]

theorem recalc_of_cache [FloorRing K] (E : Externals K) (gps : bGPDstroke K)
    (hr : needs_recalc gps = true)
    (hc : ¬ (gps.tot_triangles = 0 ∨ gps.triangles.isNone = true)) :
    DRW_gpencil_recalc_geometry_caches E gps
      = .ok (clear_recalc (ED_gpencil_calc_stroke_uv E gps)) := by
  unfold DRW_gpencil_recalc_geometry_caches
  rw [if_pos hr, if_neg hc]
  rfl

theorem recalc_of_short [FloorRing K] (E : Externals K) (gps : bGPDstroke K)
    (hr : needs_recalc gps = true) (hs : gps.totpoints < 3) :
    DRW_gpencil_recalc_geometry_caches E gps
      = .ok (clear_recalc (ED_gpencil_calc_stroke_uv E gps)) := by
  unfold DRW_gpencil_recalc_geometry_caches
  rw [if_pos hr]
  by_cases hc : gps.tot_triangles = 0 ∨ gps.triangles.isNone = true
  · rw [if_pos hc, if_neg (by omega)]
    rfl
  · rw [if_neg hc]
    rfl

/-- C4: the cache refresh is idempotent.  For every stroke, if a call returns the
stroke `s1`, a second call on `s1` returns `s1` again and the dirty flag of `s1`
is clear; and the call does return on every stroke whose point array has
`totpoints` elements and whose colour is present (the triangulator keeping its
contract). -/
theorem recalc_idempotent [FloorRing K] (E : Externals K) (gps : bGPDstroke K) :
    (∀ s1, DRW_gpencil_recalc_geometry_caches E gps = .ok s1 →
      DRW_gpencil_recalc_geometry_caches E s1 = .ok s1 ∧ needs_recalc s1 = false ∧
        Int.testBit s1.flag 4 = false) ∧
    (∀ pts, gps.points = some pts → gps.totpoints = (pts.length : Int) →
      gps.palcolor ≠ none → valid_polyfill E →
      ∃ s1, DRW_gpencil_recalc_geometry_caches E gps = .ok s1) := by
  constructor
  · intro s1 h
    have hclear : needs_recalc s1 = false := by
      by_cases hr : needs_recalc gps = true
      · unfold DRW_gpencil_recalc_geometry_caches at h
        rw [if_pos hr] at h
        obtain ⟨g, _, hg⟩ :=
          bind_pure_eq_ok (f := fun a => clear_recalc (ED_gpencil_calc_stroke_uv E a)) h
        rw [hg]
        exact needs_recalc_clear_recalc _
      · have hr1 : needs_recalc gps = false := by simpa using hr
        rw [recalc_of_clean E gps hr1] at h
        simp only [Except.ok.injEq] at h
        rw [← h]
        exact hr1
    exact ⟨recalc_of_clean E s1 hclear, hclear, by rw [← needs_recalc_eq_testBit]; exact hclear⟩
  · intro pts hpts hlen hpal hpoly
    by_cases hr : needs_recalc gps = true
    · by_cases hc : gps.tot_triangles = 0 ∨ gps.triangles.isNone = true
      · by_cases hs : gps.totpoints < 3
        · exact ⟨_, recalc_of_short E gps hr hs⟩
        · obtain ⟨pc, hpc⟩ : ∃ pc, gps.palcolor = some pc := by
            cases h : gps.palcolor with
            | none => exact absurd h hpal
            | some pc => exact ⟨pc, rfl⟩
          obtain ⟨p2d, dir, mm, _, _, _, hs1⟩ :=
            triangulate_stroke_fill_eq E gps pts hpts hlen (by omega) hpoly
          unfold DRW_gpencil_recalc_geometry_caches
          rw [if_pos hr, if_pos hc, if_pos (by omega)]
          simp only [hpc, deref, except_bind_ok, hs1]
          split_ifs <;> exact ⟨_, rfl⟩
      · exact ⟨_, recalc_of_cache E gps hr hc⟩
    · exact ⟨_, recalc_of_clean E gps (by simpa using hr)⟩

/-! ## Fill builder -/

/-- When every vertex index is written at most once for an attribute, a write
found in the log is the content of the buffer. -/
theorem attr_get_of_mem {K : Type} (vbo : Gwn_VertBuf K) (a : Attr) (idx : Nat) (d : List K)
    (hnd : (vbo.written a).Nodup) (hm : (a, idx, d) ∈ vbo.writes) :
    vbo.attr_get a idx = some d := by
  unfold Gwn_VertBuf.attr_get
  cases h : vbo.writes.reverse.find? (fun w => decide (w.1 = a ∧ w.2.1 = idx)) with
  | none =>
    rw [List.find?_eq_none] at h
    have := h (a, idx, d) (by simpa using hm)
    simp at this
  | some w =>
    have hP := List.find?_some h
    have hw : w ∈ vbo.writes := by simpa using List.mem_of_find?_eq_some h
    simp only [decide_eq_true_eq] at hP
    have hinj := List.inj_on_of_nodup_map hnd
    have h1 : w ∈ vbo.writes.filter (fun w => decide (w.1 = a)) := by
      simp [List.mem_filter, hw, hP.1]
    have h2 : (a, idx, d) ∈ vbo.writes.filter (fun w => decide (w.1 = a)) := by
      simp [List.mem_filter, hm]
    have := hinj h1 h2 (by simp [hP.2])
    simp [this]

theorem writes_set_fill_point {K : Type} (vbo : Gwn_VertBuf K) (idx : Nat) (pt : bGPDspoint K)
    (c : K × K × K × K) (uv : K × K) :
    (gpencil_set_fill_point vbo idx pt c uv).writes = vbo.writes ++
      [(Attr.pos, idx, [pt.x, pt.y, pt.z]), (Attr.color, idx, [c.1, c.2.1, c.2.2.1, c.2.2.2]),
        (Attr.texCoord, idx, [uv.1, uv.2])] := by
  simp [gpencil_set_fill_point, GWN_vertbuf_attr_set]

theorem vertex_len_set_fill_point {K : Type} (vbo : Gwn_VertBuf K) (idx : Nat) (pt : bGPDspoint K)
    (c : K × K × K × K) (uv : K × K) :
    (gpencil_set_fill_point vbo idx pt c uv).vertex_len = vbo.vertex_len := rfl

theorem written_set_fill_point {K : Type} (vbo : Gwn_VertBuf K) (idx : Nat) (pt : bGPDspoint K)
    (c : K × K × K × K) (uv : K × K) (a : Attr)
    (ha : a ∈ [Attr.pos, Attr.color, Attr.texCoord]) :
    (gpencil_set_fill_point vbo idx pt c uv).written a = vbo.written a ++ [idx] := by
  simp only [List.mem_cons, List.mem_singleton, List.not_mem_nil, or_false] at ha
  rcases ha with h | h | h <;> subst h <;>
    simp [gpencil_set_fill_point, Gwn_VertBuf.written, GWN_vertbuf_attr_set, List.filter_append,
      List.filter_cons]

theorem point_at_getD {K : Type} (gps : bGPDstroke K) (pts : List (bGPDspoint K))
    (hpts : gps.points = some pts) (i : Nat) (d : bGPDspoint K) (h : i < pts.length) :
    point_at gps (i : Int) = .ok (pts.getD i d) := by
  simp [point_at, hpts, read_getD pts i d h]

/-- One iteration of the triangle loop of the fill builder writes the three
corners of the triangle at three consecutive vertices. -/
theorem fill_geom_body_eq {K : Type} (gps : bGPDstroke K) (color : K × K × K × K)
    (pts : List (bGPDspoint K)) (tris : List (bGPDtriangle K)) (d : bGPDspoint K)
    (hpts : gps.points = some pts) (htris : gps.triangles = some tris)
    (i : Nat) (t : bGPDtriangle K) (ht : tris.get? i = some t)
    (hin : ∀ j, j < 3 → at3 t.verts j < pts.length) (vbo : Gwn_VertBuf K) (idx : Nat) :
    fill_geom_body gps color i (vbo, idx) = .ok
      (gpencil_set_fill_point
        (gpencil_set_fill_point
          (gpencil_set_fill_point vbo idx (pts.getD (at3 t.verts 0) d) color (at3 t.uv 0))
          (idx + 1) (pts.getD (at3 t.verts 1) d) color (at3 t.uv 1))
        (idx + 2) (pts.getD (at3 t.verts 2) d) color (at3 t.uv 2), idx + 3) := by
  have hi : i < tris.length := by
    by_contra hc
    rw [List.get?_eq_none.2 (by omega)] at ht
    exact absurd ht (by simp)
  have hr : read tris (i : Int) = .ok t := by
    rw [read_nat tris i hi]
    rw [List.get?_eq_get hi] at ht
    simpa using ht
  unfold fill_geom_body
  simp only [htris, deref, except_bind_ok, hr]
  simp [for_loop, fill_geom_corner, point_at_getD gps pts hpts _ d (hin 0 (by omega)),
    point_at_getD gps pts hpts _ d (hin 1 (by omega)),
    point_at_getD gps pts hpts _ d (hin 2 (by omega))]

/-- The triangle loop of the fill builder: every triangle `k` of the cache writes its
corner `j` at vertex `3 k + j`, once. -/
theorem fill_geom_loop {K : Type} (gps : bGPDstroke K) (color : K × K × K × K)
    (pts : List (bGPDspoint K)) (tris : List (bGPDtriangle K)) (d : bGPDspoint K)
    (hpts : gps.points = some pts) (htris : gps.triangles = some tris)
    (hin : ∀ t, t ∈ tris → ∀ j, j < 3 → at3 t.verts j < pts.length) (m : Nat) :
    ∀ (i : Nat) (vbo : Gwn_VertBuf K), i + m ≤ tris.length →
      ∃ vbo1, for_loop (fill_geom_body gps color) i m (vbo, 3 * i) = .ok (vbo1, 3 * (i + m)) ∧
        vbo1.vertex_len = vbo.vertex_len ∧
        (∀ a ∈ [Attr.pos, Attr.color, Attr.texCoord],
          vbo1.written a = vbo.written a ++ List.range' (3 * i) (3 * m)) ∧
        (∀ w, w ∈ vbo.writes → w ∈ vbo1.writes) ∧
        (∀ k, i ≤ k → k < i + m → ∀ j, j < 3 → ∃ t p, tris.get? k = some t ∧
          pts.get? (at3 t.verts j) = some p ∧
          (Attr.pos, 3 * k + j, [p.x, p.y, p.z]) ∈ vbo1.writes ∧
          (Attr.color, 3 * k + j, [color.1, color.2.1, color.2.2.1, color.2.2.2]) ∈ vbo1.writes ∧
          (Attr.texCoord, 3 * k + j, [(at3 t.uv j).1, (at3 t.uv j).2]) ∈ vbo1.writes) := by
  induction m with
  | zero =>
    intro i vbo _
    exact ⟨vbo, rfl, rfl, by simp, fun w hw => hw, fun k h1 h2 => by omega⟩
  | succ m ih =>
    intro i vbo hle
    have hi : i < tris.length := by omega
    have ht : tris.get? i = some (tris.get ⟨i, hi⟩) := List.get?_eq_get hi
    have hint := hin _ (List.get_mem tris i hi)
    have hbody := fill_geom_body_eq gps color pts tris d hpts htris i _ ht hint vbo (3 * i)
    obtain ⟨vbo1, h1, h2, h3, h4, h5⟩ := ih (i + 1) _ (by omega)
    refine ⟨vbo1, ?_, ?_, ?_, ?_, ?_⟩
    · rw [for_loop_succ _ _ _ _ _ hbody]
      have e3 : 3 * i + 3 = 3 * (i + 1) := by ring
      rw [e3, h1]
      congr 2
      ring
    · rw [h2]
      rfl
    · intro a ha
      rw [h3 a ha, written_set_fill_point _ _ _ _ _ a ha, written_set_fill_point _ _ _ _ _ a ha,
        written_set_fill_point _ _ _ _ _ a ha]
      have e3 : 3 * (m + 1) = (3 * m + 1 + 1) + 1 := by ring
      have e4 : 3 * (i + 1) = 3 * i + 1 + 1 + 1 := by ring
      rw [e3, List.range'_succ, List.range'_succ, List.range'_succ, e4]
      simp
    · intro w hw
      apply h4
      simp [writes_set_fill_point, hw]
    · intro k hk1 hk2 j hj
      by_cases hki : k = i
      · subst hki
        have hget : ∀ n, n < pts.length → pts.get? n = some (pts.getD n d) := by
          intro n hn
          simp [List.getD_eq_getElem?_getD, List.getElem?_eq_getElem hn]
        refine ⟨_, _, ht, hget _ (hint j hj), h4 _ ?_, h4 _ ?_, h4 _ ?_⟩ <;>
          · simp only [writes_set_fill_point]
            have : j = 0 ∨ j = 1 ∨ j = 2 := by omega
            rcases this with h | h | h <;> subst h <;> simp
      · exact h5 k (by omega) (by omega) j hj

/-- The surface UV pass keeps the number of points and every position. -/
theorem points_calc_stroke_uv {K : Type} (E : Externals K) (gps : bGPDstroke K)
    (pts : List (bGPDspoint K)) (hpts : gps.points = some pts) :
    ∃ pts1, (ED_gpencil_calc_stroke_uv E gps).points = some pts1 ∧ pts1.length = pts.length ∧
      ∀ n p1, pts1.get? n = some p1 → ∃ p0, pts.get? n = some p0 ∧ p1.co = p0.co ∧
        p1.pressure = p0.pressure ∧ p1.strength = p0.strength := by
  refine ⟨_, by simp [ED_gpencil_calc_stroke_uv, hpts]; rfl, by simp, ?_⟩
  intro n p1 h
  simp only [List.get?_eq_getElem?, List.getElem?_map, Option.map_eq_some'] at h
  obtain ⟨⟨i, p0⟩, h1, h2⟩ := h
  rw [List.getElem?_enum] at h1
  simp only [Option.map_eq_some'] at h1
  obtain ⟨q, hq, hq2⟩ := h1
  simp only [Prod.mk.injEq] at hq2
  refine ⟨p0, by simp [hq, hq2.2], ?_⟩
  rw [← h2]
  exact ⟨rfl, rfl, rfl⟩

/-- The fill builder on a cache that is in place: every triangle has valid indices. -/
theorem fill_geom_run (s : bGPDstroke K) (color : K × K × K × K)
    (pts : List (bGPDspoint K)) (tris : List (bGPDtriangle K))
    (hpts : s.points = some pts) (htris : s.triangles = some tris)
    (hin : ∀ t, t ∈ tris → ∀ j, j < 3 → at3 t.verts j < pts.length) (v : Nat) :
    ∃ vbo1, for_loop (fill_geom_body s color) 0 tris.length (⟨v, []⟩, 0)
        = .ok (vbo1, 3 * tris.length) ∧
      vbo1.vertex_len = v ∧
      (∀ a ∈ [Attr.pos, Attr.color, Attr.texCoord],
        vbo1.written a = List.range (3 * tris.length)) ∧
      (∀ i, i < tris.length → ∀ j, j < 3 → ∃ t p, tris.get? i = some t ∧
        pts.get? (at3 t.verts j) = some p ∧
        vbo1.attr_get Attr.pos (3 * i + j) = some [p.x, p.y, p.z] ∧
        vbo1.attr_get Attr.color (3 * i + j)
          = some [color.1, color.2.1, color.2.2.1, color.2.2.2] ∧
        vbo1.attr_get Attr.texCoord (3 * i + j) = some [(at3 t.uv j).1, (at3 t.uv j).2]) := by
  obtain ⟨vbo1, h1, h2, h3, _, h5⟩ := fill_geom_loop s color pts tris (mk_point 0 0 0) hpts htris
    hin tris.length 0 ⟨v, []⟩ (by omega)
  have hw : ∀ a ∈ [Attr.pos, Attr.color, Attr.texCoord],
      vbo1.written a = List.range (3 * tris.length) := by
    intro a ha
    rw [h3 a ha]
    simp [Gwn_VertBuf.written, List.range_eq_range']
  have hnd : ∀ a ∈ [Attr.pos, Attr.color, Attr.texCoord], (vbo1.written a).Nodup := by
    intro a ha
    rw [hw a ha]
    exact List.nodup_range _
  refine ⟨vbo1, by simpa using h1, h2, hw, ?_⟩
  intro i hi j hj
  obtain ⟨t, p, e1, e2, m1, m2, m3⟩ := h5 i (by omega) (by omega) j hj
  exact ⟨t, p, e1, e2, attr_get_of_mem _ _ _ _ (hnd _ (by simp)) m1,
    attr_get_of_mem _ _ _ _ (hnd _ (by simp)) m2, attr_get_of_mem _ _ _ _ (hnd _ (by simp)) m3⟩

/-- The fill builder when the cache has to be recomputed. -/
theorem fill_geom_of_stale [FloorRing K] (E : Externals K) (gps s0 : bGPDstroke K)
    (color : K × K × K × K) (hge : gps.totpoints ≥ 3)
    (hcond : needs_recalc gps = true ∨ gps.tot_triangles = 0 ∨ gps.triangles.isNone = true)
    (hs : gp_triangulate_stroke_fill E gps = .ok s0) (h1 : s0.tot_triangles ≥ 1) :
    DRW_gpencil_get_fill_geom E gps color =
      (for_loop (fill_geom_body (ED_gpencil_calc_stroke_uv E s0) color) 0 s0.tot_triangles.toNat
        (⟨(s0.tot_triangles * 3).toNat, []⟩, 0)) >>= fun st =>
          pure (GWN_batch_create_ex .GWN_PRIM_TRIS st.1, ED_gpencil_calc_stroke_uv E s0) := by
  unfold DRW_gpencil_get_fill_geom
  simp only [hge, not_true_eq_false, if_false, hcond, if_true, hs, except_bind_ok, except_pure]
  have h2 : (ED_gpencil_calc_stroke_uv E s0).tot_triangles ≥ 1 := h1
  simp only [h2, not_true_eq_false, if_false]
  rfl

/-- The fill builder when the cache is in place. -/
theorem fill_geom_of_fresh [FloorRing K] (E : Externals K) (gps : bGPDstroke K)
    (color : K × K × K × K) (hge : gps.totpoints ≥ 3)
    (hcond : ¬ (needs_recalc gps = true ∨ gps.tot_triangles = 0 ∨ gps.triangles.isNone = true))
    (h1 : gps.tot_triangles ≥ 1) :
    DRW_gpencil_get_fill_geom E gps color =
      (for_loop (fill_geom_body gps color) 0 gps.tot_triangles.toNat
        (⟨(gps.tot_triangles * 3).toNat, []⟩, 0)) >>= fun st =>
          pure (GWN_batch_create_ex .GWN_PRIM_TRIS st.1, gps) := by
  unfold DRW_gpencil_get_fill_geom
  simp only [hge, not_true_eq_false, if_false, hcond, except_bind_ok, except_pure, h1]
  rfl

/-- What the fill builder returns on a stroke of at least three points that is dirty
or has no cache: the batch, with the contents of each of its vertices, and the
stroke it leaves. -/
theorem fill_geom_spec [FloorRing K] (E : Externals K) (gps : bGPDstroke K)
    (color : K × K × K × K) (pts : List (bGPDspoint K)) (hpts : gps.points = some pts)
    (hlen : gps.totpoints = (pts.length : Int)) (h3 : 3 ≤ gps.totpoints)
    (hpoly : valid_polyfill E)
    (hstale : needs_recalc gps = true ∨ gps.tot_triangles = 0 ∨ gps.triangles = none) :
    ∃ b s tris pts1, DRW_gpencil_get_fill_geom E gps color = .ok (b, s) ∧
      b.prim_type = Gwn_PrimType.GWN_PRIM_TRIS ∧
      (b.verts.vertex_len : Int) = 3 * (gps.totpoints - 2) ∧
      s.triangles = some tris ∧ (tris.length : Int) = gps.totpoints - 2 ∧
      s.tot_triangles = gps.totpoints - 2 ∧
      s.points = some pts1 ∧
      (∀ a ∈ [Attr.pos, Attr.color, Attr.texCoord],
        b.verts.written a = List.range (3 * tris.length)) ∧
      (∀ i, i < tris.length → ∀ j, j < 3 → ∃ t p p0, tris.get? i = some t ∧
        pts1.get? (at3 t.verts j) = some p ∧ pts.get? (at3 t.verts j) = some p0 ∧
        p.co = p0.co ∧
        b.verts.attr_get Attr.pos (3 * i + j) = some [p.x, p.y, p.z] ∧
        b.verts.attr_get Attr.color (3 * i + j)
          = some [color.1, color.2.1, color.2.2.1, color.2.2.2] ∧
        b.verts.attr_get Attr.texCoord (3 * i + j)
          = some [(at3 t.uv j).1, (at3 t.uv j).2]) ∧
      (∃ s0, gp_triangulate_stroke_fill E gps = .ok s0 ∧ s.triangles = s0.triangles) := by
  obtain ⟨p2d, dir, mm, _, hl, _, hs⟩ :=
    triangulate_stroke_fill_eq E gps pts hpts hlen (by omega) hpoly
  obtain ⟨pts1, hp1, hl1, hpos⟩ := points_calc_stroke_uv E _ pts
    (show ({ gps with
          tot_triangles := gps.totpoints - 2
          triangles := some ((List.range (pts.length - 2)).map (fun j =>
            cached_triangle (gpencil_calc_stroke_fill_uv p2d mm.1 mm.2)
              (E.BLI_polyfill_calc p2d gps.totpoints dir j)))
          flag := if needs_recalc gps then Int.land gps.flag (Int.lnot GP_STROKE_RECALC_CACHES)
            else gps.flag } : bGPDstroke K).points = some pts from hpts)
  have hin : ∀ t, t ∈ (List.range (pts.length - 2)).map (fun j =>
        cached_triangle (gpencil_calc_stroke_fill_uv p2d mm.1 mm.2)
          (E.BLI_polyfill_calc p2d gps.totpoints dir j)) →
      ∀ j, j < 3 → at3 t.verts j < pts1.length := by
    intro t ht j hj
    simp only [List.mem_map, List.mem_range] at ht
    obtain ⟨k, hk, rfl⟩ := ht
    have := hpoly p2d gps.totpoints dir k (by rw [hl, hlen]) (by omega)
    have hj3 : j = 0 ∨ j = 1 ∨ j = 2 := by omega
    rcases hj3 with h | h | h <;> subst h <;> simp [at3, cached_triangle] <;> omega
  obtain ⟨vbo1, r1, r2, r3, r4⟩ := fill_geom_run _ color pts1 _ hp1 rfl hin
    ((gps.totpoints - 2) * 3).toNat
  have hcond : needs_recalc gps = true ∨ gps.tot_triangles = 0 ∨ gps.triangles.isNone = true := by
    rcases hstale with h | h | h
    · exact Or.inl h
    · exact Or.inr (Or.inl h)
    · exact Or.inr (Or.inr (by simp [h]))
  have hge : gps.totpoints ≥ 3 := h3
  have hlen2 : ((List.range (pts.length - 2)).map (fun j =>
        cached_triangle (gpencil_calc_stroke_fill_uv p2d mm.1 mm.2)
          (E.BLI_polyfill_calc p2d gps.totpoints dir j))).length = pts.length - 2 := by simp
  rw [hlen2] at r1 r3 r4
  refine ⟨GWN_batch_create_ex .GWN_PRIM_TRIS vbo1, _, _, pts1, ?_, rfl, ?_, rfl, ?_, rfl, hp1, ?_, ?_,
    ⟨_, hs, rfl⟩⟩
  · have hge1 : gps.totpoints - 2 ≥ 1 := by omega
    have htn : (gps.totpoints - 2).toNat = pts.length - 2 := by omega
    rw [fill_geom_of_stale E gps _ color hge hcond hs hge1]
    simp only [htn, r1, except_bind_ok, except_pure]
  · show (vbo1.vertex_len : Int) = _
    rw [r2]
    omega
  · simp
    omega
  · simpa using r3
  · intro i hi j hj
    obtain ⟨t, p, e1, e2, e3, e4, e5⟩ := r4 i (by simpa using hi) j hj
    obtain ⟨p0, e6, e7, _⟩ := hpos _ _ e2
    exact ⟨t, p, p0, e1, e2, e6, e7, e3, e4, e5⟩

/-- C7: on a stroke of at least three points that is dirty or has no cache, the fill
builder returns a triangle-list batch of exactly `3 (totpoints - 2)` vertices,
every attribute written once at each index, where vertex `3 i + j` holds the
position of the point `verts[j]` of the cached triangle `i` (a position of the
stroke as passed in), the fill colour passed in, and the cached `uv[j]` of that
triangle. -/
theorem fill_geom_contents [FloorRing K] (E : Externals K) (gps : bGPDstroke K)
    (color : K × K × K × K) (pts : List (bGPDspoint K)) (hpts : gps.points = some pts)
    (hlen : gps.totpoints = (pts.length : Int)) (h3 : 3 ≤ gps.totpoints)
    (hpoly : valid_polyfill E)
    (hstale : needs_recalc gps = true ∨ gps.tot_triangles = 0 ∨ gps.triangles = none) :
    ∃ b s tris pts1, DRW_gpencil_get_fill_geom E gps color = .ok (b, s) ∧
      b.prim_type = Gwn_PrimType.GWN_PRIM_TRIS ∧
      (b.verts.vertex_len : Int) = 3 * (gps.totpoints - 2) ∧
      s.triangles = some tris ∧ (tris.length : Int) = gps.totpoints - 2 ∧
      s.tot_triangles = gps.totpoints - 2 ∧
      s.points = some pts1 ∧
      (∀ a ∈ [Attr.pos, Attr.color, Attr.texCoord],
        b.verts.written a = List.range (3 * tris.length)) ∧
      (∀ i, i < tris.length → ∀ j, j < 3 → ∃ t p p0, tris.get? i = some t ∧
        pts1.get? (at3 t.verts j) = some p ∧ pts.get? (at3 t.verts j) = some p0 ∧
        p.co = p0.co ∧
        b.verts.attr_get Attr.pos (3 * i + j) = some [p.x, p.y, p.z] ∧
        b.verts.attr_get Attr.color (3 * i + j)
          = some [color.1, color.2.1, color.2.2.1, color.2.2.2] ∧
        b.verts.attr_get Attr.texCoord (3 * i + j)
          = some [(at3 t.uv j).1, (at3 t.uv j).2]) := by
  obtain ⟨b, s, tris, pts1, h1, h2, h4, h5, h6, h7, h8, h9, h10, _⟩ :=
    fill_geom_spec E gps color pts hpts hlen h3 hpoly hstale
  exact ⟨b, s, tris, pts1, h1, h2, h4, h5, h6, h7, h8, h9, h10⟩

/-- C7 witness: the unit square stroke, which has no cache. -/
theorem fill_geom_contents_witness :
    ∃ b s tris pts1, DRW_gpencil_get_fill_geom E0 square_stroke (1, 1, 1, 1) = .ok (b, s) ∧
      b.prim_type = Gwn_PrimType.GWN_PRIM_TRIS ∧
      (b.verts.vertex_len : Int) = 3 * (square_stroke.totpoints - 2) ∧
      s.triangles = some tris ∧ (tris.length : Int) = square_stroke.totpoints - 2 ∧
      s.tot_triangles = square_stroke.totpoints - 2 ∧
      s.points = some pts1 ∧
      (∀ a ∈ [Attr.pos, Attr.color, Attr.texCoord],
        b.verts.written a = List.range (3 * tris.length)) ∧
      (∀ i, i < tris.length → ∀ j, j < 3 → ∃ t p p0, tris.get? i = some t ∧
        pts1.get? (at3 t.verts j) = some p ∧
        [mk_point 0 0 0, mk_point 1 0 0, mk_point 1 1 0, mk_point 0 1 0].get? (at3 t.verts j)
          = some p0 ∧
        p.co = p0.co ∧
        b.verts.attr_get Attr.pos (3 * i + j) = some [p.x, p.y, p.z] ∧
        b.verts.attr_get Attr.color (3 * i + j) = some [1, 1, 1, 1] ∧
        b.verts.attr_get Attr.texCoord (3 * i + j)
          = some [(at3 t.uv j).1, (at3 t.uv j).2]) :=
  fill_geom_contents E0 square_stroke (1, 1, 1, 1)
    [mk_point 0 0 0, mk_point 1 0 0, mk_point 1 1 0, mk_point 0 1 0] rfl rfl (by decide)
    valid_polyfill_E0 (Or.inr (Or.inr rfl))

/-- C2: on the dirty unit-square stroke (four points, visible fill) whose cache holds
one stale triangle, the cache refresh returns with the dirty flag cleared but
the cache untouched: one triangle, not `totpoints - 2 = 2`; the fill builder,
on the same stroke, does recompute the two triangles. -/
theorem recalc_keeps_stale_cache :
    stale_stroke.totpoints ≥ 3 ∧ needs_recalc stale_stroke = true ∧
    (∃ pc, stale_stroke.palcolor = some pc ∧
      (pc.fill.2.2.2 > E0.GPENCIL_ALPHA_OPACITY_THRESH ∨ pc.fill_style > 0)) ∧
    (∃ s, DRW_gpencil_recalc_geometry_caches E0 stale_stroke = .ok s ∧
      s.tot_triangles = 1 ∧ s.triangles = stale_stroke.triangles ∧
      s.tot_triangles ≠ s.totpoints - 2 ∧ needs_recalc s = false) ∧
    (∃ b s, DRW_gpencil_get_fill_geom E0 stale_stroke (1, 1, 1, 1) = .ok (b, s) ∧
      s.tot_triangles = 2) := by
  refine ⟨by decide, by decide, ⟨solid_fill, rfl, Or.inl (by norm_num [solid_fill, E0])⟩, ?_, ?_⟩
  · exact ⟨clear_recalc (ED_gpencil_calc_stroke_uv E0 stale_stroke),
      recalc_of_cache E0 stale_stroke (by decide) (by decide), rfl, rfl, by decide,
      needs_recalc_clear_recalc _⟩
  · obtain ⟨b, s, _, _, h, _, _, _, _, ht, _, _, _, _⟩ := fill_geom_spec E0 stale_stroke (1, 1, 1, 1)
      [mk_point 0 0 0, mk_point 1 0 0, mk_point 1 1 0, mk_point 0 1 0] rfl rfl (by decide)
      valid_polyfill_E0 (Or.inl (by decide))
    exact ⟨b, s, h, ht⟩

/-- C5 (as amended): on a stroke of fewer than three points the cache refresh
returns and leaves the triangulation cache, count and array, exactly as it
found it (so the cache is empty or absent afterwards exactly when it was
before); the dirty flag is clear. -/
theorem recalc_short_stroke_keeps_cache [FloorRing K] (E : Externals K) (gps : bGPDstroke K)
    (hs : gps.totpoints < 3) :
    ∃ s, DRW_gpencil_recalc_geometry_caches E gps = .ok s ∧
      s.tot_triangles = gps.tot_triangles ∧ s.triangles = gps.triangles ∧
      ((s.tot_triangles = 0 ∨ s.triangles = none) ↔
        (gps.tot_triangles = 0 ∨ gps.triangles = none)) ∧
      needs_recalc s = false := by
  by_cases hr : needs_recalc gps = true
  · exact ⟨_, recalc_of_short E gps hr hs, rfl, rfl, Iff.rfl, needs_recalc_clear_recalc _⟩
  · have hr1 : needs_recalc gps = false := by simpa using hr
    exact ⟨_, recalc_of_clean E gps hr1, rfl, rfl, Iff.rfl, hr1⟩

/-- C5 witness: the two-point stroke holding a stale one-triangle cache. -/
theorem recalc_short_stroke_keeps_cache_witness :
    ∃ s, DRW_gpencil_recalc_geometry_caches E0 short_stale_stroke = .ok s ∧
      s.tot_triangles = short_stale_stroke.tot_triangles ∧
      s.triangles = short_stale_stroke.triangles ∧
      ((s.tot_triangles = 0 ∨ s.triangles = none) ↔
        (short_stale_stroke.tot_triangles = 0 ∨ short_stale_stroke.triangles = none)) ∧
      needs_recalc s = false :=
  recalc_short_stroke_keeps_cache E0 short_stale_stroke (by decide)

/-- C5 counterexample: the two-point stroke holding a stale one-triangle cache has
fewer than three points, and after the cache refresh its cache is neither empty
nor absent. -/
theorem recalc_short_stroke_cache_not_cleared :
    short_stale_stroke.totpoints < 3 ∧
    ∃ s, DRW_gpencil_recalc_geometry_caches E0 short_stale_stroke = .ok s ∧
      ¬ (s.tot_triangles = 0 ∨ s.triangles = none) :=
  ⟨by decide, _, recalc_of_short E0 short_stale_stroke (by decide) (by decide), by
    show ¬ ((1 : Int) = 0 ∨
      some [(⟨(0, 1, 2), ((0, 0), (1, 0), (1, 1))⟩ : bGPDtriangle ℚ)] = none)
    simp⟩

/-- C4 witness: the dirty unit square stroke with no cache. -/
theorem recalc_idempotent_witness :
    ∃ s1, DRW_gpencil_recalc_geometry_caches E0
        { square_stroke with flag := GP_STROKE_RECALC_CACHES } = .ok s1 ∧
      DRW_gpencil_recalc_geometry_caches E0 s1 = .ok s1 ∧ needs_recalc s1 = false ∧
      Int.testBit s1.flag 4 = false := by
  obtain ⟨s1, h⟩ := (recalc_idempotent E0
    { square_stroke with flag := GP_STROKE_RECALC_CACHES }).2
    [mk_point 0 0 0, mk_point 1 0 0, mk_point 1 1 0, mk_point 0 1 0] rfl rfl (by decide)
    valid_polyfill_E0
  exact ⟨s1, h, (recalc_idempotent E0
    { square_stroke with flag := GP_STROKE_RECALC_CACHES }).1 s1 h⟩

/-! ## Bounding box and fill UVs -/

/-- The min/max loop only widens the box, and the box it returns contains every
point it has gone through. -/
theorem bounding_box_fold (rest : List (K × K)) :
    ∀ mm0 : (K × K) × (K × K),
      (rest.foldl bounding_box_step mm0).1.1 ≤ mm0.1.1 ∧
      (rest.foldl bounding_box_step mm0).1.2 ≤ mm0.1.2 ∧
      mm0.2.1 ≤ (rest.foldl bounding_box_step mm0).2.1 ∧
      mm0.2.2 ≤ (rest.foldl bounding_box_step mm0).2.2 ∧
      ∀ p ∈ rest, (rest.foldl bounding_box_step mm0).1.1 ≤ p.1 ∧
        (rest.foldl bounding_box_step mm0).1.2 ≤ p.2 ∧
        p.1 ≤ (rest.foldl bounding_box_step mm0).2.1 ∧
        p.2 ≤ (rest.foldl bounding_box_step mm0).2.2 := by
  induction rest with
  | nil => intro mm0; simp
  | cons q rest ih =>
    intro mm0
    obtain ⟨h1, h2, h3, h4, h5⟩ := ih (bounding_box_step mm0 q)
    have s1 : (bounding_box_step mm0 q).1.1 ≤ mm0.1.1 ∧ (bounding_box_step mm0 q).1.1 ≤ q.1 := by
      simp only [bounding_box_step]
      split_ifs with h
      · exact ⟨le_of_lt h, le_refl _⟩
      · exact ⟨le_refl _, not_lt.1 h⟩
    have s2 : (bounding_box_step mm0 q).1.2 ≤ mm0.1.2 ∧ (bounding_box_step mm0 q).1.2 ≤ q.2 := by
      simp only [bounding_box_step]
      split_ifs with h
      · exact ⟨le_of_lt h, le_refl _⟩
      · exact ⟨le_refl _, not_lt.1 h⟩
    have s3 : mm0.2.1 ≤ (bounding_box_step mm0 q).2.1 ∧ q.1 ≤ (bounding_box_step mm0 q).2.1 := by
      simp only [bounding_box_step]
      split_ifs with h
      · exact ⟨le_of_lt h, le_refl _⟩
      · exact ⟨le_refl _, not_lt.1 h⟩
    have s4 : mm0.2.2 ≤ (bounding_box_step mm0 q).2.2 ∧ q.2 ≤ (bounding_box_step mm0 q).2.2 := by
      simp only [bounding_box_step]
      split_ifs with h
      · exact ⟨le_of_lt h, le_refl _⟩
      · exact ⟨le_refl _, not_lt.1 h⟩
    simp only [List.foldl_cons]
    refine ⟨h1.trans s1.1, h2.trans s2.1, s3.1.trans h3, s4.1.trans h4, ?_⟩
    intro p hp
    rcases List.mem_cons.1 hp with rfl | hp
    · exact ⟨h1.trans s1.2, h2.trans s2.2, s3.2.trans h3, s4.2.trans h4⟩
    · exact h5 p hp

/-- In either mode the bounding box of a non-empty array is returned and contains
every point of the array. -/
theorem bounding_box_contains (p2d : List (K × K)) (expand : Bool) (h : p2d ≠ []) :
    ∃ mm, gpencil_calc_2d_bounding_box p2d expand = .ok mm ∧
      ∀ p ∈ p2d, mm.1.1 ≤ p.1 ∧ mm.1.2 ≤ p.2 ∧ p.1 ≤ mm.2.1 ∧ p.2 ≤ mm.2.2 := by
  cases p2d with
  | nil => exact absurd rfl h
  | cons p0 rest =>
    obtain ⟨h1, h2, h3, h4, h5⟩ := bounding_box_fold rest ((p0.1, p0.2), (p0.1, p0.2))
    have hall : ∀ p ∈ p0 :: rest,
        (rest.foldl bounding_box_step ((p0.1, p0.2), (p0.1, p0.2))).1.1 ≤ p.1 ∧
        (rest.foldl bounding_box_step ((p0.1, p0.2), (p0.1, p0.2))).1.2 ≤ p.2 ∧
        p.1 ≤ (rest.foldl bounding_box_step ((p0.1, p0.2), (p0.1, p0.2))).2.1 ∧
        p.2 ≤ (rest.foldl bounding_box_step ((p0.1, p0.2), (p0.1, p0.2))).2.2 := by
      intro p hp
      rcases List.mem_cons.1 hp with rfl | hp
      · exact ⟨h1, h2, h3, h4⟩
      · exact h5 p hp
    unfold gpencil_calc_2d_bounding_box
    simp only
    cases expand with
    | true => exact ⟨_, rfl, hall⟩
    | false =>
      simp only [if_true]
      split_ifs with hc
      · refine ⟨_, rfl, fun p hp => ?_⟩
        obtain ⟨a, b, c, d⟩ := hall p hp
        exact ⟨a, b, c, d.trans (le_of_lt hc)⟩
      · refine ⟨_, rfl, fun p hp => ?_⟩
        obtain ⟨a, b, c, d⟩ := hall p hp
        exact ⟨a, b, c.trans (not_lt.1 hc), d⟩

/-! ## The square stroke -/

theorem int_of_float_sample_four [FloorRing K] : int_of_float (((4 : Int) : K) * 0.75) = 3 := by
  have h : ((4 : Int) : K) * 0.75 = ((3 : Int) : K) := by norm_num
  rw [h]
  unfold int_of_float
  rw [if_pos (by norm_num), Int.floor_intCast]

theorem dot_v3v3_div (p q : K × K × K) (l : K) :
    dot_v3v3 p (q.1 * (1 / l), q.2.1 * (1 / l), q.2.2 * (1 / l)) = dot_v3v3 p q / l := by
  simp only [dot_v3v3]
  ring

theorem at3_cached_triangle (uv : List (K × K)) (t : Nat × Nat × Nat) (j : Nat) (hj : j < 3) :
    at3 (cached_triangle uv t).verts j = at3 t j ∧
    at3 (cached_triangle uv t).uv j = uv.getD (at3 t j) (0, 0) := by
  have : j = 0 ∨ j = 1 ∨ j = 2 := by omega
  rcases this with h | h | h <;> subst h <;> simp [at3, cached_triangle]

theorem at3_lt (t : Nat × Nat × Nat) (n : Nat) (h1 : t.1 < n) (h2 : t.2.1 < n) (h3 : t.2.2 < n)
    (j : Nat) : at3 t j < n := by
  unfold at3
  split_ifs <;> assumption

/-- C9: for a non-empty 2D point array and either mode, the bounding box is returned,
and when both of its extents are non-zero every UV written by
`gpencil_calc_stroke_fill_uv` has both coordinates in `[0, 1]`; a point at the
minimum on an axis gets UV 0 on that axis, and in the non-square mode
(`expand = true`) a point at the maximum on an axis gets UV 1 on that axis. -/
theorem stroke_fill_uv_range (p2d : List (K × K)) (expand : Bool) (h : p2d ≠ []) :
    ∃ mm, gpencil_calc_2d_bounding_box p2d expand = .ok mm ∧
      (mm.2.1 - mm.1.1 ≠ 0 → mm.2.2 - mm.1.2 ≠ 0 →
        ∀ i p, p2d.get? i = some p →
          ∃ u, (gpencil_calc_stroke_fill_uv p2d mm.1 mm.2).get? i = some u ∧
            0 ≤ u.1 ∧ u.1 ≤ 1 ∧ 0 ≤ u.2 ∧ u.2 ≤ 1 ∧
            (p.1 = mm.1.1 → u.1 = 0) ∧ (p.2 = mm.1.2 → u.2 = 0) ∧
            (expand = true → (p.1 = mm.2.1 → u.1 = 1) ∧ (p.2 = mm.2.2 → u.2 = 1))) := by
  obtain ⟨mm, hmm, hall⟩ := bounding_box_contains p2d expand h
  refine ⟨mm, hmm, ?_⟩
  intro hx hy i p hp
  obtain ⟨a, b, c, d⟩ := hall p (List.get?_mem hp)
  have hdx : 0 < mm.2.1 - mm.1.1 := lt_of_le_of_ne (by linarith) (Ne.symm hx)
  have hdy : 0 < mm.2.2 - mm.1.2 := lt_of_le_of_ne (by linarith) (Ne.symm hy)
  refine ⟨((p.1 - mm.1.1) / (mm.2.1 - mm.1.1), (p.2 - mm.1.2) / (mm.2.2 - mm.1.2)), ?_,
    div_nonneg (by linarith) hdx.le, (div_le_one hdx).2 (by linarith),
    div_nonneg (by linarith) hdy.le, (div_le_one hdy).2 (by linarith), ?_, ?_, ?_⟩
  · simp only [List.get?_eq_getElem?] at hp
    simp [gpencil_calc_stroke_fill_uv, hp]
  · intro e
    simp [e]
  · intro e
    simp [e]
  · intro _
    exact ⟨fun e => by rw [e]; exact div_self hx, fun e => by rw [e]; exact div_self hy⟩

/-- C9 witness: the four corners of the unit square, in the square mode. -/
theorem stroke_fill_uv_range_witness :
    ∃ mm, gpencil_calc_2d_bounding_box [((0 : ℚ), (0 : ℚ)), (1, 0), (1, 1), (0, 1)] false
        = .ok mm ∧
      (mm.2.1 - mm.1.1 ≠ 0 → mm.2.2 - mm.1.2 ≠ 0 →
        ∀ i p, [((0 : ℚ), (0 : ℚ)), (1, 0), (1, 1), (0, 1)].get? i = some p →
          ∃ u, (gpencil_calc_stroke_fill_uv [((0 : ℚ), (0 : ℚ)), (1, 0), (1, 1), (0, 1)]
              mm.1 mm.2).get? i = some u ∧
            0 ≤ u.1 ∧ u.1 ≤ 1 ∧ 0 ≤ u.2 ∧ u.2 ≤ 1 ∧
            (p.1 = mm.1.1 → u.1 = 0) ∧ (p.2 = mm.1.2 → u.2 = 0) ∧
            (false = true → (p.1 = mm.2.1 → u.1 = 1) ∧ (p.2 = mm.2.2 → u.2 = 1))) :=
  stroke_fill_uv_range [((0 : ℚ), (0 : ℚ)), (1, 0), (1, 1), (0, 1)] false (by simp)

/-- C10: in the square mode the bounding box of the four points `(0,0)`, `(1,0)`,
`(1,1)`, `(-1,1)` is `min = (-1,0)`, `max = (1,1)`: the two maxima are made
equal, the extents are `2` and `1`, and the box is not square.  These are the
points that flattening produces for the stroke `(0,0,0)`, `(1,0,0)`, `(1,1,0)`,
`(-1,1,0)`. -/
theorem bounding_box_not_square :
    gpencil_calc_2d_bounding_box [((0 : ℚ), (0 : ℚ)), (1, 0), (1, 1), (-1, 1)] false
      = .ok ((-1, 0), (1, 1)) ∧
    ((1 : ℚ) - (-1) ≠ 1 - 0) ∧
    (∃ dir, gpencil_stroke_2d_flat E0
      [mk_point 0 0 0, mk_point 1 0 0, mk_point 1 1 0, mk_point (-1) 1 0] 4
        = .ok ([((0 : ℚ), (0 : ℚ)), (1, 0), (1, 1), (-1, 1)], dir)) := by
  refine ⟨?_, by norm_num, 0, ?_⟩
  · norm_num [gpencil_calc_2d_bounding_box, bounding_box_step]
  · have r0 : read [mk_point (0:ℚ) 0 0, mk_point 1 0 0, mk_point 1 1 0, mk_point (-1) 1 0] 0
        = .ok (mk_point 0 0 0) := rfl
    have r1 : read [mk_point (0:ℚ) 0 0, mk_point 1 0 0, mk_point 1 1 0, mk_point (-1) 1 0] 1
        = .ok (mk_point 1 0 0) := rfl
    have r3 : read [mk_point (0:ℚ) 0 0, mk_point 1 0 0, mk_point 1 1 0, mk_point (-1) 1 0] 3
        = .ok (mk_point (-1) 1 0) := rfl
    have r0n : read [mk_point (0:ℚ) 0 0, mk_point 1 0 0, mk_point 1 1 0, mk_point (-1) 1 0]
        ((0 : Nat) : Int) = .ok (mk_point 0 0 0) := rfl
    have r1n : read [mk_point (0:ℚ) 0 0, mk_point 1 0 0, mk_point 1 1 0, mk_point (-1) 1 0]
        ((1 : Nat) : Int) = .ok (mk_point 1 0 0) := rfl
    have r2n : read [mk_point (0:ℚ) 0 0, mk_point 1 0 0, mk_point 1 1 0, mk_point (-1) 1 0]
        ((2 : Nat) : Int) = .ok (mk_point 1 1 0) := rfl
    have r3n : read [mk_point (0:ℚ) 0 0, mk_point 1 0 0, mk_point 1 1 0, mk_point (-1) 1 0]
        ((3 : Nat) : Int) = .ok (mk_point (-1) 1 0) := rfl
    have hk : int_of_float (((4 : Int) : ℚ) * 0.75) = 3 := int_of_float_sample_four
    have e4 : (4 : Int).toNat = 4 := rfl
    unfold gpencil_stroke_2d_flat
    simp only [r0, r1, hk, r3, except_bind_ok, except_pure, e4, for_loop, stroke_2d_flat_body,
      r0n, r1n, r2n, r3n, List.nil_append, List.cons_append]
    norm_num [normalize_v3, dot_v3v3, sub_v3_v3v3, cross_v3_v3v3, mk_point, bGPDspoint.co, E0,
      int_of_float]

/-! ## Loops that write vertices -/

/-- A loop whose iteration `k` writes the `c` vertices `c k + off + j` (`j < c`), once
each, for every attribute of `attrs`: after the loop these vertices have been
written in order and the log holds the values of every iteration. -/
theorem vertex_loop {K σ : Type} (vb : σ → Gwn_VertBuf K) (body : Nat → σ → Except Fault σ)
    (attrs : List Attr) (val : Nat → Nat → Attr → List K) (c off lo hi : Nat)
    (Inv : Nat → σ → Prop)
    (hstep : ∀ k s, lo ≤ k → k < hi → Inv k s → ∃ s1, body k s = .ok s1 ∧ Inv (k + 1) s1 ∧
      (vb s1).vertex_len = (vb s).vertex_len ∧
      (∀ a ∈ attrs, (vb s1).written a = (vb s).written a ++ List.range' (c * k + off) c) ∧
      (∀ w, w ∈ (vb s).writes → w ∈ (vb s1).writes) ∧
      (∀ j, j < c → ∀ a ∈ attrs, (a, c * k + off + j, val k j a) ∈ (vb s1).writes))
    (m : Nat) :
    ∀ (i : Nat) (s : σ), lo ≤ i → i + m ≤ hi → Inv i s →
      ∃ s1, for_loop body i m s = .ok s1 ∧ Inv (i + m) s1 ∧
        (vb s1).vertex_len = (vb s).vertex_len ∧
        (∀ a ∈ attrs, (vb s1).written a = (vb s).written a ++ List.range' (c * i + off) (c * m)) ∧
        (∀ w, w ∈ (vb s).writes → w ∈ (vb s1).writes) ∧
        (∀ k, i ≤ k → k < i + m → ∀ j, j < c → ∀ a ∈ attrs,
          (a, c * k + off + j, val k j a) ∈ (vb s1).writes) := by
  induction m with
  | zero =>
    intro i s _ _ hinv
    exact ⟨s, rfl, hinv, rfl, by simp, fun w hw => hw, fun k h1 h2 => by omega⟩
  | succ m ih =>
    intro i s hlo hhi hinv
    obtain ⟨s1, b1, b2, b3, b4, b5, b6⟩ := hstep i s hlo (by omega) hinv
    obtain ⟨s2, l1, l2, l3, l4, l5, l6⟩ := ih (i + 1) s1 (by omega) (by omega) b2
    refine ⟨s2, ?_, ?_, ?_, ?_, ?_, ?_⟩
    · rw [for_loop_succ _ _ _ _ _ b1, l1]
    · have : i + (m + 1) = i + 1 + m := by omega
      rw [this]
      exact l2
    · rw [l3, b3]
    · intro a ha
      rw [l4 a ha, b4 a ha, List.append_assoc]
      congr 1
      have e1 : c * (i + 1) + off = c * i + off + c := by ring
      have e2 : c * (m + 1) = c * m + c := by ring
      rw [e1, e2, List.range'_append_1]
    · intro w hw
      exact l5 w (b5 w hw)
    · intro k hk1 hk2 j hj a ha
      by_cases hki : k = i
      · subst hki
        exact l5 _ (b6 j hj a ha)
      · exact l6 k (by omega) (by omega) j hj a ha

theorem attr_get_of_range {K : Type} (vbo : Gwn_VertBuf K) (a : Attr) (n idx : Nat) (d : List K)
    (hw : vbo.written a = List.range n) (hm : (a, idx, d) ∈ vbo.writes) :
    vbo.attr_get a idx = some d :=
  attr_get_of_mem vbo a idx d (by rw [hw]; exact List.nodup_range n) hm

/-! ## Drawability -/

/-- C11: `gpencil_can_draw_stroke` answers true exactly when the point data is
present, `totpoints >= 1`, the palette and the palette colour are present, the
colour is not flagged hidden and, for an onion pass, not flagged onion-skin;
and the stroke it leaves is the stroke it received. -/
theorem can_draw_stroke_iff {K : Type} (gps : bGPDstroke K) (onion : Bool) :
    ((gpencil_can_draw_stroke gps onion).1 = true ↔
      gps.points ≠ none ∧ 1 ≤ gps.totpoints ∧ gps.palette ≠ none ∧
      ∃ palcolor, gps.palcolor = some palcolor ∧
        Int.land palcolor.flag PC_COLOR_HIDE = 0 ∧
        (onion = false ∨ Int.land palcolor.flag PC_COLOR_ONIONSKIN = 0)) ∧
    (gpencil_can_draw_stroke gps onion).2 = gps := by
  unfold gpencil_can_draw_stroke
  by_cases h1 : gps.points.isNone = true ∨ gps.totpoints < 1
  · rw [if_pos h1]
    refine ⟨⟨fun h => absurd h (by simp), ?_⟩, rfl⟩
    rintro ⟨hp, ht, _⟩
    rcases h1 with h | h
    · exact absurd (Option.isNone_iff_eq_none.1 h) hp
    · omega
  · rw [if_neg h1]
    have hp : gps.points ≠ none := fun h => h1 (Or.inl (by simp [h]))
    have ht : 1 ≤ gps.totpoints := by
      by_contra hc
      exact h1 (Or.inr (by omega))
    by_cases h2 : gps.palette.isNone = true
    · rw [if_pos h2]
      refine ⟨⟨fun h => absurd h (by simp), ?_⟩, rfl⟩
      rintro ⟨_, _, hpal, _⟩
      exact absurd (Option.isNone_iff_eq_none.1 h2) hpal
    · rw [if_neg h2]
      have hpal : gps.palette ≠ none := fun h => h2 (by simp [h])
      cases hc : gps.palcolor with
      | none =>
        refine ⟨⟨fun h => absurd h (by simp), ?_⟩, rfl⟩
        rintro ⟨_, _, _, pc, hpc, _⟩
        exact absurd hpc (by simp)
      | some pc =>
        simp only
        by_cases h3 : Int.land pc.flag PC_COLOR_HIDE ≠ 0 ∨
            (onion = true ∧ Int.land pc.flag PC_COLOR_ONIONSKIN ≠ 0)
        · rw [if_pos h3]
          refine ⟨⟨fun h => absurd h (by simp), ?_⟩, rfl⟩
          rintro ⟨_, _, _, pc1, hpc, hh, ho⟩
          simp only [Option.some.injEq] at hpc
          subst hpc
          rcases h3 with h | ⟨h, h'⟩
          · exact (h hh).elim
          · rcases ho with ho | ho
            · rw [h] at ho
              exact absurd ho (by simp)
            · exact (h' ho).elim
        · rw [if_neg h3]
          refine ⟨⟨fun _ => ⟨hp, ht, hpal, pc, rfl, ?_, ?_⟩, fun _ => rfl⟩, rfl⟩
          · by_contra hh
            exact h3 (Or.inl hh)
          · by_cases ho : onion = false
            · exact Or.inl ho
            · right
              by_contra hh
              exact h3 (Or.inr ⟨by simpa using ho, hh⟩)

/-! ## Contents of the triangulation cache -/

/-- C17: after `gp_triangulate_stroke_fill` on a stroke of at least three points, the
cached triangle `i` holds exactly the `i`-th index triple returned by the
triangulator (called on the flattened points with the direction hint), in the
same corner order; each of its indices is a point index; and its corner UV
`uv[j]` is the entry of the computed UV array for the point `verts[j]`. -/
theorem triangulate_cache_contents [FloorRing K] (E : Externals K) (gps : bGPDstroke K)
    (pts : List (bGPDspoint K)) (hpts : gps.points = some pts)
    (hlen : gps.totpoints = (pts.length : Int)) (h3 : 3 ≤ gps.totpoints)
    (hpoly : valid_polyfill E) :
    ∃ p2d dir mm s tris, gpencil_stroke_2d_flat E pts gps.totpoints = .ok (p2d, dir) ∧
      gpencil_calc_2d_bounding_box p2d false = .ok mm ∧
      gp_triangulate_stroke_fill E gps = .ok s ∧
      s.triangles = some tris ∧ (tris.length : Int) = gps.totpoints - 2 ∧
      ∀ i : Nat, (i : Int) < gps.totpoints - 2 →
        ∃ t, tris.get? i = some t ∧
          t.verts = E.BLI_polyfill_calc p2d gps.totpoints dir i ∧
          ∀ j, j < 3 → ((at3 t.verts j : Nat) : Int) < gps.totpoints ∧
            (gpencil_calc_stroke_fill_uv p2d mm.1 mm.2).get? (at3 t.verts j)
              = some (at3 t.uv j) := by
  obtain ⟨p2d, dir, mm, hflat, hl, hbb, hs⟩ :=
    triangulate_stroke_fill_eq E gps pts hpts hlen (by omega) hpoly
  refine ⟨p2d, dir, mm, _, _, hflat, hbb, hs, rfl, by simp; omega, ?_⟩
  intro i hi
  have hi2 : i < pts.length - 2 := by omega
  refine ⟨cached_triangle (gpencil_calc_stroke_fill_uv p2d mm.1 mm.2)
    (E.BLI_polyfill_calc p2d gps.totpoints dir i), by simp [hi2], rfl, ?_⟩
  intro j hj
  obtain ⟨e1, e2⟩ := at3_cached_triangle (gpencil_calc_stroke_fill_uv p2d mm.1 mm.2)
    (E.BLI_polyfill_calc p2d gps.totpoints dir i) j hj
  obtain ⟨q1, q2, q3⟩ := hpoly p2d gps.totpoints dir i (by rw [hl, hlen]) (by omega)
  have hlt : at3 (E.BLI_polyfill_calc p2d gps.totpoints dir i) j < pts.length :=
    at3_lt _ _ (by omega) (by omega) (by omega) j
  refine ⟨by rw [e1]; omega, ?_⟩
  rw [e2, e1, List.getD_eq_getElem?_getD, List.get?_eq_getElem?,
    List.getElem?_eq_getElem (by rw [length_stroke_fill_uv, hl]; exact hlt)]
  simp

/-- C17 witness: the unit square stroke with the fan triangulation. -/
theorem triangulate_cache_contents_witness :
    ∃ p2d dir mm s tris, gpencil_stroke_2d_flat E0
        [mk_point 0 0 0, mk_point 1 0 0, mk_point 1 1 0, mk_point 0 1 0] square_stroke.totpoints
        = .ok (p2d, dir) ∧
      gpencil_calc_2d_bounding_box p2d false = .ok mm ∧
      gp_triangulate_stroke_fill E0 square_stroke = .ok s ∧
      s.triangles = some tris ∧ (tris.length : Int) = square_stroke.totpoints - 2 ∧
      ∀ i : Nat, (i : Int) < square_stroke.totpoints - 2 →
        ∃ t, tris.get? i = some t ∧
          t.verts = E0.BLI_polyfill_calc p2d square_stroke.totpoints dir i ∧
          ∀ j, j < 3 → ((at3 t.verts j : Nat) : Int) < square_stroke.totpoints ∧
            (gpencil_calc_stroke_fill_uv p2d mm.1 mm.2).get? (at3 t.verts j)
              = some (at3 t.uv j) :=
  triangulate_cache_contents E0 square_stroke
    [mk_point 0 0 0, mk_point 1 0 0, mk_point 1 1 0, mk_point 0 1 0] rfl rfl (by decide)
    valid_polyfill_E0

/-! ## Attribute packing -/

theorem holds_point_iff (E : Externals K) (vbo : Gwn_VertBuf K) (idx : Nat) (pt : bGPDspoint K)
    (thickness : Int) (ink : K × K × K × K) :
    holds_point E vbo idx pt thickness ink ↔
      ∀ a ∈ [Attr.pos, Attr.color, Attr.thickness, Attr.uvdata],
        vbo.attr_get a idx = some (stroke_vertex E pt thickness ink a) := by
  simp only [holds_point, stroke_vertex, List.mem_cons, List.mem_singleton, List.not_mem_nil,
    or_false, forall_eq_or_imp, forall_eq]
  tauto

theorem CLAMP_bounds (a b c : K) (h : b ≤ c) : b ≤ CLAMP a b c ∧ CLAMP a b c ≤ c := by
  unfold CLAMP
  split_ifs with h1 h2
  · exact ⟨le_refl _, h⟩
  · exact ⟨h, le_refl _⟩
  · exact ⟨not_lt.1 h1, not_lt.1 h2⟩

theorem max_ff_ge (a b : K) : b ≤ max_ff a b ∧ a ≤ max_ff a b := by
  unfold max_ff
  split_ifs with h
  · exact ⟨le_of_lt h, le_refl _⟩
  · exact ⟨le_refl _, not_lt.1 h⟩

theorem writes_set_stroke_point (E : Externals K) (vbo : Gwn_VertBuf K) (m : Nat → Nat → K)
    (pt : bGPDspoint K) (idx : Nat) (t : Int) (ink : K × K × K × K) :
    (gpencil_set_stroke_point E vbo m pt idx t ink).writes = vbo.writes ++
      [(Attr.color, idx, stroke_vertex E pt t ink Attr.color),
        (Attr.uvdata, idx, stroke_vertex E pt t ink Attr.uvdata),
        (Attr.thickness, idx, stroke_vertex E pt t ink Attr.thickness),
        (Attr.pos, idx, stroke_vertex E pt t ink Attr.pos)] := by
  simp [gpencil_set_stroke_point, GWN_vertbuf_attr_set, stroke_vertex]

theorem mem_writes_set_stroke_point (E : Externals K) (vbo : Gwn_VertBuf K) (m : Nat → Nat → K)
    (pt : bGPDspoint K) (idx : Nat) (t : Int) (ink : K × K × K × K) (a : Attr)
    (ha : a ∈ [Attr.pos, Attr.color, Attr.thickness, Attr.uvdata]) :
    (a, idx, stroke_vertex E pt t ink a) ∈ (gpencil_set_stroke_point E vbo m pt idx t ink).writes := by
  rw [writes_set_stroke_point]
  simp only [List.mem_cons, List.mem_singleton, List.not_mem_nil, or_false] at ha
  rcases ha with h | h | h | h <;> subst h <;> simp

/-- Whatever the buffer held, after `gpencil_set_stroke_point` the vertex `idx` holds
the point. -/
theorem holds_point_set_stroke_point (E : Externals K) (vbo : Gwn_VertBuf K) (m : Nat → Nat → K)
    (pt : bGPDspoint K) (idx : Nat) (t : Int) (ink : K × K × K × K) :
    holds_point E (gpencil_set_stroke_point E vbo m pt idx t ink) idx pt t ink := by
  simp [holds_point, Gwn_VertBuf.attr_get, writes_set_stroke_point, stroke_vertex]

theorem point_geom_step (E : Externals K) (gps : bGPDstroke K) (thickness : Int)
    (ink : K × K × K × K) (pts : List (bGPDspoint K)) (hpts : gps.points = some pts)
    (k : Nat) (s : Gwn_VertBuf K × Nat) (hk : k < pts.length) (hs : s.2 = k) :
    ∃ s1, point_geom_body E gps thickness ink k s = .ok s1 ∧ s1.2 = k + 1 ∧
      s1.1.vertex_len = s.1.vertex_len ∧
      (∀ a ∈ [Attr.pos, Attr.color, Attr.thickness, Attr.uvdata],
        s1.1.written a = s.1.written a ++ List.range' (1 * k + 0) 1) ∧
      (∀ w, w ∈ s.1.writes → w ∈ s1.1.writes) ∧
      (∀ j, j < 1 → ∀ a ∈ [Attr.pos, Attr.color, Attr.thickness, Attr.uvdata],
        (a, 1 * k + 0 + j, stroke_vertex E (pts.getD k (mk_point 0 0 0)) thickness ink a)
          ∈ s1.1.writes) := by
  obtain ⟨vbo, idx⟩ := s
  simp only at hs
  subst hs
  have hp := point_at_getD gps pts hpts idx (mk_point 0 0 0) hk
  simp only [point_geom_body, hp, except_bind_ok, except_pure]
  refine ⟨_, rfl, rfl, rfl, ?_, ?_, ?_⟩
  · intro a ha
    simp only [List.mem_cons, List.mem_singleton, List.not_mem_nil, or_false] at ha
    rcases ha with h | h | h | h <;> subst h <;>
      simp [Gwn_VertBuf.written, GWN_vertbuf_attr_set, List.filter_append, List.filter_cons]
  · intro w hw
    simp [GWN_vertbuf_attr_set, hw]
  · intro j hj a ha
    have hj0 : j = 0 := by omega
    subst hj0
    simp only [List.mem_cons, List.mem_singleton, List.not_mem_nil, or_false] at ha
    rcases ha with h | h | h | h <;> subst h <;> simp [GWN_vertbuf_attr_set, stroke_vertex]

/-- What the points builder returns on a stroke whose point array has `totpoints`
elements. -/
theorem point_geom_spec (E : Externals K) (gps : bGPDstroke K) (thickness : Int)
    (ink : K × K × K × K) (pts : List (bGPDspoint K)) (hpts : gps.points = some pts)
    (hlen : gps.totpoints = (pts.length : Int)) :
    ∃ b, DRW_gpencil_get_point_geom E gps thickness ink = .ok b ∧
      b.prim_type = Gwn_PrimType.GWN_PRIM_POINTS ∧ b.verts.vertex_len = pts.length ∧
      (∀ a ∈ [Attr.pos, Attr.color, Attr.thickness, Attr.uvdata],
        b.verts.written a = List.range pts.length) ∧
      ∀ i p, pts.get? i = some p → holds_point E b.verts i p thickness ink := by
  have htn : gps.totpoints.toNat = pts.length := by omega
  obtain ⟨s1, h1, _, h3, h4, _, h6⟩ := vertex_loop (fun s : Gwn_VertBuf K × Nat => s.1)
    (point_geom_body E gps thickness ink) [Attr.pos, Attr.color, Attr.thickness, Attr.uvdata]
    (fun k _ a => stroke_vertex E (pts.getD k (mk_point 0 0 0)) thickness ink a) 1 0 0 pts.length
    (fun k s => s.2 = k)
    (fun k s _ hk hs => point_geom_step E gps thickness ink pts hpts k s hk hs)
    pts.length 0 (GWN_vertbuf_data_alloc GWN_vertbuf_create_with_format gps.totpoints, 0)
    (le_refl _) (by omega) rfl
  have hw : ∀ a ∈ [Attr.pos, Attr.color, Attr.thickness, Attr.uvdata],
      s1.1.written a = List.range pts.length := by
    intro a ha
    rw [h4 a ha]
    simp [Gwn_VertBuf.written, GWN_vertbuf_data_alloc, GWN_vertbuf_create_with_format,
      List.range_eq_range']
  refine ⟨GWN_batch_create_ex .GWN_PRIM_POINTS s1.1, ?_, rfl, ?_, hw, ?_⟩
  · simp only [DRW_gpencil_get_point_geom, htn, h1, except_bind_ok, except_pure]
  · show s1.1.vertex_len = pts.length
    rw [h3]
    simp [GWN_vertbuf_data_alloc, htn]
  · intro i p hp
    have hi : i < pts.length := by
      by_contra hc
      rw [List.get?_eq_none.2 (by omega)] at hp
      exact absurd hp (by simp)
    have hpd : pts.getD i (mk_point 0 0 0) = p := by
      rw [List.get?_eq_getElem?] at hp
      simp [List.getD_eq_getElem?_getD, hp]
    rw [holds_point_iff]
    intro a ha
    have := h6 i (by omega) (by omega) 0 (by omega) a ha
    simp only [hpd, one_mul, add_zero] at this
    exact attr_get_of_range _ a _ _ _ (hw a ha) this

/-- C12: with `GPENCIL_STRENGTH_MIN <= 1`, for every point the alpha written is
`clamp(base alpha x strength, MIN, 1)`, hence within `[MIN, 1]`, and the
thickness written is `max(pressure x thickness, 1)`, hence at least 1;
`gpencil_set_stroke_point` leaves at the given index the colour `(r, g, b,
alpha)`, the pair `(uv_fac, uv_rot)` in the `uvdata` slot, that thickness and the
position of the point unchanged; and the points builder returns a buffer of
one vertex per point, every attribute written once per index, in which the
vertex `i` holds the point `i` in the same way. -/
theorem stroke_point_attributes (E : Externals K) (thickness : Int) (ink : K × K × K × K)
    (hmin : E.GPENCIL_STRENGTH_MIN ≤ 1) :
    (∀ pt : bGPDspoint K,
      E.GPENCIL_STRENGTH_MIN ≤ CLAMP (ink.2.2.2 * pt.strength) E.GPENCIL_STRENGTH_MIN 1 ∧
      CLAMP (ink.2.2.2 * pt.strength) E.GPENCIL_STRENGTH_MIN 1 ≤ 1 ∧
      1 ≤ max_ff (pt.pressure * (thickness : K)) 1) ∧
    (∀ (vbo : Gwn_VertBuf K) (matrix : Nat → Nat → K) (pt : bGPDspoint K) (idx : Nat),
      holds_point E (gpencil_set_stroke_point E vbo matrix pt idx thickness ink) idx pt
        thickness ink) ∧
    (∀ (gps : bGPDstroke K) (pts : List (bGPDspoint K)), gps.points = some pts →
      gps.totpoints = (pts.length : Int) →
      ∃ b, DRW_gpencil_get_point_geom E gps thickness ink = .ok b ∧
        b.prim_type = Gwn_PrimType.GWN_PRIM_POINTS ∧ b.verts.vertex_len = pts.length ∧
        (∀ a ∈ [Attr.pos, Attr.color, Attr.thickness, Attr.uvdata],
          b.verts.written a = List.range pts.length) ∧
        ∀ i p, pts.get? i = some p → holds_point E b.verts i p thickness ink) :=
  ⟨fun _ => ⟨(CLAMP_bounds _ _ _ hmin).1, (CLAMP_bounds _ _ _ hmin).2, (max_ff_ge _ _).1⟩,
    fun vbo matrix pt idx => holds_point_set_stroke_point E vbo matrix pt idx thickness ink,
    fun gps pts hpts hlen => point_geom_spec E gps thickness ink pts hpts hlen⟩

/-- C12 witness: thickness 3 and a white ink on the unit square stroke. -/
theorem stroke_point_attributes_witness :
    (E0.GPENCIL_STRENGTH_MIN ≤ CLAMP ((1 : ℚ) * (mk_point (0 : ℚ) 0 0).strength)
        E0.GPENCIL_STRENGTH_MIN 1 ∧
      1 ≤ max_ff ((mk_point (0 : ℚ) 0 0).pressure * ((3 : Int) : ℚ)) 1) ∧
    ∃ b, DRW_gpencil_get_point_geom E0 square_stroke 3 (1, 1, 1, 1) = .ok b ∧
      b.verts.vertex_len = 4 ∧
      ∀ i p, [mk_point (0 : ℚ) 0 0, mk_point 1 0 0, mk_point 1 1 0, mk_point 0 1 0].get? i
          = some p → holds_point E0 b.verts i p 3 (1, 1, 1, 1) := by
  have h := stroke_point_attributes E0 3 (1, 1, 1, 1) (by norm_num [E0])
  obtain ⟨b, e1, _, e3, _, e5⟩ := h.2.2 square_stroke
    [mk_point 0 0 0, mk_point 1 0 0, mk_point 1 1 0, mk_point 0 1 0] rfl rfl
  exact ⟨⟨(h.1 (mk_point 0 0 0)).1, (h.1 (mk_point 0 0 0)).2.2⟩, b, e1, e3, e5⟩

/-! ## Outline builder: vertex sequence -/

theorem mem_writes_of_mem_set_stroke_point (E : Externals K) (vbo : Gwn_VertBuf K)
    (m : Nat → Nat → K) (pt : bGPDspoint K) (idx : Nat) (t : Int) (ink : K × K × K × K)
    (w : Attr × Nat × List K) (hw : w ∈ vbo.writes) :
    w ∈ (gpencil_set_stroke_point E vbo m pt idx t ink).writes := by
  rw [writes_set_stroke_point]
  exact List.mem_append_left _ hw

theorem stroke_geom_step (E : Externals K) (gpf : bGPDframe K) (gps : bGPDstroke K)
    (thickness : Int) (ink : K × K × K × K) (pts : List (bGPDspoint K))
    (hpts : gps.points = some pts) (k : Nat) (s : Gwn_VertBuf K × Nat) (h1 : 1 ≤ k)
    (hk : k < pts.length) (hs : s.2 = k + 1) :
    ∃ s1, stroke_geom_body E gpf gps thickness ink k s = .ok s1 ∧ s1.2 = k + 1 + 1 ∧
      s1.1.vertex_len = s.1.vertex_len ∧
      (∀ a ∈ [Attr.pos, Attr.color, Attr.thickness, Attr.uvdata],
        s1.1.written a = s.1.written a ++ List.range' (1 * k + 1) 1) ∧
      (∀ w, w ∈ s.1.writes → w ∈ s1.1.writes) ∧
      (∀ j, j < 1 → ∀ a ∈ [Attr.pos, Attr.color, Attr.thickness, Attr.uvdata],
        (a, 1 * k + 1 + j, stroke_vertex E (pts.getD k (mk_point 0 0 0)) thickness ink a)
          ∈ s1.1.writes) := by
  obtain ⟨vbo, idx⟩ := s
  simp only at hs
  subst hs
  have hp := point_at_getD gps pts hpts k (mk_point 0 0 0) hk
  have hk0 : k ≠ 0 := by omega
  refine ⟨(gpencil_set_stroke_point E vbo gpf.viewmatrix (pts.getD k (mk_point 0 0 0)) (k + 1)
    thickness ink, k + 1 + 1), by simp [stroke_geom_body, hk0, hp], rfl, rfl, ?_, ?_, ?_⟩
  · intro a ha
    rw [written_set_stroke_point E _ _ _ _ _ _ a ha]
    simp
  · intro w hw
    exact mem_writes_of_mem_set_stroke_point E vbo gpf.viewmatrix _ (k + 1) thickness ink w hw
  · intro j hj a ha
    have hj0 : j = 0 := by omega
    subst hj0
    simpa using mem_writes_set_stroke_point E vbo gpf.viewmatrix _ (k + 1) thickness ink a ha
/-- The point loop of the outline builder, started on a buffer without writes: it
writes the leading adjacency vertex at index 0 and the point `k` at index
`k + 1`. -/
theorem stroke_geom_loop_contents (E : Externals K) (gpf : bGPDframe K) (gps : bGPDstroke K)
    (thickness : Int) (ink : K × K × K × K) (pts : List (bGPDspoint K))
    (hpts : gps.points = some pts) (hlen : gps.totpoints = (pts.length : Int))
    (h2 : 2 ≤ pts.length) (vbo : Gwn_VertBuf K) (hw : vbo.writes = []) :
    ∃ s1, for_loop (stroke_geom_body E gpf gps thickness ink) 0 pts.length (vbo, 0) = .ok s1 ∧
      s1.2 = pts.length + 1 ∧ s1.1.vertex_len = vbo.vertex_len ∧
      (∀ a ∈ [Attr.pos, Attr.color, Attr.thickness, Attr.uvdata],
        s1.1.written a = List.range (pts.length + 1)) ∧
      (∀ a ∈ [Attr.pos, Attr.color, Attr.thickness, Attr.uvdata],
        (a, 0, stroke_vertex E
          (pts.getD (if is_cyclic gps = true ∧ gps.totpoints > 2 then pts.length - 1 else 1)
            (mk_point 0 0 0)) thickness ink a) ∈ s1.1.writes) ∧
      (∀ k, k < pts.length → ∀ a ∈ [Attr.pos, Attr.color, Attr.thickness, Attr.uvdata],
        (a, k + 1, stroke_vertex E (pts.getD k (mk_point 0 0 0)) thickness ink a)
          ∈ s1.1.writes) := by
  have hp0 := point_at_getD gps pts hpts 0 (mk_point 0 0 0) (by omega)
  have hp1 := point_at_getD gps pts hpts 1 (mk_point 0 0 0) (by omega)
  have hpl := point_at_getD gps pts hpts (pts.length - 1) (mk_point 0 0 0) (by omega)
  have hcast : ((pts.length - 1 : Nat) : Int) = gps.totpoints - 1 := by omega
  rw [hcast] at hpl
  have hbody : stroke_geom_body E gpf gps thickness ink 0 (vbo, 0)
      = .ok (gpencil_set_stroke_point E
          (gpencil_set_stroke_point E vbo gpf.viewmatrix
            (pts.getD (if is_cyclic gps = true ∧ gps.totpoints > 2 then pts.length - 1 else 1)
              (mk_point 0 0 0)) 0 thickness ink)
          gpf.viewmatrix (pts.getD 0 (mk_point 0 0 0)) 1 thickness ink, 1 + 1) := by
    by_cases hc : is_cyclic gps = true ∧ gps.totpoints > 2
    · rw [if_pos hc]
      simp only [Nat.cast_zero] at hp0
      simp [stroke_geom_body, hc, hpl, hp0]
    · rw [if_neg hc]
      simp only [Nat.cast_zero, Nat.cast_one] at hp0 hp1
      simp [stroke_geom_body, hc, hp1, hp0]
  obtain ⟨n, hn⟩ : ∃ n, pts.length = n + 1 := ⟨pts.length - 1, by omega⟩
  obtain ⟨s1, l1, l2, l3, l4, l5, l6⟩ := vertex_loop (fun s : Gwn_VertBuf K × Nat => s.1)
    (stroke_geom_body E gpf gps thickness ink) [Attr.pos, Attr.color, Attr.thickness, Attr.uvdata]
    (fun k _ a => stroke_vertex E (pts.getD k (mk_point 0 0 0)) thickness ink a) 1 1 1 pts.length
    (fun k s => s.2 = k + 1)
    (fun k s hk1 hk hs => stroke_geom_step E gpf gps thickness ink pts hpts k s hk1 hk hs)
    n 1 (gpencil_set_stroke_point E
          (gpencil_set_stroke_point E vbo gpf.viewmatrix
            (pts.getD (if is_cyclic gps = true ∧ gps.totpoints > 2 then pts.length - 1 else 1)
              (mk_point 0 0 0)) 0 thickness ink)
          gpf.viewmatrix (pts.getD 0 (mk_point 0 0 0)) 1 thickness ink, 1 + 1)
    (le_refl _) (by omega) rfl
  refine ⟨s1, ?_, ?_, ?_, ?_, ?_, ?_⟩
  · rw [hn, for_loop_succ _ _ _ _ _ hbody]
    exact l1
  · rw [l2]
    omega
  · rw [l3]
    rfl
  · intro a ha
    rw [l4 a ha, written_set_stroke_point E _ _ _ _ _ _ a ha,
      written_set_stroke_point E _ _ _ _ _ _ a ha]
    have : vbo.written a = [] := by simp [Gwn_VertBuf.written, hw]
    rw [this, hn]
    simp [List.range_eq_range', List.range'_succ]
  · intro a ha
    apply l5
    exact mem_writes_of_mem_set_stroke_point E _ gpf.viewmatrix _ 1 thickness ink _
      (mem_writes_set_stroke_point E vbo gpf.viewmatrix _ 0 thickness ink a ha)
  · intro k hk a ha
    by_cases hk0 : k = 0
    · subst hk0
      apply l5
      exact mem_writes_set_stroke_point E _ gpf.viewmatrix _ 1 thickness ink a ha
    · have := l6 k (by omega) (by omega) 0 (by omega) a ha
      simpa using this

/-- The vertex sequence written by the outline builder on a stroke of at least two
points: the points at indices `1 .. N`, then either the loop neighbours (cyclic,
more than two points) or the second and second-to-last points as adjacency. -/
theorem stroke_geom_sequence (E : Externals K) (gpf : bGPDframe K) (gps : bGPDstroke K)
    (thickness : Int) (ink : K × K × K × K) (pts : List (bGPDspoint K))
    (hpts : gps.points = some pts) (hlen : gps.totpoints = (pts.length : Int))
    (h2 : 2 ≤ pts.length) :
    ∃ b, DRW_gpencil_get_stroke_geom E gpf gps thickness ink = .ok b ∧
      (∀ i p, pts.get? i = some p → holds_point E b.verts (i + 1) p thickness ink) ∧
      (is_cyclic gps = true ∧ gps.totpoints > 2 →
        holds_point E b.verts 0 (pts.getD (pts.length - 1) (mk_point 0 0 0)) thickness ink ∧
        holds_point E b.verts (pts.length + 1) (pts.getD 0 (mk_point 0 0 0)) thickness ink ∧
        holds_point E b.verts (pts.length + 2) (pts.getD 1 (mk_point 0 0 0)) thickness ink) ∧
      (¬ (is_cyclic gps = true ∧ gps.totpoints > 2) →
        holds_point E b.verts 0 (pts.getD 1 (mk_point 0 0 0)) thickness ink ∧
        holds_point E b.verts (pts.length + 1) (pts.getD (pts.length - 2) (mk_point 0 0 0))
          thickness ink) := by
  have htn : gps.totpoints.toNat = pts.length := by omega
  have hp0 := point_at_getD gps pts hpts 0 (mk_point 0 0 0) (by omega)
  have hp1 := point_at_getD gps pts hpts 1 (mk_point 0 0 0) (by omega)
  have hpm := point_at_getD gps pts hpts (pts.length - 2) (mk_point 0 0 0) (by omega)
  have hcast : ((pts.length - 2 : Nat) : Int) = gps.totpoints - 2 := by omega
  rw [hcast] at hpm
  simp only [Nat.cast_zero, Nat.cast_one] at hp0 hp1
  have hpts_get : ∀ i p, pts.get? i = some p → i < pts.length ∧ pts.getD i (mk_point 0 0 0) = p := by
    intro i p hp
    have hi : i < pts.length := by
      by_contra hc
      rw [List.get?_eq_none.2 (by omega)] at hp
      exact absurd hp (by simp)
    rw [List.get?_eq_getElem?] at hp
    exact ⟨hi, by simp [List.getD_eq_getElem?_getD, hp]⟩
  by_cases hc : is_cyclic gps = true ∧ gps.totpoints > 2
  · obtain ⟨s1, e1, e2, _, e4, e5, e6⟩ := stroke_geom_loop_contents E gpf gps thickness ink pts
      hpts hlen h2 (GWN_vertbuf_data_alloc GWN_vertbuf_create_with_format (gps.totpoints + 1 + 2))
      rfl
    rw [if_pos hc] at e5
    obtain ⟨vbo1, idx1⟩ := s1
    simp only at e2 e4 e5 e6
    subst e2
    have hwr : ∀ a ∈ [Attr.pos, Attr.color, Attr.thickness, Attr.uvdata],
        (gpencil_set_stroke_point E
          (gpencil_set_stroke_point E vbo1 gpf.viewmatrix (pts.getD 0 (mk_point 0 0 0))
            (pts.length + 1) thickness ink)
          gpf.viewmatrix (pts.getD 1 (mk_point 0 0 0)) (pts.length + 1 + 1) thickness ink).written a
          = List.range (pts.length + 3) := by
      intro a ha
      rw [written_set_stroke_point E _ _ _ _ _ _ a ha, written_set_stroke_point E _ _ _ _ _ _ a ha,
        e4 a ha, List.range_succ (n := pts.length + 2), List.range_succ (n := pts.length + 1)]
    refine ⟨GWN_batch_create_ex .GWN_PRIM_LINE_STRIP_ADJ
      (gpencil_set_stroke_point E
        (gpencil_set_stroke_point E vbo1 gpf.viewmatrix (pts.getD 0 (mk_point 0 0 0))
          (pts.length + 1) thickness ink)
        gpf.viewmatrix (pts.getD 1 (mk_point 0 0 0)) (pts.length + 1 + 1) thickness ink),
      ?_, ?_, ?_, fun h => absurd hc h⟩
    · simp [DRW_gpencil_get_stroke_geom, hc.1, hc.2, htn, e1, hp0, hp1]
    · intro i p hp
      obtain ⟨hi, hd⟩ := hpts_get i p hp
      rw [holds_point_iff]
      intro a ha
      refine attr_get_of_range _ a _ _ _ (hwr a ha) ?_
      rw [← hd]
      exact mem_writes_of_mem_set_stroke_point E _ gpf.viewmatrix _ _ thickness ink _
        (mem_writes_of_mem_set_stroke_point E _ gpf.viewmatrix _ _ thickness ink _ (e6 i hi a ha))
    · intro _
      refine ⟨?_, ?_, ?_⟩ <;> rw [holds_point_iff] <;> intro a ha <;>
        refine attr_get_of_range _ a _ _ _ (hwr a ha) ?_
      · exact mem_writes_of_mem_set_stroke_point E _ gpf.viewmatrix _ _ thickness ink _
          (mem_writes_of_mem_set_stroke_point E _ gpf.viewmatrix _ _ thickness ink _ (e5 a ha))
      · exact mem_writes_of_mem_set_stroke_point E _ gpf.viewmatrix _ _ thickness ink _
          (mem_writes_set_stroke_point E _ gpf.viewmatrix _ _ thickness ink a ha)
      · exact mem_writes_set_stroke_point E _ gpf.viewmatrix _ _ thickness ink a ha
  · obtain ⟨s1, e1, e2, _, e4, e5, e6⟩ := stroke_geom_loop_contents E gpf gps thickness ink pts
      hpts hlen h2
      (GWN_vertbuf_data_alloc GWN_vertbuf_create_with_format
        (gps.totpoints + (if is_cyclic gps = true then 1 else 0) + 2)) rfl
    rw [if_neg hc] at e5
    obtain ⟨vbo1, idx1⟩ := s1
    simp only at e2 e4 e5 e6
    subst e2
    have hwr : ∀ a ∈ [Attr.pos, Attr.color, Attr.thickness, Attr.uvdata],
        (gpencil_set_stroke_point E vbo1 gpf.viewmatrix
          (pts.getD (pts.length - 2) (mk_point 0 0 0)) (pts.length + 1) thickness ink).written a
          = List.range (pts.length + 2) := by
      intro a ha
      rw [written_set_stroke_point E _ _ _ _ _ _ a ha, e4 a ha,
        List.range_succ (n := pts.length + 1)]
    refine ⟨GWN_batch_create_ex .GWN_PRIM_LINE_STRIP_ADJ
      (gpencil_set_stroke_point E vbo1 gpf.viewmatrix
        (pts.getD (pts.length - 2) (mk_point 0 0 0)) (pts.length + 1) thickness ink),
      ?_, ?_, fun h => absurd h hc, ?_⟩
    · simp only [DRW_gpencil_get_stroke_geom, htn, e1, except_bind_ok, hc, if_false, hpm,
        except_pure]
    · intro i p hp
      obtain ⟨hi, hd⟩ := hpts_get i p hp
      rw [holds_point_iff]
      intro a ha
      refine attr_get_of_range _ a _ _ _ (hwr a ha) ?_
      rw [← hd]
      exact mem_writes_of_mem_set_stroke_point E _ gpf.viewmatrix _ _ thickness ink _ (e6 i hi a ha)
    · intro _
      refine ⟨?_, ?_⟩ <;> rw [holds_point_iff] <;> intro a ha <;>
        refine attr_get_of_range _ a _ _ _ (hwr a ha) ?_
      · exact mem_writes_of_mem_set_stroke_point E _ gpf.viewmatrix _ _ thickness ink _ (e5 a ha)
      · exact mem_writes_set_stroke_point E _ gpf.viewmatrix _ _ thickness ink a ha

/-- C18 (as amended): on a non-cyclic stroke of `N >= 2` points the leading adjacency
vertex (index 0) holds the second point and the trailing adjacency vertex
(index `N + 1`) holds the second-to-last point. -/
theorem stroke_geom_adjacency (E : Externals K) (gpf : bGPDframe K) (gps : bGPDstroke K)
    (thickness : Int) (ink : K × K × K × K) (pts : List (bGPDspoint K))
    (hpts : gps.points = some pts) (hlen : gps.totpoints = (pts.length : Int))
    (h2 : 2 ≤ pts.length) (hnc : is_cyclic gps = false) :
    ∃ b p1 pm, DRW_gpencil_get_stroke_geom E gpf gps thickness ink = .ok b ∧
      pts.get? 1 = some p1 ∧ pts.get? (pts.length - 2) = some pm ∧
      holds_point E b.verts 0 p1 thickness ink ∧
      holds_point E b.verts (pts.length + 1) pm thickness ink := by
  obtain ⟨b, e1, _, _, e4⟩ := stroke_geom_sequence E gpf gps thickness ink pts hpts hlen h2
  obtain ⟨a1, a2⟩ := e4 (by simp [hnc])
  have hget : ∀ n, n < pts.length → pts.get? n = some (pts.getD n (mk_point 0 0 0)) := by
    intro n hn
    simp [List.getD_eq_getElem?_getD, List.getElem?_eq_getElem hn]
  exact ⟨b, _, _, e1, hget 1 (by omega), hget _ (by omega), a1, a2⟩

/-- C18 witness: the open unit square stroke. -/
theorem stroke_geom_adjacency_witness :
    ∃ b p1 pm, DRW_gpencil_get_stroke_geom E0 ⟨fun _ _ => 0⟩ square_stroke 3 (1, 1, 1, 1) = .ok b ∧
      [mk_point (0 : ℚ) 0 0, mk_point 1 0 0, mk_point 1 1 0, mk_point 0 1 0].get? 1 = some p1 ∧
      [mk_point (0 : ℚ) 0 0, mk_point 1 0 0, mk_point 1 1 0, mk_point 0 1 0].get? (4 - 2)
        = some pm ∧
      holds_point E0 b.verts 0 p1 3 (1, 1, 1, 1) ∧
      holds_point E0 b.verts (4 + 1) pm 3 (1, 1, 1, 1) :=
  stroke_geom_adjacency E0 ⟨fun _ _ => 0⟩ square_stroke 3 (1, 1, 1, 1)
    [mk_point 0 0 0, mk_point 1 0 0, mk_point 1 1 0, mk_point 0 1 0] rfl rfl (by decide)
    (by decide)

/-- C18 counterexample: on the open unit square stroke (non-cyclic, four points) the
leading adjacency vertex holds the position `(1,0,0)` of the second point, not
the first point `(0,0,0)`, and the trailing one holds the position `(1,1,0)` of
the third point, not the last point `(0,1,0)`. -/
theorem outline_adjacency_not_endpoints :
    is_cyclic square_stroke = false ∧
    ∃ b, DRW_gpencil_get_stroke_geom E0 ⟨fun _ _ => 0⟩ square_stroke 3 (1, 1, 1, 1) = .ok b ∧
      b.verts.attr_get Attr.pos 0 = some [1, 0, 0] ∧
      b.verts.attr_get Attr.pos 5 = some [1, 1, 0] ∧
      ¬ holds_point E0 b.verts 0 (mk_point 0 0 0) 3 (1, 1, 1, 1) ∧
      ¬ holds_point E0 b.verts 5 (mk_point 0 1 0) 3 (1, 1, 1, 1) := by
  refine ⟨by decide, ?_⟩
  obtain ⟨b, e1, _, _, e4⟩ := stroke_geom_sequence E0 ⟨fun _ _ => 0⟩ square_stroke 3 (1, 1, 1, 1)
    [mk_point 0 0 0, mk_point 1 0 0, mk_point 1 1 0, mk_point 0 1 0] rfl rfl (by decide)
  obtain ⟨a1, a2⟩ := e4 (by decide)
  have q1 : b.verts.attr_get Attr.pos 0 = some [1, 0, 0] := a1.2.2.2
  have q2 : b.verts.attr_get Attr.pos 5 = some [1, 1, 0] := a2.2.2.2
  refine ⟨b, e1, q1, q2, ?_, ?_⟩
  · intro h
    have := h.2.2.2
    rw [q1] at this
    simp [mk_point] at this
  · intro h
    have := h.2.2.2
    rw [q2] at this
    simp [mk_point] at this

/-! ## Flattening: contents -/

/-- What `gpencil_stroke_2d_flat` returns on an array of at least two points: every
point projected on the two normalised local axes, and the truncated third
component of the second axis. -/
theorem stroke_2d_flat_eq [FloorRing K] (E : Externals K) (pts : List (bGPDspoint K))
    (d : bGPDspoint K) (h2 : 2 ≤ pts.length) :
    (int_of_float ((pts.length : K) * 0.75)).toNat < pts.length ∧
    gpencil_stroke_2d_flat E pts (pts.length : Int) = .ok
      (pts.map (fun pt =>
        (dot_v3v3 (sub_v3_v3v3 pt.co (pts.getD 0 d).co)
            (normalize_v3 E.sqrtf (sub_v3_v3v3 (pts.getD 1 d).co (pts.getD 0 d).co)),
          dot_v3v3 (sub_v3_v3v3 pt.co (pts.getD 0 d).co)
            (normalize_v3 E.sqrtf (cross_v3_v3v3
              (cross_v3_v3v3 (sub_v3_v3v3 (pts.getD 1 d).co (pts.getD 0 d).co)
                (sub_v3_v3v3 (pts.getD (int_of_float ((pts.length : K) * 0.75)).toNat d).co
                  (pts.getD 0 d).co))
              (sub_v3_v3v3 (pts.getD 1 d).co (pts.getD 0 d).co))))),
        int_of_float (normalize_v3 E.sqrtf (cross_v3_v3v3
              (cross_v3_v3v3 (sub_v3_v3v3 (pts.getD 1 d).co (pts.getD 0 d).co)
                (sub_v3_v3v3 (pts.getD (int_of_float ((pts.length : K) * 0.75)).toNat d).co
                  (pts.getD 0 d).co))
              (sub_v3_v3v3 (pts.getD 1 d).co (pts.getD 0 d).co))).2.2) := by
  obtain ⟨hs0, hs1⟩ := int_of_float_sample (K := K) (pts.length : Int) (by omega)
  have hcast : (((pts.length : Nat) : Int) : K) = (pts.length : K) := by push_cast; rfl
  rw [hcast] at hs0 hs1
  have hk : (int_of_float ((pts.length : K) * 0.75)).toNat < pts.length := by omega
  refine ⟨hk, ?_⟩
  have e0 : read pts 0 = .ok (pts.getD 0 d) := read_getD pts 0 d (by omega)
  have e1 : read pts 1 = .ok (pts.getD 1 d) := read_getD pts 1 d (by omega)
  have e3 : read pts (int_of_float ((pts.length : K) * 0.75))
      = .ok (pts.getD (int_of_float ((pts.length : K) * 0.75)).toNat d) := by
    have := read_getD pts (int_of_float ((pts.length : K) * 0.75)).toNat d hk
    rwa [Int.toNat_of_nonneg hs0] at this
  unfold gpencil_stroke_2d_flat
  simp only [hcast, e0, e1, e3, except_bind_ok, Int.toNat_ofNat]
  rw [stroke_2d_flat_loop pts _ _ _ pts.length 0 [] (by omega)]
  simp

/-! ## Flattening: rigid motions -/

theorem sub_rigid_motion (R : (K × K × K) × (K × K × K) × (K × K × K)) (t : K × K × K)
    (a b : bGPDspoint K) :
    sub_v3_v3v3 (rigid_motion R t a).co (rigid_motion R t b).co
      = mat3_mul_v3 R (sub_v3_v3v3 a.co b.co) := by
  simp only [rigid_motion, bGPDspoint.co, sub_v3_v3v3, mat3_mul_v3, dot_v3v3, Prod.mk.injEq]
  refine ⟨?_, ?_, ?_⟩ <;> ring

theorem dot_mat3_mul_v3 (R : (K × K × K) × (K × K × K) × (K × K × K)) (hR : is_rotation R)
    (a b : K × K × K) :
    dot_v3v3 (mat3_mul_v3 R a) (mat3_mul_v3 R b) = dot_v3v3 a b := by
  obtain ⟨⟨h11, h22, h33, h12, h13, h23⟩, _⟩ := hR
  obtain ⟨a1, a2, a3⟩ := a
  obtain ⟨b1, b2, b3⟩ := b
  simp only [mat3_mul_v3, dot_v3v3]
  linear_combination (a1 * b1) * h11 + (a2 * b2) * h22 + (a3 * b3) * h33
    + (a1 * b2 + a2 * b1) * h12 + (a1 * b3 + a3 * b1) * h13 + (a2 * b3 + a3 * b2) * h23

theorem cross_cross_eq (a b : K × K × K) :
    cross_v3_v3v3 (cross_v3_v3v3 a b) a
      = (b.1 * dot_v3v3 a a - a.1 * dot_v3v3 a b, b.2.1 * dot_v3v3 a a - a.2.1 * dot_v3v3 a b,
          b.2.2 * dot_v3v3 a a - a.2.2 * dot_v3v3 a b) := by
  simp only [cross_v3_v3v3, dot_v3v3, Prod.mk.injEq]
  refine ⟨?_, ?_, ?_⟩ <;> ring

theorem cross_cross_mat3_mul_v3 (R : (K × K × K) × (K × K × K) × (K × K × K))
    (hR : is_rotation R) (a b : K × K × K) :
    cross_v3_v3v3 (cross_v3_v3v3 (mat3_mul_v3 R a) (mat3_mul_v3 R b)) (mat3_mul_v3 R a)
      = mat3_mul_v3 R (cross_v3_v3v3 (cross_v3_v3v3 a b) a) := by
  rw [cross_cross_eq, cross_cross_eq, dot_mat3_mul_v3 R hR, dot_mat3_mul_v3 R hR]
  simp only [mat3_mul_v3, Prod.mk.injEq]
  generalize dot_v3v3 a a = s
  generalize dot_v3v3 a b = u
  simp only [dot_v3v3]
  refine ⟨?_, ?_, ?_⟩ <;> ring

theorem normalize_mat3_mul_v3 (sqrtf : K → K) (R : (K × K × K) × (K × K × K) × (K × K × K))
    (hR : is_rotation R) (a : K × K × K) :
    normalize_v3 sqrtf (mat3_mul_v3 R a) = mat3_mul_v3 R (normalize_v3 sqrtf a) := by
  unfold normalize_v3
  simp only [dot_mat3_mul_v3 R hR]
  split_ifs with h
  · simp only [mat3_mul_v3, dot_v3v3, Prod.mk.injEq]
    refine ⟨?_, ?_, ?_⟩ <;> ring
  · simp [mat3_mul_v3, dot_v3v3]

/-- C16: for every sequence of at least two points, every rotation `R` of 3-space and
every translation `t`, `gpencil_stroke_2d_flat` returns both on the points `p` and
on the moved points `R p + t`, and the two `points2d` arrays (one entry per point)
are the same. -/
theorem stroke_2d_flat_rigid_motion [FloorRing K] (E : Externals K) (pts : List (bGPDspoint K))
    (R : (K × K × K) × (K × K × K) × (K × K × K)) (t : K × K × K) (hR : is_rotation R)
    (h2 : 2 ≤ pts.length) :
    ∃ p2d dir dir1, gpencil_stroke_2d_flat E pts (pts.length : Int) = .ok (p2d, dir) ∧
      gpencil_stroke_2d_flat E (pts.map (rigid_motion R t)) (pts.length : Int)
        = .ok (p2d, dir1) ∧ p2d.length = pts.length := by
  obtain ⟨_, e1⟩ := stroke_2d_flat_eq E pts (mk_point 0 0 0) h2
  obtain ⟨_, e2⟩ := stroke_2d_flat_eq E (pts.map (rigid_motion R t))
    (rigid_motion R t (mk_point 0 0 0)) (by simpa using h2)
  rw [List.length_map] at e2
  simp only [List.getD_map, List.map_map, sub_rigid_motion, cross_cross_mat3_mul_v3 R hR,
    normalize_mat3_mul_v3 E.sqrtf R hR, Function.comp_def, dot_mat3_mul_v3 R hR] at e2
  exact ⟨_, _, _, e1, e2, by simp⟩

/-- C16 witness: three points, turned by a quarter turn about the z axis and shifted by
`(1, 2, 3)`. -/
theorem stroke_2d_flat_rigid_motion_witness :
    is_rotation (((0, -1, 0), (1, 0, 0), (0, 0, 1)) : (ℚ × ℚ × ℚ) × (ℚ × ℚ × ℚ) × (ℚ × ℚ × ℚ)) ∧
    2 ≤ [mk_point (0 : ℚ) 0 0, mk_point 1 0 0, mk_point 1 1 0].length ∧
    ∃ p2d dir dir1,
      gpencil_stroke_2d_flat E0 [mk_point (0 : ℚ) 0 0, mk_point 1 0 0, mk_point 1 1 0]
        (([mk_point (0 : ℚ) 0 0, mk_point 1 0 0, mk_point 1 1 0].length : Nat) : Int)
        = .ok (p2d, dir) ∧
      gpencil_stroke_2d_flat E0
        ([mk_point (0 : ℚ) 0 0, mk_point 1 0 0, mk_point 1 1 0].map
          (rigid_motion ((0, -1, 0), (1, 0, 0), (0, 0, 1)) (1, 2, 3)))
        (([mk_point (0 : ℚ) 0 0, mk_point 1 0 0, mk_point 1 1 0].length : Nat) : Int)
        = .ok (p2d, dir1) ∧
      p2d.length = [mk_point (0 : ℚ) 0 0, mk_point 1 0 0, mk_point 1 1 0].length :=
  ⟨by norm_num [is_rotation, det3, dot_v3v3, cross_v3_v3v3], by decide,
    stroke_2d_flat_rigid_motion E0 [mk_point (0 : ℚ) 0 0, mk_point 1 0 0, mk_point 1 1 0]
      ((0, -1, 0), (1, 0, 0), (0, 0, 1)) (1, 2, 3)
      (by norm_num [is_rotation, det3, dot_v3v3, cross_v3_v3v3]) (by decide)⟩
/-! ## Flattening: the local axes -/

theorem dot_v3v3_self_nonneg (a : K × K × K) : 0 ≤ dot_v3v3 a a := by
  simp only [dot_v3v3]
  exact add_nonneg (add_nonneg (mul_self_nonneg _) (mul_self_nonneg _)) (mul_self_nonneg _)

theorem sqrtf_zero (sqrtf : K → K) (hsqrt : ∀ x, 0 ≤ x → 0 ≤ sqrtf x ∧ sqrtf x * sqrtf x = x) :
    sqrtf 0 = 0 := by
  obtain ⟨_, h⟩ := hsqrt 0 le_rfl
  exact mul_self_eq_zero.1 h

/-- The normalised vector is a multiple of the vector, of squared length 1 unless it
is zero, and its dot product with the vector is the length of the vector. -/
theorem normalize_v3_spec (sqrtf : K → K)
    (hsqrt : ∀ x, 0 ≤ x → 0 ≤ sqrtf x ∧ sqrtf x * sqrtf x = x) (a : K × K × K) :
    ∃ s, normalize_v3 sqrtf a = (a.1 * s, a.2.1 * s, a.2.2 * s) ∧
      (dot_v3v3 (normalize_v3 sqrtf a) (normalize_v3 sqrtf a) = 1 ∨
        normalize_v3 sqrtf a = (0, 0, 0)) ∧
      dot_v3v3 a (normalize_v3 sqrtf a) = sqrtf (dot_v3v3 a a) ∧
      0 ≤ sqrtf (dot_v3v3 a a) := by
  obtain ⟨hl0, hll⟩ := hsqrt _ (dot_v3v3_self_nonneg a)
  by_cases h : dot_v3v3 a a > 0
  · have hlpos : 0 < sqrtf (dot_v3v3 a a) := by
      rcases hl0.lt_or_eq with h1 | h1
      · exact h1
      · rw [← h1] at hll
        simp at hll
        exact absurd hll.symm h.ne'
    have hn : normalize_v3 sqrtf a = (a.1 * (1 / sqrtf (dot_v3v3 a a)),
        a.2.1 * (1 / sqrtf (dot_v3v3 a a)), a.2.2 * (1 / sqrtf (dot_v3v3 a a))) := by
      simp [normalize_v3, h]
    have hne : sqrtf (dot_v3v3 a a) ≠ 0 := hlpos.ne'
    refine ⟨1 / sqrtf (dot_v3v3 a a), hn, Or.inl ?_, ?_, hl0⟩
    · rw [hn]
      have e : dot_v3v3 (a.1 * (1 / sqrtf (dot_v3v3 a a)), a.2.1 * (1 / sqrtf (dot_v3v3 a a)),
          a.2.2 * (1 / sqrtf (dot_v3v3 a a))) (a.1 * (1 / sqrtf (dot_v3v3 a a)),
          a.2.1 * (1 / sqrtf (dot_v3v3 a a)), a.2.2 * (1 / sqrtf (dot_v3v3 a a)))
          = dot_v3v3 a a / (sqrtf (dot_v3v3 a a) * sqrtf (dot_v3v3 a a)) := by
        simp only [dot_v3v3]
        field_simp
      rw [e, hll]
      exact div_self h.ne'
    · rw [hn, dot_v3v3_div]
      rw [div_eq_iff hne]
      exact hll.symm
  · have hz : dot_v3v3 a a = 0 := le_antisymm (not_lt.1 h) (dot_v3v3_self_nonneg a)
    have hn : normalize_v3 sqrtf a = (0, 0, 0) := by
      simp [normalize_v3, h]
    refine ⟨0, by rw [hn]; simp, Or.inr hn, ?_, hl0⟩
    rw [hn, hz, sqrtf_zero sqrtf hsqrt]
    simp [dot_v3v3]

theorem dot_cross_cross (a b : K × K × K) :
    dot_v3v3 a (cross_v3_v3v3 (cross_v3_v3v3 a b) a) = 0 := by
  simp only [dot_v3v3, cross_v3_v3v3]
  ring

theorem dot_v3v3_smul (a b : K × K × K) (s r : K) :
    dot_v3v3 (a.1 * s, a.2.1 * s, a.2.2 * s) (b.1 * r, b.2.1 * r, b.2.2 * r)
      = s * r * dot_v3v3 a b := by
  simp only [dot_v3v3]
  ring

theorem dot_v3v3_smul_right (a b : K × K × K) (r : K) :
    dot_v3v3 a (b.1 * r, b.2.1 * r, b.2.2 * r) = r * dot_v3v3 a b := by
  simp only [dot_v3v3]
  ring

theorem get?_eq_some_getD {α : Type} (l : List α) (i : Nat) (d : α) (h : i < l.length) :
    l.get? i = some (l.getD i d) := by
  rw [List.getD_eq_getElem l d h, List.get?_eq_get h]
  rfl

/-- C19: for every sequence of at least two points, with an exact square root,
`gpencil_stroke_2d_flat` returns; point `i` is mapped to
`(dot (p_i - p_0) locx, dot (p_i - p_0) locy)` where `locx` is the normalised vector
from point 0 to point 1, the two axes are orthogonal and each has squared length 1 or
is the zero vector; point 0 is mapped to `(0, 0)` and point 1 to `(|p_1 - p_0|, 0)`
with `|p_1 - p_0|` non-negative. -/
theorem stroke_2d_flat_local_frame [FloorRing K] (E : Externals K)
    (hsqrt : ∀ x, 0 ≤ x → 0 ≤ E.sqrtf x ∧ E.sqrtf x * E.sqrtf x = x)
    (pts : List (bGPDspoint K)) (h2 : 2 ≤ pts.length) :
    ∃ p0 p1 locx locy p2d dir,
      pts.get? 0 = some p0 ∧ pts.get? 1 = some p1 ∧
      gpencil_stroke_2d_flat E pts (pts.length : Int) = .ok (p2d, dir) ∧
      p2d = pts.map (fun pt =>
        (dot_v3v3 (sub_v3_v3v3 pt.co p0.co) locx, dot_v3v3 (sub_v3_v3v3 pt.co p0.co) locy)) ∧
      locx = normalize_v3 E.sqrtf (sub_v3_v3v3 p1.co p0.co) ∧
      dot_v3v3 locx locy = 0 ∧
      (dot_v3v3 locx locx = 1 ∨ locx = (0, 0, 0)) ∧
      (dot_v3v3 locy locy = 1 ∨ locy = (0, 0, 0)) ∧
      p2d.get? 0 = some (0, 0) ∧
      p2d.get? 1
        = some (E.sqrtf (dot_v3v3 (sub_v3_v3v3 p1.co p0.co) (sub_v3_v3v3 p1.co p0.co)), 0) ∧
      0 ≤ E.sqrtf (dot_v3v3 (sub_v3_v3v3 p1.co p0.co) (sub_v3_v3v3 p1.co p0.co)) := by
  obtain ⟨hk, e⟩ := stroke_2d_flat_eq E pts (mk_point 0 0 0) h2
  have g0 := get?_eq_some_getD pts 0 (mk_point 0 0 0) (by omega)
  have g1 := get?_eq_some_getD pts 1 (mk_point 0 0 0) (by omega)
  set p0 := pts.getD 0 (mk_point 0 0 0) with hp0
  set p1 := pts.getD 1 (mk_point 0 0 0) with hp1
  set p3 := pts.getD (int_of_float ((pts.length : K) * 0.75)).toNat (mk_point 0 0 0) with hp3
  set u := sub_v3_v3v3 p1.co p0.co with hu
  set v := sub_v3_v3v3 p3.co p0.co with hv
  obtain ⟨s, hx, hx1, hx2, hx3⟩ := normalize_v3_spec E.sqrtf hsqrt u
  obtain ⟨r, hy, hy1, _, _⟩ := normalize_v3_spec E.sqrtf hsqrt
    (cross_v3_v3v3 (cross_v3_v3v3 u v) u)
  have hxy : dot_v3v3 (normalize_v3 E.sqrtf u)
      (normalize_v3 E.sqrtf (cross_v3_v3v3 (cross_v3_v3v3 u v) u)) = 0 := by
    rw [hx, hy, dot_v3v3_smul, dot_cross_cross, mul_zero]
  have huy : dot_v3v3 u (normalize_v3 E.sqrtf (cross_v3_v3v3 (cross_v3_v3v3 u v) u)) = 0 := by
    rw [hy, dot_v3v3_smul_right, dot_cross_cross, mul_zero]
  have hz : sub_v3_v3v3 p0.co p0.co = (0, 0, 0) := by simp [sub_v3_v3v3]
  refine ⟨p0, p1, _, _, _, _, g0, g1, e, rfl, rfl, hxy, hx1, hy1, ?_, ?_, hx3⟩
  · rw [List.get?_eq_getElem?, List.getElem?_map, ← List.get?_eq_getElem?, g0]
    simp [hz, dot_v3v3]
  · rw [List.get?_eq_getElem?, List.getElem?_map, ← List.get?_eq_getElem?, g1]
    simp only [Option.map_some']
    rw [← hu, hx2, huy]
/-- C19 witness: three points over the reals with the real square root. -/
theorem stroke_2d_flat_local_frame_witness :
    (∀ x : ℝ, 0 ≤ x → 0 ≤ Real.sqrt x ∧ Real.sqrt x * Real.sqrt x = x) ∧
    2 ≤ [mk_point (0 : ℝ) 0 0, mk_point 3 4 0, mk_point 1 1 0].length ∧
    ∃ p0 p1 locx locy p2d dir,
      [mk_point (0 : ℝ) 0 0, mk_point 3 4 0, mk_point 1 1 0].get? 0 = some p0 ∧
      [mk_point (0 : ℝ) 0 0, mk_point 3 4 0, mk_point 1 1 0].get? 1 = some p1 ∧
      gpencil_stroke_2d_flat
        (⟨1 / 1000, 1 / 1000, Real.sqrt, fun _ _ _ i => (0, i + 1, i + 2), fun _ _ => (0, 0)⟩ :
          Externals ℝ)
        [mk_point (0 : ℝ) 0 0, mk_point 3 4 0, mk_point 1 1 0]
        (([mk_point (0 : ℝ) 0 0, mk_point 3 4 0, mk_point 1 1 0].length : Nat) : Int)
        = .ok (p2d, dir) ∧
      p2d = [mk_point (0 : ℝ) 0 0, mk_point 3 4 0, mk_point 1 1 0].map (fun pt =>
        (dot_v3v3 (sub_v3_v3v3 pt.co p0.co) locx, dot_v3v3 (sub_v3_v3v3 pt.co p0.co) locy)) ∧
      locx = normalize_v3 Real.sqrt (sub_v3_v3v3 p1.co p0.co) ∧
      dot_v3v3 locx locy = 0 ∧
      (dot_v3v3 locx locx = 1 ∨ locx = (0, 0, 0)) ∧
      (dot_v3v3 locy locy = 1 ∨ locy = (0, 0, 0)) ∧
      p2d.get? 0 = some (0, 0) ∧
      p2d.get? 1
        = some (Real.sqrt (dot_v3v3 (sub_v3_v3v3 p1.co p0.co) (sub_v3_v3v3 p1.co p0.co)), 0) ∧
      0 ≤ Real.sqrt (dot_v3v3 (sub_v3_v3v3 p1.co p0.co) (sub_v3_v3v3 p1.co p0.co)) :=
  ⟨fun x hx => ⟨Real.sqrt_nonneg x, Real.mul_self_sqrt hx⟩, by decide,
    stroke_2d_flat_local_frame
      (⟨1 / 1000, 1 / 1000, Real.sqrt, fun _ _ _ i => (0, i + 1, i + 2), fun _ _ => (0, 0)⟩ :
        Externals ℝ)
      (fun x hx => ⟨Real.sqrt_nonneg x, Real.mul_self_sqrt hx⟩)
      [mk_point (0 : ℝ) 0 0, mk_point 3 4 0, mk_point 1 1 0] (by decide)⟩

/-! ## Flattening: the direction hint -/

theorem int_of_float_sample_three [FloorRing K] : int_of_float (((3 : Nat) : K) * 0.75) = 2 := by
  unfold int_of_float
  rw [if_pos (by norm_num), Int.floor_eq_iff]
  constructor <;> norm_num

/-- C20 (amended): for every sequence of at least two points, the direction hint
returned by `gpencil_stroke_2d_flat` is the third component of the normalised local Y
axis `normalize (normal x locx)`, with `normal = locx x loc3`, converted to an
integer, where `locx` goes from point 0 to point 1 and `loc3` from point 0 to the
sample point at index `(int)(totpoints * 0.75)`. -/
theorem stroke_2d_flat_direction [FloorRing K] (E : Externals K) (pts : List (bGPDspoint K))
    (h2 : 2 ≤ pts.length) :
    ∃ p0 p1 p3 p2d,
      pts.get? 0 = some p0 ∧ pts.get? 1 = some p1 ∧
      pts.get? (int_of_float ((pts.length : K) * 0.75)).toNat = some p3 ∧
      gpencil_stroke_2d_flat E pts (pts.length : Int) = .ok (p2d,
        int_of_float (normalize_v3 E.sqrtf (cross_v3_v3v3
          (cross_v3_v3v3 (sub_v3_v3v3 p1.co p0.co) (sub_v3_v3v3 p3.co p0.co))
          (sub_v3_v3v3 p1.co p0.co))).2.2) := by
  obtain ⟨hk, e⟩ := stroke_2d_flat_eq E pts (mk_point 0 0 0) h2
  exact ⟨_, _, _, _, get?_eq_some_getD pts 0 _ (by omega), get?_eq_some_getD pts 1 _ (by omega),
    get?_eq_some_getD pts _ _ hk, e⟩

/-- C20 witness: three points over the rationals. -/
theorem stroke_2d_flat_direction_witness :
    2 ≤ [mk_point (0 : ℚ) 0 0, mk_point 1 0 0, mk_point 0 0 1].length ∧
    ∃ p0 p1 p3 p2d,
      [mk_point (0 : ℚ) 0 0, mk_point 1 0 0, mk_point 0 0 1].get? 0 = some p0 ∧
      [mk_point (0 : ℚ) 0 0, mk_point 1 0 0, mk_point 0 0 1].get? 1 = some p1 ∧
      [mk_point (0 : ℚ) 0 0, mk_point 1 0 0, mk_point 0 0 1].get?
        (int_of_float
          ((([mk_point (0 : ℚ) 0 0, mk_point 1 0 0, mk_point 0 0 1].length : Nat) : ℚ) * 0.75)).toNat
        = some p3 ∧
      gpencil_stroke_2d_flat E0 [mk_point (0 : ℚ) 0 0, mk_point 1 0 0, mk_point 0 0 1]
        (([mk_point (0 : ℚ) 0 0, mk_point 1 0 0, mk_point 0 0 1].length : Nat) : Int)
        = .ok (p2d,
          int_of_float (normalize_v3 E0.sqrtf (cross_v3_v3v3
            (cross_v3_v3v3 (sub_v3_v3v3 p1.co p0.co) (sub_v3_v3v3 p3.co p0.co))
            (sub_v3_v3v3 p1.co p0.co))).2.2) :=
  ⟨by decide,
    stroke_2d_flat_direction E0 [mk_point (0 : ℚ) 0 0, mk_point 1 0 0, mk_point 0 0 1]
      (by decide)⟩
/-- C20 counterexample: the strokes `(0,0,0), (1,0,0), (0,0,1)` and
`(0,0,0), (1,0,0), (0,0,-1)` have normals `(0,-1,0)` and `(0,1,0)`, both with third
component 0 (which converts to the integer 0), yet the direction hints returned are
1 and -1. -/
theorem direction_hint_not_from_normal :
    cross_v3_v3v3 (sub_v3_v3v3 (mk_point (1 : ℚ) 0 0).co (mk_point (0 : ℚ) 0 0).co)
      (sub_v3_v3v3 (mk_point (0 : ℚ) 0 1).co (mk_point (0 : ℚ) 0 0).co) = (0, -1, 0) ∧
    cross_v3_v3v3 (sub_v3_v3v3 (mk_point (1 : ℚ) 0 0).co (mk_point (0 : ℚ) 0 0).co)
      (sub_v3_v3v3 (mk_point (0 : ℚ) 0 (-1)).co (mk_point (0 : ℚ) 0 0).co) = (0, 1, 0) ∧
    int_of_float (0 : ℚ) = 0 ∧
    gpencil_stroke_2d_flat E0 [mk_point (0 : ℚ) 0 0, mk_point 1 0 0, mk_point 0 0 1] 3
      = .ok ([(0, 0), (1, 0), (0, 1)], 1) ∧
    gpencil_stroke_2d_flat E0 [mk_point (0 : ℚ) 0 0, mk_point 1 0 0, mk_point 0 0 (-1)] 3
      = .ok ([(0, 0), (1, 0), (0, 1)], -1) := by
  have h3 : int_of_float (9 / 4 : ℚ) = 2 := by
    unfold int_of_float
    rw [if_pos (by norm_num), Int.floor_eq_iff]
    constructor <;> norm_num
  have h3n : (int_of_float (9 / 4 : ℚ)).toNat = 2 := by rw [h3]; rfl
  have h1 : int_of_float (1 : ℚ) = 1 := by simp [int_of_float]
  have hm : int_of_float (-1 : ℚ) = -1 := by
    unfold int_of_float
    rw [if_neg (by norm_num), Int.ceil_eq_iff]
    constructor <;> norm_num
  refine ⟨by norm_num [cross_v3_v3v3, sub_v3_v3v3, bGPDspoint.co, mk_point],
    by norm_num [cross_v3_v3v3, sub_v3_v3v3, bGPDspoint.co, mk_point],
    by simp [int_of_float], ?_, ?_⟩
  · have e := (stroke_2d_flat_eq E0 [mk_point (0 : ℚ) 0 0, mk_point 1 0 0, mk_point 0 0 1]
      (mk_point 0 0 0) (by decide)).2
    simp only [List.length_cons, List.length_nil] at e
    norm_num [h3n, normalize_v3, cross_v3_v3v3, sub_v3_v3v3, dot_v3v3, bGPDspoint.co, mk_point,
      E0, h1] at e
    exact e
  · have e := (stroke_2d_flat_eq E0 [mk_point (0 : ℚ) 0 0, mk_point 1 0 0, mk_point 0 0 (-1)]
      (mk_point 0 0 0) (by decide)).2
    simp only [List.length_cons, List.length_nil] at e
    norm_num [h3n, normalize_v3, cross_v3_v3v3, sub_v3_v3v3, dot_v3v3, bGPDspoint.co, mk_point,
      E0, hm] at e
    exact e

/-! ## Edit overlay -/

theorem edit_geom_step (S : Services K) (gps : bGPDstroke K) (vsize bsize : K) (hint : Bool)
    (pts : List (bGPDspoint K)) (hpts : gps.points = some pts)
    (P : K × K × K × K → Prop) (val : Nat → (K × K × K × K) × K)
    (hpt : ∀ k, k < pts.length → ∀ sel, P sel → ∃ sel1,
      edit_geom_point S gps vsize bsize hint k (pts.getD k (mk_point 0 0 0)) sel
        = .ok (sel1, val k) ∧ P sel1)
    (k : Nat) (s : Gwn_VertBuf K × Nat × (K × K × K × K)) (hk : k < pts.length)
    (hs : s.2.1 = k ∧ P s.2.2) :
    ∃ s1, edit_geom_body S gps vsize bsize hint k s = .ok s1 ∧ (s1.2.1 = k + 1 ∧ P s1.2.2) ∧
      s1.1.vertex_len = s.1.vertex_len ∧
      (∀ a ∈ [Attr.color, Attr.size, Attr.pos],
        s1.1.written a = s.1.written a ++ List.range' (1 * k + 0) 1) ∧
      (∀ w, w ∈ s.1.writes → w ∈ s1.1.writes) ∧
      (∀ j, j < 1 → ∀ a ∈ [Attr.color, Attr.size, Attr.pos],
        (a, 1 * k + 0 + j,
          (match a with
            | .color => [(val k).1.1, (val k).1.2.1, (val k).1.2.2.1, (val k).1.2.2.2]
            | .size => [(val k).2]
            | .pos => [(pts.getD k (mk_point 0 0 0)).x, (pts.getD k (mk_point 0 0 0)).y,
                (pts.getD k (mk_point 0 0 0)).z]
            | _ => [])) ∈ s1.1.writes) := by
  obtain ⟨vbo, idx, sel⟩ := s
  obtain ⟨hs1, hs2⟩ := hs
  simp only at hs1 hs2
  subst hs1
  have hp := point_at_getD gps pts hpts idx (mk_point 0 0 0) hk
  obtain ⟨sel1, he, hP⟩ := hpt idx hk sel hs2
  simp only [edit_geom_body, hp, he, except_bind_ok, except_pure]
  refine ⟨_, rfl, ⟨rfl, hP⟩, rfl, ?_, ?_, ?_⟩
  · intro a ha
    simp only [List.mem_cons, List.mem_singleton, List.not_mem_nil, or_false] at ha
    rcases ha with h | h | h <;> subst h <;>
      simp [Gwn_VertBuf.written, GWN_vertbuf_attr_set, List.filter_append, List.filter_cons]
  · intro w hw
    simp [GWN_vertbuf_attr_set, hw]
  · intro j hj a ha
    have hj0 : j = 0 := by omega
    subst hj0
    simp only [List.mem_cons, List.mem_singleton, List.not_mem_nil, or_false] at ha
    rcases ha with h | h | h <;> subst h <;> simp [GWN_vertbuf_attr_set]

/-- What the edit points builder returns when every iteration takes a branch that
gives the point `k` the colour and size `val k`. -/
theorem edit_geom_spec [FloorRing K] (S : Services K) (gps : bGPDstroke K) (alpha : K)
    (dflag : Int) (pts : List (bGPDspoint K)) (hpts : gps.points = some pts)
    (hlen : gps.totpoints = (pts.length : Int))
    (P : K × K × K × K → Prop) (val : Nat → (K × K × K × K) × K)
    (hP : P (S.TH_GP_VERTEX_SELECT.1, S.TH_GP_VERTEX_SELECT.2.1, S.TH_GP_VERTEX_SELECT.2.2, alpha))
    (hpt : ∀ k, k < pts.length → ∀ sel, P sel → ∃ sel1,
      edit_geom_point S gps (edit_sizes S).1 (edit_sizes S).2 (show_direction_hint S gps dflag) k
        (pts.getD k (mk_point 0 0 0)) sel = .ok (sel1, val k) ∧ P sel1) :
    ∃ b, DRW_gpencil_get_edit_geom S gps alpha dflag = .ok b ∧
      b.prim_type = Gwn_PrimType.GWN_PRIM_POINTS ∧ b.verts.vertex_len = pts.length ∧
      ∀ i, i < pts.length →
        b.verts.attr_get .color i
          = some [(val i).1.1, (val i).1.2.1, (val i).1.2.2.1, (val i).1.2.2.2] ∧
        b.verts.attr_get .size i = some [(val i).2] ∧
        b.verts.attr_get .pos i = some [(pts.getD i (mk_point 0 0 0)).x,
          (pts.getD i (mk_point 0 0 0)).y, (pts.getD i (mk_point 0 0 0)).z] := by
  have htn : gps.totpoints.toNat = pts.length := by omega
  obtain ⟨s1, h1, _, h3, h4, _, h6⟩ := vertex_loop
    (fun s : Gwn_VertBuf K × Nat × (K × K × K × K) => s.1)
    (edit_geom_body S gps (edit_sizes S).1 (edit_sizes S).2 (show_direction_hint S gps dflag))
    [Attr.color, Attr.size, Attr.pos]
    (fun k _ a => match a with
      | .color => [(val k).1.1, (val k).1.2.1, (val k).1.2.2.1, (val k).1.2.2.2]
      | .size => [(val k).2]
      | .pos => [(pts.getD k (mk_point 0 0 0)).x, (pts.getD k (mk_point 0 0 0)).y,
          (pts.getD k (mk_point 0 0 0)).z]
      | _ => []) 1 0 0 pts.length
    (fun k s => s.2.1 = k ∧ P s.2.2)
    (fun k s _ hk hs => edit_geom_step S gps _ _ _ pts hpts P val hpt k s hk hs)
    pts.length 0 (GWN_vertbuf_data_alloc GWN_vertbuf_create_with_format gps.totpoints, 0,
      (S.TH_GP_VERTEX_SELECT.1, S.TH_GP_VERTEX_SELECT.2.1, S.TH_GP_VERTEX_SELECT.2.2, alpha))
    (le_refl _) (by omega) ⟨rfl, hP⟩
  have hw : ∀ a ∈ [Attr.color, Attr.size, Attr.pos],
      s1.1.written a = List.range pts.length := by
    intro a ha
    rw [h4 a ha]
    simp [Gwn_VertBuf.written, GWN_vertbuf_data_alloc, GWN_vertbuf_create_with_format,
      List.range_eq_range']
  refine ⟨GWN_batch_create_ex .GWN_PRIM_POINTS s1.1, ?_, rfl, ?_, ?_⟩
  · simp only [DRW_gpencil_get_edit_geom, htn, h1, except_bind_ok, except_pure]
  · show s1.1.vertex_len = pts.length
    rw [h3]
    simp [GWN_vertbuf_data_alloc, htn]
  · intro i hi
    have g := fun a ha => h6 i (by omega) (by omega) 0 (by omega) a ha
    simp only [one_mul, add_zero] at g
    exact ⟨attr_get_of_range _ _ _ _ _ (hw _ (by simp)) (g .color (by simp)),
      attr_get_of_range _ _ _ _ _ (hw _ (by simp)) (g .size (by simp)),
      attr_get_of_range _ _ _ _ _ (hw _ (by simp)) (g .pos (by simp))⟩

theorem edlin_geom_step (S : Services K) (gps : bGPDstroke K) (linecolor : K × K × K × K)
    (pts : List (bGPDspoint K)) (hpts : gps.points = some pts) (hw : is_weight_paint S = true)
    (k : Nat) (s : Gwn_VertBuf K × Nat × (K × K × K × K)) (hk : k < pts.length)
    (hs : s.2.1 = k) :
    ∃ s1, edlin_geom_body S gps linecolor k s = .ok s1 ∧ s1.2.1 = k + 1 ∧
      s1.1.vertex_len = s.1.vertex_len ∧
      (∀ a ∈ [Attr.color, Attr.pos],
        s1.1.written a = s.1.written a ++ List.range' (1 * k + 0) 1) ∧
      (∀ w, w ∈ s.1.writes → w ∈ s1.1.writes) ∧
      (∀ j, j < 1 → ∀ a ∈ [Attr.color, Attr.pos],
        (a, 1 * k + 0 + j,
          (match a with
            | .color =>
              [(weight_color S (S.BKE_gpencil_vgroup_use_index (pts.getD k (mk_point 0 0 0))
                  (edit_vgindex S))).1,
                (weight_color S (S.BKE_gpencil_vgroup_use_index (pts.getD k (mk_point 0 0 0))
                  (edit_vgindex S))).2.1,
                (weight_color S (S.BKE_gpencil_vgroup_use_index (pts.getD k (mk_point 0 0 0))
                  (edit_vgindex S))).2.2.1,
                (weight_color S (S.BKE_gpencil_vgroup_use_index (pts.getD k (mk_point 0 0 0))
                  (edit_vgindex S))).2.2.2]
            | .pos => [(pts.getD k (mk_point 0 0 0)).x, (pts.getD k (mk_point 0 0 0)).y,
                (pts.getD k (mk_point 0 0 0)).z]
            | _ => [])) ∈ s1.1.writes) := by
  obtain ⟨vbo, idx, sel⟩ := s
  simp only at hs
  subst hs
  have hp := point_at_getD gps pts hpts idx (mk_point 0 0 0) hk
  simp only [edlin_geom_body, hp, hw, if_true, except_bind_ok, except_pure]
  refine ⟨_, rfl, rfl, rfl, ?_, ?_, ?_⟩
  · intro a ha
    simp only [List.mem_cons, List.mem_singleton, List.not_mem_nil, or_false] at ha
    rcases ha with h | h <;> subst h <;>
      simp [Gwn_VertBuf.written, GWN_vertbuf_attr_set, List.filter_append, List.filter_cons]
  · intro w hw
    simp [GWN_vertbuf_attr_set, hw]
  · intro j hj a ha
    have hj0 : j = 0 := by omega
    subst hj0
    simp only [List.mem_cons, List.mem_singleton, List.not_mem_nil, or_false] at ha
    rcases ha with h | h <;> subst h <;> simp [GWN_vertbuf_attr_set]

/-- What the edit lines builder returns in weight-paint mode. -/
theorem edlin_geom_weight (S : Services K) (gps : bGPDstroke K) (alpha : K)
    (dflag : Int) (pts : List (bGPDspoint K)) (hpts : gps.points = some pts)
    (hlen : gps.totpoints = (pts.length : Int)) (hw : is_weight_paint S = true) :
    ∃ b, DRW_gpencil_get_edlin_geom S gps alpha dflag = .ok b ∧
      b.prim_type = Gwn_PrimType.GWN_PRIM_LINE_STRIP ∧ b.verts.vertex_len = pts.length ∧
      ∀ i, i < pts.length →
        b.verts.attr_get .color i
          = some [(weight_color S (S.BKE_gpencil_vgroup_use_index (pts.getD i (mk_point 0 0 0))
                  (edit_vgindex S))).1,
                (weight_color S (S.BKE_gpencil_vgroup_use_index (pts.getD i (mk_point 0 0 0))
                  (edit_vgindex S))).2.1,
                (weight_color S (S.BKE_gpencil_vgroup_use_index (pts.getD i (mk_point 0 0 0))
                  (edit_vgindex S))).2.2.1,
                (weight_color S (S.BKE_gpencil_vgroup_use_index (pts.getD i (mk_point 0 0 0))
                  (edit_vgindex S))).2.2.2] := by
  have htn : gps.totpoints.toNat = pts.length := by omega
  obtain ⟨gpd, hgpd⟩ : ∃ gpd, S.obact.data = some gpd := by
    unfold is_weight_paint at hw
    cases h : S.obact.data with
    | none => rw [h] at hw; simp at hw
    | some g => exact ⟨g, rfl⟩
  obtain ⟨s1, h1, _, h3, h4, _, h6⟩ := vertex_loop
    (fun s : Gwn_VertBuf K × Nat × (K × K × K × K) => s.1)
    (edlin_geom_body S gps gpd.line_color)
    [Attr.color, Attr.pos]
    (fun k _ a => match a with
      | .color =>
        [(weight_color S (S.BKE_gpencil_vgroup_use_index (pts.getD k (mk_point 0 0 0))
            (edit_vgindex S))).1,
          (weight_color S (S.BKE_gpencil_vgroup_use_index (pts.getD k (mk_point 0 0 0))
            (edit_vgindex S))).2.1,
          (weight_color S (S.BKE_gpencil_vgroup_use_index (pts.getD k (mk_point 0 0 0))
            (edit_vgindex S))).2.2.1,
          (weight_color S (S.BKE_gpencil_vgroup_use_index (pts.getD k (mk_point 0 0 0))
            (edit_vgindex S))).2.2.2]
      | .pos => [(pts.getD k (mk_point 0 0 0)).x, (pts.getD k (mk_point 0 0 0)).y,
          (pts.getD k (mk_point 0 0 0)).z]
      | _ => []) 1 0 0 pts.length
    (fun k s => s.2.1 = k)
    (fun k s _ hk hs => edlin_geom_step S gps _ pts hpts hw k s hk hs)
    pts.length 0 (GWN_vertbuf_data_alloc GWN_vertbuf_create_with_format gps.totpoints, 0,
      (S.TH_GP_VERTEX_SELECT.1, S.TH_GP_VERTEX_SELECT.2.1, S.TH_GP_VERTEX_SELECT.2.2, alpha))
    (le_refl _) (by omega) rfl
  have hwr : ∀ a ∈ [Attr.color, Attr.pos], s1.1.written a = List.range pts.length := by
    intro a ha
    rw [h4 a ha]
    simp [Gwn_VertBuf.written, GWN_vertbuf_data_alloc, GWN_vertbuf_create_with_format,
      List.range_eq_range']
  refine ⟨GWN_batch_create_ex .GWN_PRIM_LINE_STRIP s1.1, ?_, rfl, ?_, ?_⟩
  · simp only [DRW_gpencil_get_edlin_geom, hgpd, deref, htn, h1, except_bind_ok, except_pure]
  · show s1.1.vertex_len = pts.length
    rw [h3]
    simp [GWN_vertbuf_data_alloc, htn]
  · intro i hi
    have g := h6 i (by omega) (by omega) 0 (by omega) .color (by simp)
    simp only [one_mul, add_zero] at g
    exact attr_get_of_range _ _ _ _ _ (hwr _ (by simp)) g

theorem edit_geom_point_weight (S : Services K) (gps : bGPDstroke K) (vsize bsize : K)
    (hint : Bool) (i : Nat) (pt : bGPDspoint K) (sel : K × K × K × K)
    (hw : is_weight_paint S = true) :
    edit_geom_point S gps vsize bsize hint i pt sel
      = .ok (weight_color S (S.BKE_gpencil_vgroup_use_index pt (edit_vgindex S)),
          weight_color S (S.BKE_gpencil_vgroup_use_index pt (edit_vgindex S)), vsize) := by
  simp [edit_geom_point, hw]

theorem hue_bounds (w : K) :
    0 ≤ 2 * (1 - CLAMP w 0 1) / 3 ∧ 2 * (1 - CLAMP w 0 1) / 3 ≤ 2 / 3 := by
  obtain ⟨h0, h1⟩ := CLAMP_bounds w 0 1 zero_le_one
  constructor
  · apply div_nonneg _ (by norm_num)
    linarith
  · apply div_le_div_of_nonneg_right _ (by norm_num)
    linarith

/-- C13: in weight-paint mode (the datablock of the active object is present and has
the weight-mode flag set), on a stroke whose point array has `totpoints` elements,
both edit-overlay builders return, and for every point `pt` of index `i` the colour
written at vertex `i` is `hsv_to_rgb(hue, 1, 1)` with alpha 1, where
`hue = 2 (1 - clamp(weight, 0, 1)) / 3` and `weight` is the looked-up weight of the
point, whatever the selection flag of the point, `dflag`, the index and `alpha`;
the hue lies in `[0, 2/3]` and is `2/3` for weight 0. -/
theorem weight_paint_colour [FloorRing K] (S : Services K) (gps : bGPDstroke K) (alpha : K)
    (dflag : Int) (pts : List (bGPDspoint K)) (gpd : bGPdata K)
    (hpts : gps.points = some pts) (hlen : gps.totpoints = (pts.length : Int))
    (hgpd : S.obact.data = some gpd)
    (hflag : Int.land gpd.flag S.GP_DATA_STROKE_WEIGHTMODE ≠ 0) :
    ∃ b1 b2, DRW_gpencil_get_edit_geom S gps alpha dflag = .ok b1 ∧
      DRW_gpencil_get_edlin_geom S gps alpha dflag = .ok b2 ∧
      ∀ i pt, pts.get? i = some pt →
        b1.verts.attr_get .color i = some
          [(S.hsv_to_rgb (2 * (1 - CLAMP (S.BKE_gpencil_vgroup_use_index pt (edit_vgindex S)) 0 1)
              / 3) 1 1).1,
            (S.hsv_to_rgb (2 * (1 - CLAMP (S.BKE_gpencil_vgroup_use_index pt (edit_vgindex S)) 0 1)
              / 3) 1 1).2.1,
            (S.hsv_to_rgb (2 * (1 - CLAMP (S.BKE_gpencil_vgroup_use_index pt (edit_vgindex S)) 0 1)
              / 3) 1 1).2.2, 1] ∧
        b2.verts.attr_get .color i = b1.verts.attr_get .color i ∧
        0 ≤ 2 * (1 - CLAMP (S.BKE_gpencil_vgroup_use_index pt (edit_vgindex S)) 0 1) / 3 ∧
        2 * (1 - CLAMP (S.BKE_gpencil_vgroup_use_index pt (edit_vgindex S)) 0 1) / 3 ≤ 2 / 3 ∧
        (S.BKE_gpencil_vgroup_use_index pt (edit_vgindex S) = 0 →
          2 * (1 - CLAMP (S.BKE_gpencil_vgroup_use_index pt (edit_vgindex S)) 0 1) / 3 = 2 / 3) := by
  have hw : is_weight_paint S = true := by
    simp [is_weight_paint, hgpd, hflag]
  obtain ⟨b1, e1, _, _, c1⟩ := edit_geom_spec S gps alpha dflag pts hpts hlen (fun _ => True)
    (fun k => (weight_color S (S.BKE_gpencil_vgroup_use_index (pts.getD k (mk_point 0 0 0))
      (edit_vgindex S)), (edit_sizes S).1)) trivial
    (fun k _ sel _ => ⟨_, edit_geom_point_weight S gps _ _ _ k _ sel hw, trivial⟩)
  obtain ⟨b2, e2, _, _, c2⟩ := edlin_geom_weight S gps alpha dflag pts hpts hlen hw
  refine ⟨b1, b2, e1, e2, ?_⟩
  intro i pt hp
  have hi : i < pts.length := by
    by_contra hc
    rw [List.get?_eq_none.2 (by omega)] at hp
    exact absurd hp (by simp)
  have hpd : pts.getD i (mk_point 0 0 0) = pt := by
    rw [List.get?_eq_getElem?] at hp
    simp [List.getD_eq_getElem?_getD, hp]
  have g1 := (c1 i hi).1
  have g2 := c2 i hi
  rw [hpd] at g1 g2
  refine ⟨g1, by rw [g2, g1], (hue_bounds _).1, (hue_bounds _).2, ?_⟩
  intro h0
  rw [h0]
  norm_num [CLAMP]

/-- C13 witness: the unit square stroke with the sample services in weight-paint mode,
where every weight is 0. -/
theorem weight_paint_colour_witness :
    ∃ b1 b2, DRW_gpencil_get_edit_geom S0_weight square_stroke (1 / 2) 2 = .ok b1 ∧
      DRW_gpencil_get_edlin_geom S0_weight square_stroke (1 / 2) 2 = .ok b2 ∧
      b1.verts.attr_get .color 0 = some [2 / 3, 1, 1, 1] ∧
      b2.verts.attr_get .color 0 = some [2 / 3, 1, 1, 1] := by
  obtain ⟨b1, b2, e1, e2, h⟩ := weight_paint_colour S0_weight square_stroke (1 / 2) 2
    [mk_point 0 0 0, mk_point 1 0 0, mk_point 1 1 0, mk_point 0 1 0]
    { buffer_data with flag := 4 } rfl rfl rfl (by decide)
  obtain ⟨g1, g2, _, _, g5⟩ := h 0 (mk_point 0 0 0) rfl
  have hz : S0_weight.BKE_gpencil_vgroup_use_index (mk_point 0 0 0) (edit_vgindex S0_weight) = 0 :=
    rfl
  have g6 := g5 hz
  rw [g6] at g1
  refine ⟨b1, b2, e1, e2, ?_, ?_⟩
  · rw [g1]
    rfl
  · rw [g2, g1]
    rfl

/-! ## Edit overlay: point sizes -/

theorem buffer_fill_points2d_loop {K : Type} (pts : List (tGPspoint K)) (m : Nat) :
    ∀ (i : Nat) (acc : List (K × K)), i + m ≤ pts.length →
      for_loop (buffer_fill_points2d_body pts) i m acc
        = .ok (acc ++ ((pts.drop i).take m).map (fun pt => (pt.x, pt.y))) := by
  induction m with
  | zero => intro i acc _; simp [for_loop]
  | succ m ih =>
    intro i acc hle
    have hi : i < pts.length := by omega
    rw [for_loop_succ _ _ _ _ _ (by simp [buffer_fill_points2d_body, read_nat pts i hi]; rfl),
      ih (i + 1) _ (by omega), List.drop_eq_getElem_cons hi]
    simp only [List.take_succ_cons, List.map_cons, List.append_assoc, List.singleton_append,
      List.get_eq_getElem]

theorem buffer_fill_step (S : Services K) (gpd : bGPdata K) (pts : List (tGPspoint K))
    (poly : Nat → Nat × Nat × Nat) (n : Nat)
    (hin : ∀ i, i < n → ∀ j, j < 3 → at3 (poly i) j < pts.length)
    (k : Nat) (s : Gwn_VertBuf K × Nat) (hk : k < n) (hs : s.2 = 3 * k) :
    ∃ s1, buffer_fill_body S gpd pts ((List.range n).map poly) k s = .ok s1 ∧
      s1.2 = 3 * (k + 1) ∧ s1.1.vertex_len = s.1.vertex_len ∧
      (∀ a ∈ [Attr.pos, Attr.color],
        s1.1.written a = s.1.written a ++ List.range' (3 * k + 0) 3) ∧
      (∀ w, w ∈ s.1.writes → w ∈ s1.1.writes) ∧
      (∀ j, j < 3 → ∀ a ∈ [Attr.pos, Attr.color],
        (a, 3 * k + 0 + j,
          (match a with
            | .pos =>
              [(S.ED_gpencil_tpoint_to_point S.origin (pts.getD (at3 (poly k) j) ⟨0, 0, 0, 0⟩)).x,
                (S.ED_gpencil_tpoint_to_point S.origin (pts.getD (at3 (poly k) j) ⟨0, 0, 0, 0⟩)).y,
                (S.ED_gpencil_tpoint_to_point S.origin (pts.getD (at3 (poly k) j) ⟨0, 0, 0, 0⟩)).z]
            | .color => [gpd.sfill.1, gpd.sfill.2.1, gpd.sfill.2.2.1, gpd.sfill.2.2.2]
            | _ => [])) ∈ s1.1.writes) := by
  obtain ⟨vbo, idx⟩ := s
  simp only at hs
  subst hs
  have hr : read ((List.range n).map poly) (k : Int) = .ok (poly k) := by
    rw [read_getD _ k (poly k) (by simpa using hk)]
    simp [List.getD_eq_getElem?_getD, List.getElem?_map, List.getElem?_range hk]
  have hp : ∀ j, j < 3 → read pts ((at3 (poly k) j : Nat) : Int)
      = .ok (pts.getD (at3 (poly k) j) ⟨0, 0, 0, 0⟩) :=
    fun j hj => read_getD pts _ _ (hin k hk j hj)
  simp only [buffer_fill_body, hr, except_bind_ok, for_loop, buffer_fill_corner,
    hp 0 (by omega), hp 1 (by omega), hp 2 (by omega), except_pure]
  refine ⟨_, rfl, by ring, rfl, ?_, ?_, ?_⟩
  · intro a ha
    simp only [List.mem_cons, List.mem_singleton, List.not_mem_nil, or_false] at ha
    rcases ha with h | h <;> subst h <;>
      simp [Gwn_VertBuf.written, GWN_vertbuf_attr_set, List.filter_append, List.filter_cons,
        List.range'_succ]
  · intro w hw
    simp [GWN_vertbuf_attr_set, hw]
  · intro j hj a ha
    have hj3 : j = 0 ∨ j = 1 ∨ j = 2 := by omega
    simp only [List.mem_cons, List.mem_singleton, List.not_mem_nil, or_false] at ha
    rcases ha with h | h <;> subst h <;> rcases hj3 with h | h | h <;> subst h <;>
      simp [GWN_vertbuf_attr_set]

/-- What the in-progress fill builder returns on a buffer of at least three points. -/
theorem buffer_fill_geom_run (E : Externals K) (S : Services K) (hpoly : valid_polyfill E)
    (gpd : bGPdata K) (pts : List (tGPspoint K)) (hbuf : gpd.sbuffer = some pts)
    (hlen : gpd.sbuffer_size = (pts.length : Int)) (h3 : 3 ≤ pts.length) :
    ∃ b, DRW_gpencil_get_buffer_fill_geom E S (some gpd) = .ok (some b) ∧
      b.prim_type = Gwn_PrimType.GWN_PRIM_TRIS ∧
      b.verts.vertex_len = 3 * (pts.length - 2) ∧
      (∀ a ∈ [Attr.pos, Attr.color], b.verts.written a = List.range (3 * (pts.length - 2))) ∧
      ∀ i, i < pts.length - 2 → ∀ j, j < 3 →
        at3 (E.BLI_polyfill_calc (pts.map (fun pt => (pt.x, pt.y))) (pts.length : Int) 0 i) j
          < pts.length ∧
        b.verts.attr_get .color (3 * i + j)
          = some [gpd.sfill.1, gpd.sfill.2.1, gpd.sfill.2.2.1, gpd.sfill.2.2.2] ∧
        b.verts.attr_get .pos (3 * i + j) = some
          [(S.ED_gpencil_tpoint_to_point S.origin (pts.getD (at3 (E.BLI_polyfill_calc
              (pts.map (fun pt => (pt.x, pt.y))) (pts.length : Int) 0 i) j) ⟨0, 0, 0, 0⟩)).x,
            (S.ED_gpencil_tpoint_to_point S.origin (pts.getD (at3 (E.BLI_polyfill_calc
              (pts.map (fun pt => (pt.x, pt.y))) (pts.length : Int) 0 i) j) ⟨0, 0, 0, 0⟩)).y,
            (S.ED_gpencil_tpoint_to_point S.origin (pts.getD (at3 (E.BLI_polyfill_calc
              (pts.map (fun pt => (pt.x, pt.y))) (pts.length : Int) 0 i) j) ⟨0, 0, 0, 0⟩)).z] := by
  have hin : ∀ i, i < pts.length - 2 → ∀ j, j < 3 →
      at3 (E.BLI_polyfill_calc (pts.map (fun pt => (pt.x, pt.y))) (pts.length : Int) 0 i) j
        < pts.length := by
    intro i hi j hj
    obtain ⟨q1, q2, q3⟩ := hpoly (pts.map (fun pt => (pt.x, pt.y))) (pts.length : Int) 0 i
      (by simp) (by omega)
    exact at3_lt _ _ (by omega) (by omega) (by omega) j
  have ht1 : ((pts.length : Int) - 2).toNat = pts.length - 2 := by omega
  obtain ⟨s1, h1, _, l3, l4, _, l6⟩ := vertex_loop (fun s : Gwn_VertBuf K × Nat => s.1)
    (buffer_fill_body S gpd pts ((List.range (pts.length - 2)).map
      (E.BLI_polyfill_calc (pts.map (fun pt => (pt.x, pt.y))) (pts.length : Int) 0)))
    [Attr.pos, Attr.color]
    (fun k j a => match a with
      | .pos =>
        [(S.ED_gpencil_tpoint_to_point S.origin (pts.getD (at3 (E.BLI_polyfill_calc
            (pts.map (fun pt => (pt.x, pt.y))) (pts.length : Int) 0 k) j) ⟨0, 0, 0, 0⟩)).x,
          (S.ED_gpencil_tpoint_to_point S.origin (pts.getD (at3 (E.BLI_polyfill_calc
            (pts.map (fun pt => (pt.x, pt.y))) (pts.length : Int) 0 k) j) ⟨0, 0, 0, 0⟩)).y,
          (S.ED_gpencil_tpoint_to_point S.origin (pts.getD (at3 (E.BLI_polyfill_calc
            (pts.map (fun pt => (pt.x, pt.y))) (pts.length : Int) 0 k) j) ⟨0, 0, 0, 0⟩)).z]
      | .color => [gpd.sfill.1, gpd.sfill.2.1, gpd.sfill.2.2.1, gpd.sfill.2.2.2]
      | _ => []) 3 0 0 (pts.length - 2)
    (fun k s => s.2 = 3 * k)
    (fun k s _ hk hs => buffer_fill_step S gpd pts _ (pts.length - 2) hin k s hk hs)
    (pts.length - 2) 0
    (GWN_vertbuf_data_alloc GWN_vertbuf_create_with_format (((pts.length : Int) - 2) * 3), 0)
    (le_refl _) (by omega) rfl
  have hw : ∀ a ∈ [Attr.pos, Attr.color],
      s1.1.written a = List.range (3 * (pts.length - 2)) := by
    intro a ha
    rw [l4 a ha]
    simp [Gwn_VertBuf.written, GWN_vertbuf_data_alloc, GWN_vertbuf_create_with_format,
      List.range_eq_range']
  refine ⟨GWN_batch_create_ex .GWN_PRIM_TRIS s1.1, ?_, rfl, ?_, hw, ?_⟩
  · simp only [DRW_gpencil_get_buffer_fill_geom, hlen, hbuf, deref, except_bind_ok, except_pure,
      Int.toNat_ofNat]
    rw [if_neg (by omega), buffer_fill_points2d_loop pts pts.length 0 [] (by omega)]
    simp only [List.drop_zero, List.take_length, List.nil_append, except_bind_ok, ht1]
    rw [if_pos (by omega), h1]
    rfl
  · show s1.1.vertex_len = 3 * (pts.length - 2)
    rw [l3]
    simp only [GWN_vertbuf_data_alloc]
    omega
  · intro i hi j hj
    have g := fun a ha => l6 i (by omega) (by omega) j hj a ha
    simp only [add_zero] at g
    exact ⟨hin i hi j hj, attr_get_of_range _ _ _ _ _ (hw _ (by simp)) (g .color (by simp)),
      attr_get_of_range _ _ _ _ _ (hw _ (by simp)) (g .pos (by simp))⟩

/-- C14: `DRW_gpencil_get_buffer_fill_geom` returns the null batch exactly when its data
pointer is null or the transient buffer holds fewer than 3 points; and, the
triangulator keeping its contract, for a buffer of `N >= 3` points it returns a
triangle-list batch of `3 (N - 2)` vertices in which every vertex carries the fill
colour `sfill` and the vertex `3 i + j` is the reprojected buffer point of index
`tri[i][j]`, `tri` being the triangulation of the buffer's `(x, y)` pairs with the
hint 0. -/
theorem buffer_fill_geom_contents (E : Externals K) (S : Services K)
    (hpoly : valid_polyfill E) :
    (∀ gpd : Option (bGPdata K), DRW_gpencil_get_buffer_fill_geom E S gpd = .ok none ↔
      (gpd = none ∨ ∃ g, gpd = some g ∧ g.sbuffer_size < 3)) ∧
    (∀ (gpd : bGPdata K) (pts : List (tGPspoint K)), gpd.sbuffer = some pts →
      gpd.sbuffer_size = (pts.length : Int) → 3 ≤ pts.length →
      ∃ b, DRW_gpencil_get_buffer_fill_geom E S (some gpd) = .ok (some b) ∧
        b.prim_type = Gwn_PrimType.GWN_PRIM_TRIS ∧
        b.verts.vertex_len = 3 * (pts.length - 2) ∧
        (∀ v, v < 3 * (pts.length - 2) → b.verts.attr_get .color v
          = some [gpd.sfill.1, gpd.sfill.2.1, gpd.sfill.2.2.1, gpd.sfill.2.2.2]) ∧
        ∀ i, i < pts.length - 2 → ∀ j, j < 3 →
          ∃ tpt, pts.get? (at3 (E.BLI_polyfill_calc (pts.map (fun pt => (pt.x, pt.y)))
              (pts.length : Int) 0 i) j) = some tpt ∧
            b.verts.attr_get .pos (3 * i + j) = some
              [(S.ED_gpencil_tpoint_to_point S.origin tpt).x,
                (S.ED_gpencil_tpoint_to_point S.origin tpt).y,
                (S.ED_gpencil_tpoint_to_point S.origin tpt).z]) := by
  constructor
  · intro gpd
    cases gpd with
    | none => simp [DRW_gpencil_get_buffer_fill_geom]
    | some g =>
      by_cases hlt : g.sbuffer_size < 3
      · simp [DRW_gpencil_get_buffer_fill_geom, hlt]
      · simp only [DRW_gpencil_get_buffer_fill_geom, hlt, if_false, reduceCtorEq, false_or,
          Option.some.injEq, exists_eq_left', iff_false]
        intro h
        cases hb : deref g.sbuffer with
        | error e => rw [hb] at h; simp at h
        | ok points =>
          rw [hb] at h
          simp only [except_bind_ok] at h
          cases hl : for_loop (buffer_fill_points2d_body points) 0 g.sbuffer_size.toNat [] with
          | error e => rw [hl] at h; simp at h
          | ok p2d =>
            rw [hl] at h
            simp only [except_bind_ok] at h
            split_ifs at h with hpos
            · cases hv : for_loop (buffer_fill_body S g points
                  ((List.range (g.sbuffer_size - 2).toNat).map
                    (E.BLI_polyfill_calc p2d g.sbuffer_size 0))) 0 (g.sbuffer_size - 2).toNat
                  (GWN_vertbuf_data_alloc GWN_vertbuf_create_with_format
                    ((g.sbuffer_size - 2) * 3), 0) with
              | error e => rw [hv] at h; simp at h
              | ok st => rw [hv] at h; simp at h
            · simp at h
  · intro gpd pts hbuf hlen h3
    obtain ⟨b, e, hp, hv, _, hc⟩ := buffer_fill_geom_run E S hpoly gpd pts hbuf hlen h3
    refine ⟨b, e, hp, hv, ?_, ?_⟩
    · intro v hv3
      have := (hc (v / 3) (by omega) (v % 3) (Nat.mod_lt _ (by norm_num))).2.1
      rwa [Nat.div_add_mod] at this
    · intro i hi j hj
      obtain ⟨c1, _, c3⟩ := hc i hi j hj
      exact ⟨_, get?_eq_some_getD pts _ _ c1, c3⟩

/-- C14 witness: the sample buffer of three points gives one triangle in the fill
colour; the null pointer gives the null batch. -/
theorem buffer_fill_geom_contents_witness :
    valid_polyfill E0 ∧
    DRW_gpencil_get_buffer_fill_geom E0 S0 none = .ok none ∧
    ∃ b, DRW_gpencil_get_buffer_fill_geom E0 S0 (some buffer_data) = .ok (some b) ∧
      b.prim_type = Gwn_PrimType.GWN_PRIM_TRIS ∧ b.verts.vertex_len = 3 ∧
      ∀ v, v < 3 → b.verts.attr_get .color v = some [1, 0, 0, 1] := by
  have h := buffer_fill_geom_contents E0 S0 valid_polyfill_E0
  obtain ⟨b, e, hp, hv, hc, _⟩ := h.2 buffer_data
    [⟨0, 0, 1, 1⟩, ⟨1, 0, 1, 1⟩, ⟨0, 1, 1, 1⟩] rfl rfl (by decide)
  exact ⟨valid_polyfill_E0, (h.1 none).2 (Or.inl rfl), b, e, hp, hv, hc⟩

/-! ## Flattening: range of the direction hint -/

theorem int_of_float_unit [FloorRing K] (z : K) (h0 : -1 ≤ z) (h1 : z ≤ 1) :
    int_of_float z = -1 ∨ int_of_float z = 0 ∨ int_of_float z = 1 := by
  unfold int_of_float
  split_ifs with h
  · have a : 0 ≤ Int.floor z := Int.floor_nonneg.2 h
    have b : Int.floor z ≤ 1 := by
      have : ((Int.floor z : Int) : K) ≤ 1 := le_trans (Int.floor_le z) h1
      exact_mod_cast this
    omega
  · have a : Int.ceil z ≤ 0 := Int.ceil_le.2 (by push_cast; exact le_of_lt (not_le.1 h))
    have b : -1 ≤ Int.ceil z := by
      have : ((-1 : Int) : K) ≤ ((Int.ceil z : Int) : K) := by
        push_cast
        exact le_trans h0 (Int.le_ceil z)
      exact_mod_cast this
    omega

theorem normalize_v3_third (sqrtf : K → K)
    (hsqrt : ∀ x, 0 ≤ x → 0 ≤ sqrtf x ∧ sqrtf x * sqrtf x = x) (a : K × K × K) :
    -1 ≤ (normalize_v3 sqrtf a).2.2 ∧ (normalize_v3 sqrtf a).2.2 ≤ 1 := by
  obtain ⟨_, _, h, _, _⟩ := normalize_v3_spec sqrtf hsqrt a
  rcases h with h | h
  · simp only [dot_v3v3] at h
    have h1 := mul_self_nonneg (normalize_v3 sqrtf a).1
    have h2 := mul_self_nonneg (normalize_v3 sqrtf a).2.1
    constructor <;> nlinarith
  · rw [h]
    norm_num

/-- The direction hint of the flattening is -1, 0 or 1. -/
theorem flat_direction_in_range [FloorRing K] (E : Externals K)
    (hsqrt : ∀ x, 0 ≤ x → 0 ≤ E.sqrtf x ∧ E.sqrtf x * E.sqrtf x = x)
    (pts : List (bGPDspoint K)) (h2 : 2 ≤ pts.length) :
    ∃ p2d dir, gpencil_stroke_2d_flat E pts (pts.length : Int) = .ok (p2d, dir) ∧
      (dir = -1 ∨ dir = 0 ∨ dir = 1) := by
  obtain ⟨_, e⟩ := stroke_2d_flat_eq E pts (mk_point 0 0 0) h2
  obtain ⟨b1, b2⟩ := normalize_v3_third E.sqrtf hsqrt (cross_v3_v3v3
    (cross_v3_v3v3 (sub_v3_v3v3 (pts.getD 1 (mk_point 0 0 0)).co (pts.getD 0 (mk_point 0 0 0)).co)
      (sub_v3_v3v3 (pts.getD (int_of_float ((pts.length : K) * 0.75)).toNat (mk_point 0 0 0)).co
        (pts.getD 0 (mk_point 0 0 0)).co))
    (sub_v3_v3v3 (pts.getD 1 (mk_point 0 0 0)).co (pts.getD 0 (mk_point 0 0 0)).co))
  exact ⟨_, _, e, int_of_float_unit _ b1 b2⟩

/-- C21: with an exact square root, for every sequence of at least two points the
direction hint returned by `gpencil_stroke_2d_flat` is -1, 0 or 1; and, the
triangulator keeping its contract, retriangulation of a stroke of at least three
points passes that hint (one of -1, 0, 1) to the triangulator, whose triples fill the
cache. -/
theorem direction_hint_range [FloorRing K] (E : Externals K)
    (hsqrt : ∀ x, 0 ≤ x → 0 ≤ E.sqrtf x ∧ E.sqrtf x * E.sqrtf x = x) :
    (∀ pts : List (bGPDspoint K), 2 ≤ pts.length →
      ∃ p2d dir, gpencil_stroke_2d_flat E pts (pts.length : Int) = .ok (p2d, dir) ∧
        (dir = -1 ∨ dir = 0 ∨ dir = 1)) ∧
    (∀ (gps : bGPDstroke K) (pts : List (bGPDspoint K)), gps.points = some pts →
      gps.totpoints = (pts.length : Int) → 3 ≤ pts.length → valid_polyfill E →
      ∃ p2d dir s tris, gpencil_stroke_2d_flat E pts gps.totpoints = .ok (p2d, dir) ∧
        (dir = -1 ∨ dir = 0 ∨ dir = 1) ∧
        gp_triangulate_stroke_fill E gps = .ok s ∧ s.triangles = some tris ∧
        ∀ i, i < pts.length - 2 →
          ∃ t, tris.get? i = some t ∧ t.verts = E.BLI_polyfill_calc p2d gps.totpoints dir i) := by
  refine ⟨fun pts h2 => flat_direction_in_range E hsqrt pts h2, ?_⟩
  intro gps pts hpts hlen h3 hpoly
  obtain ⟨p2d, dir, mm, hflat, _, _, hs⟩ := triangulate_stroke_fill_eq E gps pts hpts hlen h3 hpoly
  obtain ⟨p2d1, dir1, hflat1, hd⟩ := flat_direction_in_range E hsqrt pts (by omega)
  rw [← hlen, hflat] at hflat1
  simp only [Except.ok.injEq, Prod.mk.injEq] at hflat1
  rw [← hflat1.2] at hd
  refine ⟨p2d, dir, _, _, hflat, hd, hs, rfl, ?_⟩
  intro i hi
  exact ⟨cached_triangle (gpencil_calc_stroke_fill_uv p2d mm.1 mm.2)
    (E.BLI_polyfill_calc p2d gps.totpoints dir i), by simp [hi], rfl⟩

/-- C21 witness: three points over the reals with the real square root. -/
theorem direction_hint_range_witness :
    (∀ x : ℝ, 0 ≤ x → 0 ≤ Real.sqrt x ∧ Real.sqrt x * Real.sqrt x = x) ∧
    ∃ p2d dir, gpencil_stroke_2d_flat
        (⟨1 / 1000, 1 / 1000, Real.sqrt, fun _ _ _ i => (0, i + 1, i + 2), fun _ _ => (0, 0)⟩ :
          Externals ℝ)
        [mk_point (0 : ℝ) 0 0, mk_point 3 4 0, mk_point 1 1 5]
        (([mk_point (0 : ℝ) 0 0, mk_point 3 4 0, mk_point 1 1 5].length : Nat) : Int)
        = .ok (p2d, dir) ∧ (dir = -1 ∨ dir = 0 ∨ dir = 1) :=
  ⟨fun x hx => ⟨Real.sqrt_nonneg x, Real.mul_self_sqrt hx⟩,
    (direction_hint_range
      (⟨1 / 1000, 1 / 1000, Real.sqrt, fun _ _ _ i => (0, i + 1, i + 2), fun _ _ => (0, 0)⟩ :
        Externals ℝ)
      (fun x hx => ⟨Real.sqrt_nonneg x, Real.mul_self_sqrt hx⟩)).1
      [mk_point (0 : ℝ) 0 0, mk_point 3 4 0, mk_point 1 1 5] (by decide)⟩
/-! ## The outline builder and the view matrix -/

/-- C24: `gpencil_set_stroke_point` leaves the same buffer whatever its matrix argument
is, and `DRW_gpencil_get_stroke_geom` gives the same result for any two frames, that
is for any two view matrices. -/
theorem set_stroke_point_matrix_free (E : Externals K) :
    (∀ (vbo : Gwn_VertBuf K) (m1 m2 : Nat → Nat → K) (pt : bGPDspoint K) (idx : Nat)
        (thickness : Int) (ink : K × K × K × K),
      gpencil_set_stroke_point E vbo m1 pt idx thickness ink
        = gpencil_set_stroke_point E vbo m2 pt idx thickness ink) ∧
    (∀ (gpf1 gpf2 : bGPDframe K) (gps : bGPDstroke K) (thickness : Int) (ink : K × K × K × K),
      DRW_gpencil_get_stroke_geom E gpf1 gps thickness ink
        = DRW_gpencil_get_stroke_geom E gpf2 gps thickness ink) := by
  have h1 : ∀ (vbo : Gwn_VertBuf K) (m1 m2 : Nat → Nat → K) (pt : bGPDspoint K) (idx : Nat)
      (thickness : Int) (ink : K × K × K × K),
      gpencil_set_stroke_point E vbo m1 pt idx thickness ink
        = gpencil_set_stroke_point E vbo m2 pt idx thickness ink := fun _ _ _ _ _ _ _ => rfl
  refine ⟨h1, ?_⟩
  intro gpf1 gpf2 gps thickness ink
  have hb : stroke_geom_body E gpf1 gps thickness ink = stroke_geom_body E gpf2 gps thickness ink := by
    funext i st
    simp only [stroke_geom_body, h1 _ gpf1.viewmatrix gpf2.viewmatrix]
  simp only [DRW_gpencil_get_stroke_geom, hb, h1 _ gpf1.viewmatrix gpf2.viewmatrix]

/-! ## Flattening: the reference reads -/

theorem int_of_float_sample_eq [FloorRing K] (n : Nat) :
    int_of_float ((n : K) * 0.75) = (3 * (n : Int)) / 4 := by
  have h0 : (0 : K) ≤ (n : K) * 0.75 := by
    have : (0 : K) ≤ (n : K) := Nat.cast_nonneg n
    norm_num
  unfold int_of_float
  rw [if_pos h0, Int.floor_eq_iff]
  have hd := Int.ediv_add_emod (3 * (n : Int)) 4
  have hr0 := Int.emod_nonneg (3 * (n : Int)) (by norm_num : (4 : Int) ≠ 0)
  have hr1 := Int.emod_lt_of_pos (3 * (n : Int)) (by norm_num : (0 : Int) < 4)
  have hdK : (4 : K) * (((3 * (n : Int)) / 4 : Int) : K) + (((3 * (n : Int)) % 4 : Int) : K)
      = 3 * (n : K) := by
    have := congrArg (fun z : Int => (z : K)) hd
    simpa using this
  have hr0K : (0 : K) ≤ (((3 * (n : Int)) % 4 : Int) : K) := by exact_mod_cast hr0
  have hr1K : (((3 * (n : Int)) % 4 : Int) : K) < 4 := by exact_mod_cast hr1
  constructor
  · norm_num
    linarith
  · norm_num
    linarith

theorem cross_v3_v3v3_self (a : K × K × K) : cross_v3_v3v3 a a = (0, 0, 0) := by
  simp only [cross_v3_v3v3, Prod.mk.injEq]
  refine ⟨?_, ?_, ?_⟩ <;> ring

/-- C23: for every `totpoints >= 2` the sample index `(int)(totpoints x 0.75)` is
`floor(3 totpoints / 4)` and lies in `[1, totpoints - 1]`; on an array of that many
points the reads of the points 0, 1 and of the sample point succeed and
`gpencil_stroke_2d_flat` returns; and for `totpoints = 2` the sample index is 1, the
sample point is the point 1 and every flattened Y coordinate is 0. -/
theorem stroke_2d_flat_reference_reads [FloorRing K] (E : Externals K) :
    (∀ n : Nat, 2 ≤ n →
      int_of_float ((n : K) * 0.75) = (3 * (n : Int)) / 4 ∧
      1 ≤ int_of_float ((n : K) * 0.75) ∧ int_of_float ((n : K) * 0.75) ≤ (n : Int) - 1) ∧
    (∀ pts : List (bGPDspoint K), 2 ≤ pts.length →
      ∃ p0 p1 p3 r, read pts 0 = .ok p0 ∧ read pts 1 = .ok p1 ∧
        read pts (int_of_float ((pts.length : K) * 0.75)) = .ok p3 ∧
        gpencil_stroke_2d_flat E pts (pts.length : Int) = .ok r) ∧
    (∀ pts : List (bGPDspoint K), pts.length = 2 →
      int_of_float ((pts.length : K) * 0.75) = 1 ∧
      ∃ p2d dir, gpencil_stroke_2d_flat E pts (pts.length : Int) = .ok (p2d, dir) ∧
        ∀ q ∈ p2d, q.2 = 0) := by
  have hidx : ∀ n : Nat, 2 ≤ n →
      int_of_float ((n : K) * 0.75) = (3 * (n : Int)) / 4 ∧
      1 ≤ int_of_float ((n : K) * 0.75) ∧ int_of_float ((n : K) * 0.75) ≤ (n : Int) - 1 := by
    intro n hn
    have e := int_of_float_sample_eq (K := K) n
    refine ⟨e, ?_, ?_⟩ <;> rw [e] <;> omega
  refine ⟨hidx, ?_, ?_⟩
  · intro pts h2
    obtain ⟨_, b1, b2⟩ := hidx pts.length h2
    obtain ⟨_, e⟩ := stroke_2d_flat_eq E pts (mk_point 0 0 0) h2
    obtain ⟨_, e0⟩ := read_ok pts 0 (by omega) (by omega)
    obtain ⟨_, e1⟩ := read_ok pts 1 (by omega) (by omega)
    obtain ⟨_, e3⟩ := read_ok pts (int_of_float ((pts.length : K) * 0.75)) (by omega) (by omega)
    exact ⟨_, _, _, _, e0, e1, e3, e⟩
  · intro pts h2
    obtain ⟨a1, _, _⟩ := hidx pts.length (by omega)
    have hone : int_of_float ((pts.length : K) * 0.75) = 1 := by
      rw [a1, h2]
      rfl
    obtain ⟨_, e⟩ := stroke_2d_flat_eq E pts (mk_point 0 0 0) (by omega)
    refine ⟨hone, _, _, e, ?_⟩
    intro q hq
    rw [List.mem_map] at hq
    obtain ⟨pt, _, rfl⟩ := hq
    have hz : normalize_v3 E.sqrtf (0, 0, 0) = ((0 : K), (0 : K), (0 : K)) := by
      simp [normalize_v3, dot_v3v3]
    simp only [hone, Int.toNat_one, cross_v3_v3v3_self]
    have hc : ∀ a : K × K × K, cross_v3_v3v3 (0, 0, 0) a = (0, 0, 0) := by
      intro a
      simp [cross_v3_v3v3]
    rw [hc, hz]
    simp [dot_v3v3]

/-- C23 witness: a stroke of two points over the rationals. -/
theorem stroke_2d_flat_reference_reads_witness :
    int_of_float ((([mk_point (0 : ℚ) 0 0, mk_point 1 0 0].length : Nat) : ℚ) * 0.75) = 1 ∧
    ∃ p2d dir, gpencil_stroke_2d_flat E0 [mk_point (0 : ℚ) 0 0, mk_point 1 0 0]
        (([mk_point (0 : ℚ) 0 0, mk_point 1 0 0].length : Nat) : Int) = .ok (p2d, dir) ∧
      ∀ q ∈ p2d, q.2 = 0 :=
  (stroke_2d_flat_reference_reads E0).2.2 [mk_point (0 : ℚ) 0 0, mk_point 1 0 0] rfl

/-! ## The outline builder with unchecked reads -/

theorem point_at_ndebug_of_ok {K : Type} (stray : Int → bGPDspoint K) (gps : bGPDstroke K)
    (i : Int) (p : bGPDspoint K) (h : point_at gps i = .ok p) :
    point_at_ndebug stray gps i = .ok p := by
  unfold point_at at h
  unfold point_at_ndebug
  cases hp : gps.points with
  | none => rw [hp] at h; simp at h
  | some pts =>
    rw [hp] at h
    simp only at h ⊢
    rw [h]

theorem for_loop_of_ok {σ : Type} (body body1 : Nat → σ → Except Fault σ)
    (hb : ∀ i s s1, body i s = .ok s1 → body1 i s = .ok s1) (n : Nat) :
    ∀ (i : Nat) (s s1 : σ), for_loop body i n s = .ok s1 → for_loop body1 i n s = .ok s1 := by
  induction n with
  | zero => intro i s s1 h; simpa [for_loop] using h
  | succ n ih =>
    intro i s s1 h
    cases hs : body i s with
    | error e => simp [for_loop, hs] at h
    | ok s2 =>
      rw [for_loop_succ _ _ _ _ _ hs] at h
      rw [for_loop_succ _ _ _ _ _ (hb i s s2 hs)]
      exact ih _ _ _ h

theorem bind_eq_ok {α β : Type} {X : Except Fault α} {f : α → Except Fault β} {b : β}
    (h : (X >>= f) = .ok b) : ∃ a, X = .ok a ∧ f a = .ok b := by
  cases X with
  | error e => simp at h
  | ok a => exact ⟨a, rfl, by simpa using h⟩
theorem stroke_geom_body_ndebug_of_ok (stray : Int → bGPDspoint K) (E : Externals K)
    (gpf : bGPDframe K) (gps : bGPDstroke K) (thickness : Int) (ink : K × K × K × K) (i : Nat)
    (st s1 : Gwn_VertBuf K × Nat)
    (h : stroke_geom_body E gpf gps thickness ink i st = .ok s1) :
    stroke_geom_body_ndebug stray E gpf gps thickness ink i st = .ok s1 := by
  unfold stroke_geom_body at h
  unfold stroke_geom_body_ndebug
  by_cases hi : i = 0
  · by_cases hc : is_cyclic gps = true ∧ gps.totpoints > 2
    · simp only [hi, hc, and_self, if_true] at h ⊢
      obtain ⟨p, hp, h⟩ := bind_eq_ok h
      rw [point_at_ndebug_of_ok stray gps _ p hp]
      simp only [except_pure, except_bind_ok] at h ⊢
      obtain ⟨q, hq, h⟩ := bind_eq_ok h
      rw [point_at_ndebug_of_ok stray gps _ q hq]
      exact h
    · simp only [hi, hc, if_true, if_false] at h ⊢
      obtain ⟨p, hp, h⟩ := bind_eq_ok h
      rw [point_at_ndebug_of_ok stray gps _ p hp]
      simp only [except_pure, except_bind_ok] at h ⊢
      obtain ⟨q, hq, h⟩ := bind_eq_ok h
      rw [point_at_ndebug_of_ok stray gps _ q hq]
      exact h
  · simp only [hi, if_false, except_pure, except_bind_ok] at h ⊢
    obtain ⟨q, hq, h⟩ := bind_eq_ok h
    rw [point_at_ndebug_of_ok stray gps _ q hq]
    exact h

/-- Whenever the outline builder with checked reads returns a batch, the builder
with unchecked reads returns the same batch, whatever lies outside the array. -/
theorem stroke_geom_ndebug_of_ok (stray : Int → bGPDspoint K) (E : Externals K)
    (gpf : bGPDframe K) (gps : bGPDstroke K) (thickness : Int) (ink : K × K × K × K)
    (b : Gwn_Batch K) (h : DRW_gpencil_get_stroke_geom E gpf gps thickness ink = .ok b) :
    DRW_gpencil_get_stroke_geom_ndebug stray E gpf gps thickness ink = .ok b := by
  unfold DRW_gpencil_get_stroke_geom at h
  unfold DRW_gpencil_get_stroke_geom_ndebug
  simp only at h ⊢
  obtain ⟨st, hst, h⟩ := bind_eq_ok h
  rw [for_loop_of_ok _ _ (stroke_geom_body_ndebug_of_ok stray E gpf gps thickness ink) _ _ _ _ hst]
  simp only [except_bind_ok]
  by_cases hc : is_cyclic gps = true ∧ gps.totpoints > 2
  · simp only [hc, and_self, if_true] at h ⊢
    obtain ⟨p, hp, h⟩ := bind_eq_ok h
    rw [point_at_ndebug_of_ok stray gps _ p hp]
    simp only [except_pure, except_bind_ok] at h ⊢
    obtain ⟨q, hq, h⟩ := bind_eq_ok h
    rw [point_at_ndebug_of_ok stray gps _ q hq]
    exact h
  · simp only [hc, if_false] at h ⊢
    obtain ⟨p, hp, h⟩ := bind_eq_ok h
    rw [point_at_ndebug_of_ok stray gps _ p hp]
    exact h

/-- The outline builder with unchecked reads on a stroke of one point: the two
adjacency vertices receive stray contents and the vertex 1 holds the point. -/
theorem stroke_geom_ndebug_single (stray : Int → bGPDspoint K) (E : Externals K)
    (gpf : bGPDframe K) (gps : bGPDstroke K) (thickness : Int) (ink : K × K × K × K)
    (p0 : bGPDspoint K) (hpts : gps.points = some [p0]) (hlen : gps.totpoints = 1) :
    ∃ b, DRW_gpencil_get_stroke_geom_ndebug stray E gpf gps thickness ink = .ok b ∧
      holds_point E b.verts 1 p0 thickness ink := by
  have r0 : point_at_ndebug stray gps ((0 : Nat) : Int) = .ok p0 := by
    simp [point_at_ndebug, hpts, read]
  have r1 : point_at_ndebug stray gps 1 = .ok (stray 1) := by
    simp [point_at_ndebug, hpts, read]
  have rm : point_at_ndebug stray gps (1 - 2) = .ok (stray (1 - 2)) := by
    simp [point_at_ndebug, hpts, read]
  have hc : ¬ (is_cyclic gps = true ∧ gps.totpoints > 2) := by
    rw [hlen]
    simp
  have hc1 : ¬ (is_cyclic gps = true ∧ (1 : Int) > 2) := by simp
  have ht : gps.totpoints.toNat = 1 := by rw [hlen]; rfl
  refine ⟨GWN_batch_create_ex .GWN_PRIM_LINE_STRIP_ADJ
    (gpencil_set_stroke_point E
      (gpencil_set_stroke_point E
        (gpencil_set_stroke_point E
          (GWN_vertbuf_data_alloc GWN_vertbuf_create_with_format
            (gps.totpoints + (if is_cyclic gps = true then 1 else 0) + 2))
          gpf.viewmatrix (stray 1) 0 thickness ink)
        gpf.viewmatrix p0 1 thickness ink)
      gpf.viewmatrix (stray (1 - 2)) 2 thickness ink), ?_, ?_⟩
  · unfold DRW_gpencil_get_stroke_geom_ndebug
    simp only [ht, for_loop, stroke_geom_body_ndebug, hc, hc1, if_true, if_false, r0, r1,
      except_bind_ok, except_pure, hlen, rm]
  · simp [holds_point, Gwn_VertBuf.attr_get, writes_set_stroke_point, stroke_vertex,
      GWN_batch_create_ex]

/-- C15: on every stroke of `N >= 1` points whose point array has `totpoints`
elements, cyclic or not, and whatever the memory around the array holds, the
outline builder (reads unchecked, as compiled) returns a buffer whose indices
`1 .. N` hold the points `0 .. N-1` in order; for `N >= 2` every read is inside the
array and the builder with checked reads returns the same buffer; and on a cyclic
stroke of `N > 2` points the index 0 holds the point `N-1`, the index `N+1` the
point 0 and the index `N+2` the point 1. -/
theorem stroke_geom_vertex_sequence (stray : Int → bGPDspoint K) (E : Externals K)
    (gpf : bGPDframe K) (gps : bGPDstroke K) (thickness : Int) (ink : K × K × K × K)
    (pts : List (bGPDspoint K)) (hpts : gps.points = some pts)
    (hlen : gps.totpoints = (pts.length : Int)) (h1 : 1 ≤ pts.length) :
    ∃ b, DRW_gpencil_get_stroke_geom_ndebug stray E gpf gps thickness ink = .ok b ∧
      (2 ≤ pts.length → DRW_gpencil_get_stroke_geom E gpf gps thickness ink = .ok b) ∧
      (∀ i p, pts.get? i = some p → holds_point E b.verts (i + 1) p thickness ink) ∧
      (is_cyclic gps = true → 2 < pts.length →
        ∃ pl p0 p1, pts.get? (pts.length - 1) = some pl ∧ pts.get? 0 = some p0 ∧
          pts.get? 1 = some p1 ∧
          holds_point E b.verts 0 pl thickness ink ∧
          holds_point E b.verts (pts.length + 1) p0 thickness ink ∧
          holds_point E b.verts (pts.length + 2) p1 thickness ink) := by
  by_cases h2 : 2 ≤ pts.length
  · obtain ⟨b, e1, e2, e3, _⟩ := stroke_geom_sequence E gpf gps thickness ink pts hpts hlen h2
    refine ⟨b, stroke_geom_ndebug_of_ok stray E gpf gps thickness ink b e1, fun _ => e1, e2, ?_⟩
    intro hc h3
    obtain ⟨a1, a2, a3⟩ := e3 ⟨hc, by omega⟩
    exact ⟨_, _, _, get?_eq_some_getD pts _ _ (by omega), get?_eq_some_getD pts _ _ (by omega),
      get?_eq_some_getD pts _ _ (by omega), a1, a2, a3⟩
  · obtain ⟨p0, hp0⟩ : ∃ p0, pts = [p0] := by
      match pts, h1, h2 with
      | [p], _, _ => exact ⟨p, rfl⟩
      | [], h, _ => simp at h
      | _ :: _ :: _, _, h => simp at h
    subst hp0
    obtain ⟨b, e1, e2⟩ := stroke_geom_ndebug_single stray E gpf gps thickness ink p0 hpts
      (by simpa using hlen)
    refine ⟨b, e1, fun h => absurd h h2, ?_, fun _ h => absurd h (by simp)⟩
    intro i p hp
    match i, hp with
    | 0, hp =>
      simp only [List.get?_cons_zero, Option.some.injEq] at hp
      subst hp
      exact e2

/-- C15 witness: the stroke of the single point `(0,0,0)`, with the point `(9,9,9)`
lying everywhere around the array. -/
theorem stroke_geom_vertex_sequence_witness :
    1 ≤ [mk_point (0 : ℚ) 0 0].length ∧
    ∃ b, DRW_gpencil_get_stroke_geom_ndebug (fun _ => mk_point 9 9 9) E0 ⟨fun _ _ => 0⟩
        one_point_stroke 3 (1, 1, 1, 1) = .ok b ∧
      holds_point E0 b.verts 1 (mk_point 0 0 0) 3 (1, 1, 1, 1) := by
  obtain ⟨b, e1, _, e2, _⟩ := stroke_geom_vertex_sequence (fun _ => mk_point 9 9 9) E0
    ⟨fun _ _ => 0⟩ one_point_stroke 3 (1, 1, 1, 1) [mk_point 0 0 0] rfl rfl (by decide)
  exact ⟨by decide, b, e1, e2 0 (mk_point 0 0 0) rfl⟩

/-! ## The fill builder below three points -/

/-- Retriangulation, its assertion compiled out, on a stroke of two points: no
triangle is needed, the cache is emptied and the dirty flag cleared. -/
theorem triangulate_ndebug_two [FloorRing K] (E : Externals K) (gps : bGPDstroke K)
    (pts : List (bGPDspoint K)) (hpts : gps.points = some pts) (hlen : pts.length = 2)
    (htot : gps.totpoints = 2) :
    ∃ s, gp_triangulate_stroke_fill_ndebug E gps = .ok s ∧ s.tot_triangles = 0 ∧
      s.triangles = none ∧ needs_recalc s = false ∧ s.points = gps.points ∧
      s.totpoints = gps.totpoints := by
  obtain ⟨p2d, dir, hflat, hl⟩ := stroke_2d_flat_ok E pts (by omega)
  obtain ⟨mm, hmm⟩ := bounding_box_ok p2d false (by
    intro h
    rw [h] at hl
    simp at hl
    omega)
  have hcast : ((pts.length : Nat) : Int) = 2 := by omega
  rw [hcast] at hflat
  unfold gp_triangulate_stroke_fill_ndebug
  simp only [hpts, deref, htot, except_bind_ok, hflat, hmm]
  have h0 : ¬ ((2 : Int) - 2 > 0) := by norm_num
  simp only [h0, if_false, except_pure, except_bind_ok]
  have hg : needs_recalc (⟨some pts, none, 2, 2 - 2, gps.flag, gps.palette, gps.palcolor⟩ :
      bGPDstroke K) = needs_recalc gps := rfl
  by_cases hr : needs_recalc gps = true
  · refine ⟨_, rfl, ?_, ?_, ?_, ?_, ?_⟩ <;> simp only [hg, hr, if_true]
    · simp [clear_recalc]
    · rfl
    · exact needs_recalc_clear_recalc _
    · rfl
    · rfl
  · have hr1 : needs_recalc gps = false := by simpa using hr
    refine ⟨_, rfl, ?_, ?_, ?_, ?_, ?_⟩ <;>
      simp only [hg, hr1, Bool.false_eq_true, if_false]
    · norm_num

theorem fill_geom_of_short [FloorRing K] (E : Externals K) (gps : bGPDstroke K)
    (color : K × K × K × K) (hs : gps.totpoints < 3) :
    DRW_gpencil_get_fill_geom E gps color = .error .assert_failed := by
  unfold DRW_gpencil_get_fill_geom
  have : ¬ gps.totpoints ≥ 3 := by omega
  simp only [this, not_false_eq_true, if_true]
  rfl

/-- C6 (as amended): on a stroke of two points that is marked dirty or whose cache is
empty or absent, the fill builder compiled without `BLI_assert` returns an empty
batch, a triangle list of 0 vertices with nothing written, and leaves the stroke
with an empty cache and a clear dirty flag; compiled with `BLI_assert` it stops at
the entry assertion `totpoints >= 3`. -/
theorem fill_geom_two_point_stroke [FloorRing K] (stray : Int → bGPDspoint K)
    (E : Externals K) (gps : bGPDstroke K) (color : K × K × K × K)
    (pts : List (bGPDspoint K)) (hpts : gps.points = some pts) (hlen : pts.length = 2)
    (htot : gps.totpoints = 2)
    (hcond : needs_recalc gps = true ∨ gps.tot_triangles = 0 ∨ gps.triangles = none) :
    DRW_gpencil_get_fill_geom E gps color = .error .assert_failed ∧
    ∃ b s, DRW_gpencil_get_fill_geom_ndebug stray E gps color = .ok (b, s) ∧
      b.prim_type = Gwn_PrimType.GWN_PRIM_TRIS ∧ b.verts.vertex_len = 0 ∧
      b.verts.writes = [] ∧ s.tot_triangles = 0 ∧ s.triangles = none ∧
      needs_recalc s = false := by
  refine ⟨fill_geom_of_short E gps color (by omega), ?_⟩
  obtain ⟨s, hs, h1, h2, h3, _, _⟩ := triangulate_ndebug_two E gps pts hpts hlen htot
  have hc : needs_recalc gps = true ∨ gps.tot_triangles = 0 ∨ gps.triangles.isNone = true := by
    rcases hcond with h | h | h
    · exact Or.inl h
    · exact Or.inr (Or.inl h)
    · exact Or.inr (Or.inr (by simp [h]))
  have e1 : (ED_gpencil_calc_stroke_uv E s).tot_triangles = 0 := h1
  have e2 : (ED_gpencil_calc_stroke_uv E s).triangles = none := h2
  have e3 : needs_recalc (ED_gpencil_calc_stroke_uv E s) = false := h3
  refine ⟨GWN_batch_create_ex .GWN_PRIM_TRIS
    (GWN_vertbuf_data_alloc GWN_vertbuf_create_with_format 0), ED_gpencil_calc_stroke_uv E s,
    ?_, rfl, rfl, rfl, e1, e2, e3⟩
  unfold DRW_gpencil_get_fill_geom_ndebug
  simp only [hc, if_true, hs, except_bind_ok, except_pure, e1]
  rfl

theorem triangulate_ndebug_of_ok [FloorRing K] (E : Externals K) (gps s : bGPDstroke K)
    (h : gp_triangulate_stroke_fill E gps = .ok s) :
    gp_triangulate_stroke_fill_ndebug E gps = .ok s := by
  unfold gp_triangulate_stroke_fill at h
  unfold gp_triangulate_stroke_fill_ndebug
  by_cases h3 : gps.totpoints ≥ 3
  · simp only [h3, not_true_eq_false, if_false] at h
    exact h
  · simp only [h3, not_false_eq_true, if_true] at h
    exact absurd h (by simp [throw, throwThe, MonadExceptOf.throw])

theorem fill_geom_body_ndebug_of_ok {K : Type} (stray : Int → bGPDspoint K) (gps : bGPDstroke K)
    (color : K × K × K × K) (i : Nat) (st s1 : Gwn_VertBuf K × Nat)
    (h : fill_geom_body gps color i st = .ok s1) :
    fill_geom_body_ndebug stray gps color i st = .ok s1 := by
  unfold fill_geom_body at h
  unfold fill_geom_body_ndebug
  obtain ⟨tris, ht, h⟩ := bind_eq_ok h
  obtain ⟨t, hr, h⟩ := bind_eq_ok h
  rw [ht, except_bind_ok, hr, except_bind_ok]
  refine for_loop_of_ok _ _ ?_ _ _ _ _ h
  intro j s s2 hj
  unfold fill_geom_corner at hj
  unfold fill_geom_corner_ndebug
  obtain ⟨p, hp, hj⟩ := bind_eq_ok hj
  rw [point_at_ndebug_of_ok stray gps _ p hp]
  exact hj

/-- Whenever the fill builder with its assertions and checked reads returns, the
builder compiled without them returns the same batch and stroke. -/
theorem fill_geom_ndebug_of_ok [FloorRing K] (stray : Int → bGPDspoint K) (E : Externals K)
    (gps : bGPDstroke K) (color : K × K × K × K) (r : Gwn_Batch K × bGPDstroke K)
    (h : DRW_gpencil_get_fill_geom E gps color = .ok r) :
    DRW_gpencil_get_fill_geom_ndebug stray E gps color = .ok r := by
  unfold DRW_gpencil_get_fill_geom at h
  unfold DRW_gpencil_get_fill_geom_ndebug
  by_cases h3 : gps.totpoints ≥ 3
  · simp only [h3, not_true_eq_false, if_false] at h
    by_cases hc : needs_recalc gps = true ∨ gps.tot_triangles = 0 ∨ gps.triangles.isNone = true
    · simp only [hc, if_true] at h ⊢
      obtain ⟨u, _, h⟩ := bind_eq_ok h
      obtain ⟨s, hs, h⟩ := bind_eq_ok h
      rw [triangulate_ndebug_of_ok E gps s hs]
      simp only [except_pure, except_bind_ok] at h ⊢
      by_cases h1 : (ED_gpencil_calc_stroke_uv E s).tot_triangles ≥ 1
      · simp only [h1, not_true_eq_false, if_false] at h
        obtain ⟨st, hst, h⟩ := bind_eq_ok h
        rw [for_loop_of_ok _ _ (fill_geom_body_ndebug_of_ok stray _ color) _ _ _ _ hst]
        exact h
      · simp only [h1, not_false_eq_true, if_true] at h
        exact absurd h (by simp [throw, throwThe, MonadExceptOf.throw])
    · simp only [hc, if_false] at h ⊢
      simp only [except_pure, except_bind_ok] at h ⊢
      by_cases h1 : gps.tot_triangles ≥ 1
      · simp only [h1, not_true_eq_false, if_false] at h
        obtain ⟨st, hst, h⟩ := bind_eq_ok h
        rw [for_loop_of_ok _ _ (fill_geom_body_ndebug_of_ok stray _ color) _ _ _ _ hst]
        exact h
      · simp only [h1, not_false_eq_true, if_true] at h
        exact absurd h (by simp [throw, throwThe, MonadExceptOf.throw])
  · simp only [h3, not_false_eq_true, if_true] at h
    exact absurd h (by simp [throw, throwThe, MonadExceptOf.throw])
/-- C6 witness: the open two-point stroke, which has no cache. -/
theorem fill_geom_two_point_stroke_witness :
    DRW_gpencil_get_fill_geom E0 two_point_stroke (1, 1, 1, 1) = .error .assert_failed ∧
    ∃ b s, DRW_gpencil_get_fill_geom_ndebug (fun _ => mk_point 9 9 9) E0 two_point_stroke
        (1, 1, 1, 1) = .ok (b, s) ∧
      b.prim_type = Gwn_PrimType.GWN_PRIM_TRIS ∧ b.verts.vertex_len = 0 ∧
      b.verts.writes = [] ∧ s.tot_triangles = 0 ∧ s.triangles = none ∧
      needs_recalc s = false :=
  fill_geom_two_point_stroke (fun _ => mk_point 9 9 9) E0 two_point_stroke (1, 1, 1, 1)
    [mk_point 0 0 0, mk_point 1 0 0] rfl rfl rfl (Or.inr (Or.inr rfl))

/-- C6 counterexample: the two-point stroke that kept a one-triangle cache through the
cache refresh has fewer than three points, yet the fill builder compiled without
`BLI_assert` returns for it a batch of three vertices built from that cache,
whatever lies past the point array; compiled with `BLI_assert` it returns no batch. -/
theorem fill_geom_clean_cache_not_empty :
    short_cached_stroke.totpoints < 3 ∧
    DRW_gpencil_recalc_geometry_caches E0 short_stale_stroke = .ok short_cached_stroke ∧
    DRW_gpencil_get_fill_geom E0 short_cached_stroke (1, 1, 1, 1) = .error .assert_failed ∧
    ∀ stray : Int → bGPDspoint ℚ,
      ∃ b s, DRW_gpencil_get_fill_geom_ndebug stray E0 short_cached_stroke (1, 1, 1, 1)
          = .ok (b, s) ∧
        b.verts.vertex_len = 3 ∧ b.verts.written .pos = [0, 1, 2] ∧
        b.verts.attr_get .pos 0 = some [0, 0, 0] ∧ b.verts.attr_get .pos 1 = some [1, 0, 0] := by
  refine ⟨by decide, ?_, fill_geom_of_short E0 short_cached_stroke (1, 1, 1, 1) (by decide), ?_⟩
  · rw [recalc_of_short E0 short_stale_stroke (by decide) (by decide)]
    have hu : ED_gpencil_calc_stroke_uv E0 short_stale_stroke = short_stale_stroke := by
      simp [ED_gpencil_calc_stroke_uv, short_stale_stroke, two_point_stroke, E0, mk_point,
        List.enum, List.enumFrom]
    rw [hu]
    rfl
  · intro stray
    have hn : needs_recalc short_cached_stroke = false := needs_recalc_clear_recalc _
    have hb : fill_geom_body_ndebug stray short_cached_stroke (1, 1, 1, 1) 0
        (GWN_vertbuf_data_alloc GWN_vertbuf_create_with_format 3, 0)
        = .ok (gpencil_set_fill_point
            (gpencil_set_fill_point
              (gpencil_set_fill_point (GWN_vertbuf_data_alloc GWN_vertbuf_create_with_format 3) 0
                (mk_point 0 0 0) (1, 1, 1, 1) (0, 0))
              1 (mk_point 1 0 0) (1, 1, 1, 1) (1, 0))
            2 (stray 2) (1, 1, 1, 1) (1, 1), 3) := by
      rfl
    have ht3 : short_cached_stroke.tot_triangles = 1 := rfl
    have htr : short_cached_stroke.triangles.isNone = false := rfl
    refine ⟨GWN_batch_create_ex .GWN_PRIM_TRIS
      (gpencil_set_fill_point
        (gpencil_set_fill_point
          (gpencil_set_fill_point (GWN_vertbuf_data_alloc GWN_vertbuf_create_with_format 3) 0
            (mk_point 0 0 0) (1, 1, 1, 1) (0, 0))
          1 (mk_point 1 0 0) (1, 1, 1, 1) (1, 0))
        2 (stray 2) (1, 1, 1, 1) (1, 1)), short_cached_stroke, ?_, ?_, ?_, ?_, ?_⟩
    · unfold DRW_gpencil_get_fill_geom_ndebug
      simp only [hn, ht3, htr, Bool.false_eq_true, one_ne_zero, or_self, if_false, except_pure,
        except_bind_ok]
      have e3 : ((1 : Int) * 3) = 3 := rfl
      have e1 : (1 : Int).toNat = 1 := rfl
      rw [e3, e1, for_loop_succ _ _ _ _ _ hb]
      rfl
    · rfl
    · simp [Gwn_VertBuf.written, GWN_batch_create_ex, writes_set_fill_point,
        GWN_vertbuf_data_alloc, GWN_vertbuf_create_with_format]
    · simp [Gwn_VertBuf.attr_get, GWN_batch_create_ex, writes_set_fill_point,
        GWN_vertbuf_data_alloc, GWN_vertbuf_create_with_format, mk_point]
    · simp [Gwn_VertBuf.attr_get, GWN_batch_create_ex, writes_set_fill_point,
        GWN_vertbuf_data_alloc, GWN_vertbuf_create_with_format, mk_point]

end Proofs

end GPencil
